import Mathlib

/-!
# PyCNN: the cellular-neural-network simulation engine (cnn.c)

A shallow embedding of the engine of `cnn.c` and a verification of its
specification.

Modelling conventions.

* A C `double` is modelled by an exact rational number (`ℚ`): arithmetic is
  exact, rounding, infinities and NaN are not modelled.
* A `size_t` is modelled by a natural number.  On a grid with `s ≤ w` and
  `s ≤ h` no loop bound wraps around and no index expression does at the cells
  the loops visit, so natural-number arithmetic is the arithmetic of the C
  program there.  For `w < s` or
  `h < s` the C bounds `w-s`, `h-s` wrap around and the C loops leave the
  buffer (undefined behaviour); the model has an empty cell loop there.
* A `double *` buffer is modelled by a total map from offsets to values; a
  store is a pointwise update of that map (`poke`).  A `matrix` is passed by
  value in C, so a callee can change the buffer it points to but never the
  `w` and `h` held by the caller.
* The loop variable `t` of `run_cnn` is a double as well and is exact in
  `run_cnn_loop`.  Where rounding of `t += dt` changes the number of iterations,
  the loop variable alone is modelled bit-exactly in IEEE-754 binary64
  (`b64_time_loop`).
* A counted `for` loop is `for_loop lo hi body`, which runs `body lo`,
  `body (lo+1)`, ..., `body (hi-1)` in that order on the running state.
  The `omp parallel for` loops are modelled in sequential order.
-/

namespace PyCNN

/-! ## Memory and loops -/

/-- Store `v` at offset `i` of the buffer `d`: the C statement `d[i] = v`. -/
def poke (d : Nat → ℚ) (i : Nat) (v : ℚ) : Nat → ℚ :=
  fun j => if j = i then v else d j

/-- Run `f i`, `f (i+1)`, ... for `n` consecutive indices, threading the state. -/
def loop_from {σ : Type} (f : Nat → σ → σ) : Nat → Nat → σ → σ
  | _, 0, st => st
  | i, n + 1, st => loop_from f (i + 1) n (f i st)

/-- The loop `for (i = lo; i < hi; ++i) body`. -/
def for_loop {σ : Type} (lo hi : Nat) (f : Nat → σ → σ) (st : σ) : σ :=
  loop_from f lo (hi - lo) st

/-! ## Data model (cnn.h) -/

/-- The struct `matrix` of cnn.h: `w`, `h` and the row-major buffer `data`. -/
structure matrix where
  w : Nat
  h : Nat
  data : Nat → ℚ

/-- The struct `template3x3` of cnn.h.  The nonlinearity `phi` receives its
payload `phi_data` (a buffer of doubles) as second argument. -/
structure template3x3 where
  a : Nat → ℚ
  b : Nat → ℚ
  z : ℚ
  d : Nat → ℚ
  dij : Nat
  dkl : Nat
  phi : ℚ → (Nat → ℚ) → ℚ
  phi_data : Nat → ℚ

/-- The function `copy_matrix`: a fresh buffer with the same contents. -/
def copy_matrix (m : matrix) : matrix :=
  { w := m.w, h := m.h, data := m.data }

/-- The saturation function `phi` of cnn.c. -/
def phi (x : ℚ) : ℚ :=
  if x < -1 then -1 else if x > 1 then 1 else x

/-! ## Template evaluators -/

/-- The function `linear3x3` of cnn.c, term by term. -/
def linear3x3 (x y : Nat) (state input1 _input2 : matrix) (_t : ℚ)
    (tmpl : template3x3) : ℚ :=
  phi ((state.data (state.w*(y-1) + x-1)) * tmpl.a 0) +
  phi ((state.data (state.w*(y-1) + x  )) * tmpl.a 1) +
  phi ((state.data (state.w*(y-1) + x+1)) * tmpl.a 2) +
  phi ((state.data (state.w*(y  ) + x-1)) * tmpl.a 3) +
  phi ((state.data (state.w*(y  ) + x  )) * tmpl.a 4) +
  phi ((state.data (state.w*(y  ) + x+1)) * tmpl.a 5) +
  phi ((state.data (state.w*(y+1) + x-1)) * tmpl.a 6) +
  phi ((state.data (state.w*(y+1) + x  )) * tmpl.a 7) +
  phi ((state.data (state.w*(y+1) + x+1)) * tmpl.a 8) +
  input1.data (input1.w*(y-1) + x-1) * tmpl.b 0 +
  input1.data (input1.w*(y-1) + x  ) * tmpl.b 1 +
  input1.data (input1.w*(y-1) + x+1) * tmpl.b 2 +
  input1.data (input1.w*(y  ) + x-1) * tmpl.b 3 +
  input1.data (input1.w*(y  ) + x  ) * tmpl.b 4 +
  input1.data (input1.w*(y  ) + x+1) * tmpl.b 5 +
  input1.data (input1.w*(y+1) + x-1) * tmpl.b 6 +
  input1.data (input1.w*(y+1) + x  ) * tmpl.b 7 +
  input1.data (input1.w*(y+1) + x+1) * tmpl.b 8 +
  -state.data (state.w*y + x) + tmpl.z

/-- The local array `ij` of `nonlinear3x3`: the four per-cell quantities. -/
def nonlinear3x3_ij (x y : Nat) (state input1 input2 : matrix) : List ℚ :=
  [ state.data (state.w*y + x),
    phi (state.data (state.w*y + x)),
    input1.data (input1.w*y + x),
    input2.data (input2.w*y + x) ]

/-- The local array `kl` of `nonlinear3x3`: the four neighbourhood arrays. -/
def nonlinear3x3_kl (x y : Nat) (state input1 input2 : matrix) : List (List ℚ) :=
  [ [ state.data (state.w*(y-1) + x-1),
      state.data (state.w*(y-1) + x  ),
      state.data (state.w*(y-1) + x+1),
      state.data (state.w*(y  ) + x-1),
      state.data (state.w*(y  ) + x  ),
      state.data (state.w*(y  ) + x+1),
      state.data (state.w*(y+1) + x-1),
      state.data (state.w*(y+1) + x  ),
      state.data (state.w*(y+1) + x+1) ],
    [ phi (state.data (state.w*(y-1) + x-1)),
      phi (state.data (state.w*(y-1) + x  )),
      phi (state.data (state.w*(y-1) + x+1)),
      phi (state.data (state.w*(y  ) + x-1)),
      phi (state.data (state.w*(y  ) + x  )),
      phi (state.data (state.w*(y  ) + x+1)),
      phi (state.data (state.w*(y+1) + x-1)),
      phi (state.data (state.w*(y+1) + x  )),
      phi (state.data (state.w*(y+1) + x+1)) ],
    [ input1.data (input1.w*(y-1) + x-1),
      input1.data (input1.w*(y-1) + x  ),
      input1.data (input1.w*(y-1) + x+1),
      input1.data (input1.w*(y  ) + x-1),
      input1.data (input1.w*(y  ) + x  ),
      input1.data (input1.w*(y  ) + x+1),
      input1.data (input1.w*(y+1) + x-1),
      input1.data (input1.w*(y+1) + x  ),
      input1.data (input1.w*(y+1) + x+1) ],
    [ input2.data (input2.w*(y-1) + x-1),
      input2.data (input2.w*(y-1) + x  ),
      input2.data (input2.w*(y-1) + x+1),
      input2.data (input2.w*(y  ) + x-1),
      input2.data (input2.w*(y  ) + x  ),
      input2.data (input2.w*(y  ) + x+1),
      input2.data (input2.w*(y+1) + x-1),
      input2.data (input2.w*(y+1) + x  ),
      input2.data (input2.w*(y+1) + x+1) ] ]

/-- The C array access `arr[i]` on a local array of doubles. -/
def arr1 (arr : List ℚ) (i : Nat) : ℚ := arr.getD i 0

/-- The C array access `arr[i][k]` on a local two-dimensional array. -/
def arr2 (arr : List (List ℚ)) (i k : Nat) : ℚ := (arr.getD i []).getD k 0

/-- The function `nonlinear3x3` of cnn.c, term by term. -/
def nonlinear3x3 (x y : Nat) (state input1 input2 : matrix) (_t : ℚ)
    (tmpl : template3x3) : ℚ :=
  let ij := nonlinear3x3_ij x y state input1 input2;
  let kl := nonlinear3x3_kl x y state input1 input2;
  -state.data (state.w*y + x) + tmpl.z
    + arr2 kl 1 0 * tmpl.a 0
    + arr2 kl 1 1 * tmpl.a 1
    + arr2 kl 1 2 * tmpl.a 2
    + arr2 kl 1 3 * tmpl.a 3
    + arr2 kl 1 4 * tmpl.a 4
    + arr2 kl 1 5 * tmpl.a 5
    + arr2 kl 1 6 * tmpl.a 6
    + arr2 kl 1 7 * tmpl.a 7
    + arr2 kl 1 8 * tmpl.a 8
    + arr2 kl 2 0 * tmpl.b 0
    + arr2 kl 2 1 * tmpl.b 1
    + arr2 kl 2 2 * tmpl.b 2
    + arr2 kl 2 3 * tmpl.b 3
    + arr2 kl 2 4 * tmpl.b 4
    + arr2 kl 2 5 * tmpl.b 5
    + arr2 kl 2 6 * tmpl.b 6
    + arr2 kl 2 7 * tmpl.b 7
    + arr2 kl 2 8 * tmpl.b 8
    + tmpl.phi (arr2 kl tmpl.dkl 0 - arr1 ij tmpl.dij) tmpl.phi_data * tmpl.d 0
    + tmpl.phi (arr2 kl tmpl.dkl 1 - arr1 ij tmpl.dij) tmpl.phi_data * tmpl.d 1
    + tmpl.phi (arr2 kl tmpl.dkl 2 - arr1 ij tmpl.dij) tmpl.phi_data * tmpl.d 2
    + tmpl.phi (arr2 kl tmpl.dkl 3 - arr1 ij tmpl.dij) tmpl.phi_data * tmpl.d 3
    + tmpl.phi (arr2 kl tmpl.dkl 4 - arr1 ij tmpl.dij) tmpl.phi_data * tmpl.d 4
    + tmpl.phi (arr2 kl tmpl.dkl 5 - arr1 ij tmpl.dij) tmpl.phi_data * tmpl.d 5
    + tmpl.phi (arr2 kl tmpl.dkl 6 - arr1 ij tmpl.dij) tmpl.phi_data * tmpl.d 6
    + tmpl.phi (arr2 kl tmpl.dkl 7 - arr1 ij tmpl.dij) tmpl.phi_data * tmpl.d 7
    + tmpl.phi (arr2 kl tmpl.dkl 8 - arr1 ij tmpl.dij) tmpl.phi_data * tmpl.d 8

/-! ## Boundary conditions -/

/-- The function `bound_periodic` of cnn.c. -/
def bound_periodic (state : matrix) (s : Nat) : matrix :=
  { w := state.w, h := state.h, data :=
      for_loop 0 s (fun i d0 =>
        let d1 := for_loop 0 state.w (fun j d =>
          let d := poke d (state.w*i + j) (d ((state.h-2*s+i)*state.w + j))
          poke d (state.w*(state.h-i-1) + j) (d (state.w*(2*s-1-i) + j))) d0
        for_loop 0 state.h (fun j d =>
          let d := poke d (state.w*j + i) (d (state.w*j + state.w-2*s+i))
          poke d (state.w*j + state.w-i-1) (d (state.w*j + 2*s-1-i))) d1)
        state.data }

/-- The function `bound_zeroflux` of cnn.c. -/
def bound_zeroflux (state : matrix) (s : Nat) : matrix :=
  { w := state.w, h := state.h, data :=
      for_loop 0 s (fun i d0 =>
        let d1 := for_loop 0 state.w (fun j d =>
          let d := poke d (state.w*i + j) (d (state.w*s + j))
          poke d (state.w*(state.h-i-1) + j) (d (state.w*(state.h-s-1) + j))) d0
        for_loop 0 state.h (fun j d =>
          let d := poke d (state.w*j + i) (d (state.w*j + s))
          poke d (state.w*j + state.w-i-1) (d (state.w*j + state.w-s-1))) d1)
        state.data }

/-- The function `bound_constant` of cnn.c: an empty body. -/
def bound_constant (state : matrix) (_s : Nat) : matrix := state

/-! ## The integrator `run_cnn` -/

/-- The type of the `cell` function pointer, its `cell_data` already bound. -/
abbrev cell_fn : Type := Nat → Nat → matrix → matrix → matrix → ℚ → ℚ

/-- The type of the `bnd` function pointer. -/
abbrev bnd_fn : Type := matrix → Nat → matrix

/-- The call `bnd(m, s)`: the matrix is passed by value, so only the contents
of its buffer can change. -/
def call_bnd (bnd : bnd_fn) (m : matrix) (s : Nat) : matrix :=
  { w := m.w, h := m.h, data := (bnd m s).data }

/-- The variables of the time loop of `run_cnn`: the buffers `*state` and
`*next_state`, and the matrices handed to `update` so far, oldest first. -/
structure cnn_run where
  state : matrix
  next_state : matrix
  observed : List matrix

/-- The body of the innermost loop of `run_cnn` for the cell `(x, y)`, acting
on the pair `(*state, *next_state)`. -/
def rk4_cell (cell : cell_fn) (input1 input2 : matrix) (dt t : ℚ) (x y : Nat)
    (bufs : matrix × matrix) : matrix × matrix :=
  let state := bufs.1
  let next_state := bufs.2
  let xy := y*state.w + x
  let xy_val := state.data xy
  let k1 := dt * cell x y state input1 input2 t
  let state := { state with data := poke state.data xy (xy_val + k1/2) }
  let k2 := dt * cell x y state input1 input2 (t + dt/2)
  let state := { state with data := poke state.data xy (xy_val + k2/2) }
  let k3 := dt * cell x y state input1 input2 (t + dt/2)
  let state := { state with data := poke state.data xy (xy_val + k3) }
  let k4 := dt * cell x y state input1 input2 (t + dt)
  let state := { state with data := poke state.data xy xy_val }
  let next_state := { next_state with
    data := poke next_state.data (y*next_state.w + x)
      (state.data (y*state.w + x) + k1/6 + k2/3 + k3/3 + k4/6) }
  (state, next_state)

/-- One iteration of the time loop of `run_cnn` at time `t`: boundary
condition, pass over the interior cells, `update`, swap of the buffers. -/
def run_cnn_step (s : Nat) (cell : cell_fn) (bnd : bnd_fn) (input1 input2 : matrix)
    (dt t : ℚ) (rs : cnn_run) : cnn_run :=
  let state := call_bnd bnd rs.state s
  let bufs := for_loop s (state.w - s) (fun x bufs =>
      for_loop s (state.h - s) (fun y bufs =>
        rk4_cell cell input1 input2 dt t x y bufs) bufs)
    (state, rs.next_state)
  { state := bufs.2, next_state := bufs.1, observed := rs.observed ++ [bufs.1] }

/-- The time loop `for (double t = 0; t<t_end; t += dt)` of `run_cnn`, started
at time `t`.  The C loop need not terminate (for instance with `dt = 0`), so the
model counts iterations against `fuel` and yields `none` when it runs out. -/
def run_cnn_loop (s : Nat) (cell : cell_fn) (bnd : bnd_fn) (input1 input2 : matrix)
    (dt t_end : ℚ) : Nat → ℚ → cnn_run → Option cnn_run
  | 0, t, rs => if t < t_end then none else some rs
  | fuel + 1, t, rs =>
    if t < t_end then
      run_cnn_loop s cell bnd input1 input2 dt t_end fuel (t + dt)
        (run_cnn_step s cell bnd input1 input2 dt t rs)
    else some rs

/-- The final pass of `run_cnn`: `phi` applied in place to every cell. -/
def saturate_all (state : matrix) : matrix :=
  { w := state.w, h := state.h, data :=
      for_loop 0 state.w (fun x d =>
        for_loop 0 state.h (fun y d =>
          poke d (y*state.w + x) (phi (d (y*state.w + x)))) d)
        state.data }

/-- What a call of `run_cnn` produces: the returned matrix and the matrices
handed to `update`, oldest first. -/
structure cnn_result where
  result : matrix
  observed : List matrix

/-- The variables of `run_cnn` on entry to the time loop. -/
def run_cnn_start (init : matrix) : cnn_run :=
  { state := copy_matrix init, next_state := copy_matrix init, observed := [] }

/-- The function `run_cnn` of cnn.c. -/
def run_cnn (fuel : Nat) (init input1_ input2_ : matrix) (s : Nat) (cell : cell_fn)
    (bnd : bnd_fn) (dt t_end : ℚ) : Option cnn_result :=
  let input1 := call_bnd bnd (copy_matrix input1_) s
  let input2 := call_bnd bnd (copy_matrix input2_) s
  match run_cnn_loop s cell bnd input1 input2 dt t_end fuel 0 (run_cnn_start init) with
  | none => none
  | some rs => some { result := saturate_all rs.state, observed := rs.observed }

/-! ## Specification-side definitions -/

/-- The cell `(x, y)` of a matrix: `m.data[y*m.w + x]`. -/
def cell_at (m : matrix) (x y : Nat) : ℚ := m.data (y*m.w + x)

/-- The matrix `m` with the cell `(x, y)` set to `v`. -/
def set_cell (m : matrix) (x y : Nat) (v : ℚ) : matrix :=
  { w := m.w, h := m.h, data := poke m.data (y*m.w + x) v }

/-- The `k`-th cell of the 3x3 neighbourhood of `(x, y)`, row by row:
`k = 0` is `(x-1, y-1)`, `k = 4` is `(x, y)`, `k = 8` is `(x+1, y+1)`. -/
def neighbor (m : matrix) (x y k : Nat) : ℚ :=
  cell_at m (x - 1 + k % 3) (y - 1 + k / 3)

/-- The Linear3x3 formula as the specification words it. -/
def linear3x3_spec (x y : Nat) (state input1 : matrix) (tmpl : template3x3) : ℚ :=
  (∑ k in Finset.range 9, phi (neighbor state x y k) * tmpl.a k)
    + (∑ k in Finset.range 9, neighbor input1 x y k * tmpl.b k)
    + tmpl.z - cell_at state x y

/-- The field selected by `dij` or `dkl`: `0` raw state, `1` saturated state,
`2` input1, `3` input2. -/
def field_cell (sel : Nat) (state input1 input2 : matrix) (x y : Nat) : ℚ :=
  match sel with
  | 0 => cell_at state x y
  | 1 => phi (cell_at state x y)
  | 2 => cell_at input1 x y
  | _ => cell_at input2 x y

/-- The Nonlinear3x3 formula as the specification words it. -/
def nonlinear3x3_spec (x y : Nat) (state input1 input2 : matrix)
    (tmpl : template3x3) : ℚ :=
  tmpl.z - cell_at state x y
    + (∑ k in Finset.range 9, phi (neighbor state x y k) * tmpl.a k)
    + (∑ k in Finset.range 9, neighbor input1 x y k * tmpl.b k)
    + (∑ k in Finset.range 9,
        tmpl.phi (field_cell tmpl.dkl state input1 input2 (x - 1 + k % 3) (y - 1 + k / 3)
                  - field_cell tmpl.dij state input1 input2 x y) tmpl.phi_data * tmpl.d k)

/-- The classical RK4 update of the cell `(x, y)` of `grid` as the
specification words it: `v` is the value of the cell in `grid`, each later
stage evaluates `f` on `grid` with only that cell replaced. -/
def rk4_value (f : cell_fn) (input1 input2 : matrix) (dt t : ℚ) (grid : matrix)
    (x y : Nat) : ℚ :=
  let v := cell_at grid x y
  let k1 := dt * f x y grid input1 input2 t
  let k2 := dt * f x y (set_cell grid x y (v + k1/2)) input1 input2 (t + dt/2)
  let k3 := dt * f x y (set_cell grid x y (v + k2/2)) input1 input2 (t + dt/2)
  let k4 := dt * f x y (set_cell grid x y (v + k3)) input1 input2 (t + dt)
  v + k1/6 + k2/3 + k3/3 + k4/6

/-- The cell `(x, y)` lies in the margin of width `s` of a `w` by `h` grid: it
is outside the range `s ≤ x < w-s`, `s ≤ y < h-s` of the cell loop. -/
def is_margin (w h s x y : Nat) : Prop :=
  ¬ (s ≤ x ∧ x < w - s ∧ s ≤ y ∧ y < h - s)

instance (w h s x y : Nat) : Decidable (is_margin w h s x y) := by
  unfold is_margin
  infer_instance

/-- A 3x3 matrix with every cell equal to `v`. -/
def const3 (v : ℚ) : matrix := { w := 3, h := 3, data := fun _ => v }

/-- A template with centre self-feedback weight `c` and all other entries zero. -/
def centre_template (c : ℚ) : template3x3 :=
  { a := fun k => if k = 4 then c else 0, b := fun _ => 0, z := 0, d := fun _ => 0,
    dij := 0, dkl := 0, phi := fun v _ => v, phi_data := fun _ => 0 }

/-- The pure-decay cell function: `linear3x3` with the all-zero template. -/
def decay_cell : cell_fn :=
  fun x y state input1 input2 t => linear3x3 x y state input1 input2 t (centre_template 0)

/-- A 3x3 matrix whose cell at offset `i` holds the value `i`. -/
def ramp3 : matrix := { w := 3, h := 3, data := fun i => (i : ℚ) }

/-! ## The time loop after a given number of iterations -/

/-- The value of the loop variable `t` of `run_cnn` after `k` executions of
`t += dt`, starting from `t = 0`. -/
def loop_time (dt : ℚ) : Nat → ℚ
  | 0 => 0
  | k + 1 => loop_time dt k + dt

/-- The variables of the time loop of `run_cnn` after `n` iterations of its
body, the first at `t = 0` and each later one after one more `t += dt`. -/
def run_cnn_steps (s : Nat) (cell : cell_fn) (bnd : bnd_fn) (input1 input2 : matrix)
    (dt : ℚ) : Nat → cnn_run → cnn_run
  | 0, rs => rs
  | n + 1, rs =>
    run_cnn_step s cell bnd input1 input2 dt (loop_time dt n)
      (run_cnn_steps s cell bnd input1 input2 dt n rs)

/-- The RK4 amplification factor of the decay equation for the step `dt`. -/
def decay_factor (dt : ℚ) : ℚ := 1 - dt + dt^2/2 - dt^3/6 + dt^4/24

/-! ## Matrix utilities (cnn.c) -/

/-- The function `create_matrix`: `malloc` leaves the buffer uninitialised; its
content is the parameter `junk`. -/
def create_matrix (w h : Nat) (junk : Nat → ℚ) : matrix :=
  { w := w, h := h, data := junk }

/-- The call `memcpy(dst + doff, src + soff, sizeof(double)*n)` between two
distinct buffers. -/
def memcpy (dst : Nat → ℚ) (doff : Nat) (src : Nat → ℚ) (soff n : Nat) : Nat → ℚ :=
  for_loop 0 n (fun k d => poke d (doff + k) (src (soff + k))) dst

/-- The function `expand_matrix` of cnn.c (its parameter `s` is unused). -/
def expand_matrix (m : matrix) (_s : Nat) (junk : Nat → ℚ) : matrix :=
  let res := create_matrix (m.w + 2) (m.h + 2) junk
  { w := res.w, h := res.h, data :=
      for_loop 1 (res.h - 1) (fun i d =>
        memcpy d (i*res.w + 1) m.data ((i-1)*m.w) m.w) res.data }

/-- The function `shrink_matrix` of cnn.c (its parameter `s` is unused). -/
def shrink_matrix (m : matrix) (_s : Nat) (junk : Nat → ℚ) : matrix :=
  let res := create_matrix (m.w - 2) (m.h - 2) junk
  { w := res.w, h := res.h, data :=
      for_loop 0 res.h (fun i d =>
        memcpy d (i*res.w) m.data ((i+1)*m.w + 1) res.w) res.data }

/-- The function `fill_bounds` of cnn.c. -/
def fill_bounds (m : matrix) (s : Nat) (val : ℚ) : matrix :=
  { w := m.w, h := m.h, data :=
      for_loop 0 s (fun i d0 =>
        let d1 := for_loop 0 m.w (fun j d =>
          let d := poke d (m.w*i + j) val
          poke d (m.w*(m.h-1-i) + j) val) d0
        for_loop 0 m.h (fun j d =>
          let d := poke d (m.w*j + i) val
          poke d (m.w*(m.h-1-j) + i) val) d1)
        m.data }

/-! ## `fill_matrix` and the byte-level `memset` -/

/-- The C conversion of a `double` to `int` (the second parameter of `memset`
is an `int`): truncation toward zero.  Values outside the range of `int` are
not modelled. -/
def double_to_int (val : ℚ) : Int := if 0 ≤ val then ⌊val⌋ else ⌈val⌉

/-- The conversion of the `int` to `unsigned char` inside `memset`. -/
def int_to_uchar (i : Int) : Nat := (i % 256).toNat

/-- The finite number whose IEEE-754 binary64 encoding is `bits` (sign bit 63,
exponent bits 62..52, fraction bits 51..0); `none` for an infinity or a NaN. -/
def b64_decode (bits : Nat) : Option ℚ :=
  let sign : Nat := bits / 2^63 % 2
  let ex : Nat := bits / 2^52 % 2^11
  let frac : Nat := bits % 2^52
  if ex = 2047 then none
  else
    let mag : ℚ :=
      if ex = 0 then (frac : ℚ) * 2^(-1074 : Int)
      else (((2^52 + frac : Nat) : ℚ)) * 2^((ex : Int) - 1075)
    some (if sign = 1 then -mag else mag)

/-- The function `fill_matrix` of cnn.c: `memset(m.data, val, sizeof(double)*m.w*m.h)`
stores the byte `(unsigned char)(int)val` into each of the eight bytes of each of
the `m.w*m.h` doubles.  The result is `none` when that bit pattern is not a finite
number. -/
def fill_matrix (m : matrix) (val : ℚ) : Option matrix :=
  let byte := int_to_uchar (double_to_int val)
  match b64_decode (byte * 0x0101010101010101) with
  | none => none
  | some v => some { w := m.w, h := m.h, data := fun i => if i < m.w*m.h then v else m.data i }

/-! ## The loop variable in binary64 arithmetic

The time loop `for (double t = 0; t<t_end; t += dt)` in IEEE-754 binary64
arithmetic with round-to-nearest-even.  A nonnegative finite double is the pair
`(m, e)` of value `m * 2^e`; the exponent range (overflow, subnormal numbers) is
not modelled. -/

/-- Halve `m` until it has at most 54 bits, recording whether a one was shifted
out (the sticky bit). -/
def b64_shift : Nat → Nat → Int → Bool → Nat × Int × Bool
  | 0, m, e, sticky => (m, e, sticky)
  | fuel + 1, m, e, sticky =>
    if m < 2^54 then (m, e, sticky)
    else b64_shift fuel (m / 2) (e + 1) (sticky || m % 2 == 1)

/-- Round `m * 2^e` to a significand of at most 53 bits, to nearest, ties to
even. -/
def b64_round (m : Nat) (e : Int) : Nat × Int :=
  if m < 2^53 then (m, e)
  else
    let r := b64_shift 2200 m e false
    let q := r.1 / 2
    if r.1 % 2 = 1 ∧ (r.2.2 = true ∨ q % 2 = 1) then (q + 1, r.2.1 + 1) else (q, r.2.1 + 1)

/-- The binary64 sum of two nonnegative doubles: the exact sum, rounded. -/
def b64_add (a b : Nat × Int) : Nat × Int :=
  let e := min a.2 b.2
  b64_round (a.1 * 2^(a.2 - e).toNat + b.1 * 2^(b.2 - e).toNat) e

/-- The comparison `a < b` of two nonnegative doubles. -/
def b64_lt (a b : Nat × Int) : Bool :=
  let e := min a.2 b.2
  decide (a.1 * 2^(a.2 - e).toNat < b.1 * 2^(b.2 - e).toNat)

/-- The value of a nonnegative double. -/
def b64_val (a : Nat × Int) : ℚ := (a.1 : ℚ) * 2^a.2

/-- The number of iterations of `for (double t = 0; t<t_end; t += dt)` in
binary64 arithmetic, counted from the state `(t, n)`; `none` when `fuel`
iterations do not end the loop. -/
def b64_time_loop (dt t_end : Nat × Int) : Nat → Nat × Int → Nat → Option Nat
  | 0, t, n => if b64_lt t t_end then none else some n
  | fuel + 1, t, n =>
    if b64_lt t t_end then b64_time_loop dt t_end fuel (b64_add t dt) (n + 1) else some n

/-- The loop variable after `k` executions of `t += dt` in binary64 arithmetic. -/
def b64_loop_time (dt : Nat × Int) : Nat → Nat × Int
  | 0 => (0, 0)
  | k + 1 => b64_add (b64_loop_time dt k) dt

/-- The double nearest to `0.1`, that is `0x1.999999999999ap-4`. -/
def b64_tenth : Nat × Int := (3602879701896397, -55)

/-- The double `1.0`. -/
def b64_one : Nat × Int := (1, 0)

/-! ## The binding layer (pycnn.c) -/

/-- The macro `ZEROFLUX` of pycnn.h. -/
def ZEROFLUX : ℚ := 2

/-- The macro `PERIODIC` of pycnn.h. -/
def PERIODIC : ℚ := 3

/-- The values of the global function pointer `tem_func`. -/
inductive tem_func_ptr where
  | linear3x3 : tem_func_ptr
  | nonlinear3x3 : tem_func_ptr
  | custom (tem : cell_fn) : tem_func_ptr

/-- The global variables of pycnn.c (`tem_data` is `&tem3x3` for the built-in
evaluators and `NULL` for a custom one; the window is not modelled). -/
structure py_globals where
  tem3x3 : template3x3
  tem_func : tem_func_ptr
  init : matrix
  input1 : matrix
  input2 : matrix
  bnd : ℚ
  s : Nat

/-- The loop of `py_set_template3x3` over `d[i]`, ..., `d[i+n-1]`: `true` when it
leaves through the `return` inside, at the first nonzero entry. -/
def d_scan (d : Nat → ℚ) : Nat → Nat → Bool
  | _, 0 => false
  | i, n + 1 => if d i ≠ 0 then true else d_scan d (i + 1) n

/-- The function `py_set_template3x3` of pycnn.c. -/
def py_set_template3x3 (g : py_globals) (tm : template3x3) : py_globals :=
  { g with
    tem3x3 := tm
    s := 1
    tem_func := if d_scan tm.d 0 9 then tem_func_ptr.nonlinear3x3 else tem_func_ptr.linear3x3 }

/-- The function `py_set_template_custom` of pycnn.c. -/
def py_set_template_custom (g : py_globals) (tem : cell_fn) (s_val : Nat) : py_globals :=
  { g with
    tem_func := tem_func_ptr.custom tem
    s := s_val }

/-- The cell function that `run_cnn` calls for the globals `g`: `tem_func` with
`tem_data` bound. -/
def py_tem_cell (g : py_globals) : cell_fn :=
  match g.tem_func with
  | tem_func_ptr.linear3x3 =>
    fun x y state input1 input2 t => linear3x3 x y state input1 input2 t g.tem3x3
  | tem_func_ptr.nonlinear3x3 =>
    fun x y state input1 input2 t => nonlinear3x3 x y state input1 input2 t g.tem3x3
  | tem_func_ptr.custom tem => tem

/-- The choice of `bnd_func` in `py_apply_template`. -/
def py_bnd_func (bnd : ℚ) : bnd_fn :=
  if bnd = ZEROFLUX then bound_zeroflux
  else if bnd = PERIODIC then bound_periodic
  else bound_constant

/-- The function `py_apply_template` of pycnn.c.  The animation flags choose the
observer and handle the window; they do not enter the returned matrix and are
not modelled. -/
def py_apply_template (fuel : Nat) (g : py_globals) (dt t_end : ℚ) : Option cnn_result :=
  let init := fill_bounds g.init 1 g.bnd
  let input1 := fill_bounds g.input1 1 g.bnd
  let input2 := fill_bounds g.input2 1 g.bnd
  run_cnn fuel init input1 input2 1 (py_tem_cell g) (py_bnd_func g.bnd) dt t_end

/-! ## More example data -/

/-- A `w` by `h` matrix with every cell equal to `v`. -/
def const_matrix (w h : Nat) (v : ℚ) : matrix := { w := w, h := h, data := fun _ => v }

/-- The 4x4 matrix whose interior 2x2 cells are `1` and whose margin is `0`. -/
def init4 : matrix :=
  { w := 4, h := 4, data := fun i => if i = 5 ∨ i = 6 ∨ i = 9 ∨ i = 10 then 1 else 0 }

/-- A custom cell function with the constant derivative `1`. -/
def unit_cell : cell_fn := fun _ _ _ _ _ _ => 1

/-- Globals of pycnn.c holding the all-zero template, the given evaluator,
matrices and boundary value. -/
def py_example (tem_func : tem_func_ptr) (init input1 input2 : matrix) (bnd : ℚ) :
    py_globals :=
  { tem3x3 := centre_template 0, tem_func := tem_func, init := init, input1 := input1,
    input2 := input2, bnd := bnd, s := 1 }

/-- Globals with a 3x3 `init` and a 4x4 `input1`. -/
def mismatch_globals : py_globals :=
  py_example tem_func_ptr.linear3x3 (const3 (1/2)) (const_matrix 4 4 0) (const3 0) 0

/-- Globals after `py_set_template_custom(unit_cell, 2)` on 5x5 matrices of
zeros with the Constant boundary value 0. -/
def radius2_globals : py_globals :=
  py_set_template_custom
    (py_example tem_func_ptr.linear3x3 (const_matrix 5 5 0) (const_matrix 5 5 0)
      (const_matrix 5 5 0) 0) unit_cell 2

/-! ## The nonlinearity library: piecewise functions (cnn.c) -/

/-- The loop `for (int i = 1; i<p[0]; i += 2)` of `nonlin_pw_constant`, entered
with the loop variable `i`, followed by the `return` after it.  The result is
`none` when `fuel` iterations do not end the loop. -/
def nonlin_pw_constant_loop (val : ℚ) (p : Nat → ℚ) : Nat → Nat → Option ℚ
  | 0, i =>
    if (i : ℚ) < p 0 then none else some (p (double_to_int (p 0) - 1).toNat)
  | fuel + 1, i =>
    if (i : ℚ) < p 0 then
      if val < p i then some (p (i + 1))
      else nonlin_pw_constant_loop val p fuel (i + 2)
    else some (p (double_to_int (p 0) - 1).toNat)

/-- The function `nonlin_pw_constant` of cnn.c on the payload `p`. -/
def nonlin_pw_constant (fuel : Nat) (val : ℚ) (p : Nat → ℚ) : Option ℚ :=
  nonlin_pw_constant_loop val p fuel 1

/-- The loop `for (int i = 1; i<p[0]; i += 3)` of `nonlin_pw_linear`, entered
with the loop variable `i`, followed by the `return` after it.  The result is
`none` when `fuel` iterations do not end the loop. -/
def nonlin_pw_linear_loop (val : ℚ) (p : Nat → ℚ) : Nat → Nat → Option ℚ
  | 0, i =>
    if (i : ℚ) < p 0 then none
    else some (val * p (double_to_int (p 0) - 2).toNat + p (double_to_int (p 0) - 1).toNat)
  | fuel + 1, i =>
    if (i : ℚ) < p 0 then
      if val < p i then some (val * p (i + 1) + p (i + 2))
      else nonlin_pw_linear_loop val p fuel (i + 3)
    else some (val * p (double_to_int (p 0) - 2).toNat + p (double_to_int (p 0) - 1).toNat)

/-- The function `nonlin_pw_linear` of cnn.c on the payload `p`. -/
def nonlin_pw_linear (fuel : Nat) (val : ℚ) (p : Nat → ℚ) : Option ℚ :=
  nonlin_pw_linear_loop val p fuel 1

/-- A payload array given by the list of its elements. -/
def payload (l : List ℚ) : Nat → ℚ := fun i => l.getD i 0

/-! ## Pixels and samples (cnn.c) -/

/-- The struct `SDL_Color`: the channels `r`, `g`, `b`, each in `0..255`. -/
structure SDL_Color where
  r : Nat
  g : Nat
  b : Nat

/-- The body of the loop of `img_to_data`: the sample stored for a pixel of
colour `cl`. -/
def img_to_data_sample (cl : SDL_Color) : ℚ :=
  (0.2126*cl.r + 0.7152*cl.g + 0.0722*cl.b)/(-127.5) + 1

/-- The C conversion of a `double` to `Uint8`: truncation toward zero (values
outside `0..255` are reduced modulo 256 here; C leaves them undefined). -/
def double_to_uint8 (v : ℚ) : Nat := int_to_uchar (double_to_int v)

/-- The body of the loop of `data_to_img`: the gray level `rgb` written to all
three channels for the sample `v`. -/
def data_to_img_gray (v : ℚ) : Nat := double_to_uint8 ((v - 1) * -127)

/-- The body of the loop of `update_animate`: the gray level `rgb` drawn for the
sample `v`, an `int` clamped to `0..255`. -/
def update_animate_gray (v : ℚ) : Int :=
  let rgb := double_to_int ((v - 1) * -127.5)
  let rgb := if rgb > 255 then 255 else rgb
  if rgb < 0 then 0 else rgb

/-! ## Offsets read and written -/

/-- The nine offsets `w*(y-1) + x-1`, ..., `w*(y+1) + x+1` at which
`linear3x3` and `nonlinear3x3` read a buffer of row length `w`, in the order of
the source. -/
def stencil3x3 (w x y : Nat) : List Nat :=
  [ w*(y-1) + x-1, w*(y-1) + x, w*(y-1) + x+1,
    w*(y  ) + x-1, w*(y  ) + x, w*(y  ) + x+1,
    w*(y+1) + x-1, w*(y+1) + x, w*(y+1) + x+1 ]

/-- The offsets of `state.data` that `linear3x3` reads at the cell `(x, y)`:
the stencil and `state.w*y + x`. -/
def linear3x3_state_reads (x y : Nat) (state : matrix) : List Nat :=
  stencil3x3 state.w x y ++ [state.w*y + x]

/-- The offsets of a buffer (`state.data`, `input1.data` or `input2.data`) that
`nonlinear3x3` reads at the cell `(x, y)`: `m.w*y + x` for the array `ij` and
the stencil for the array `kl`. -/
def nonlinear3x3_reads (x y : Nat) (m : matrix) : List Nat :=
  (m.w*y + x) :: stencil3x3 m.w x y

/-- The cell pass of one step of `run_cnn` with the cells visited one after the
other in the order of the list `cells`. -/
def cell_pass_in_order (cell : cell_fn) (input1 input2 : matrix) (dt t : ℚ)
    (cells : List (Nat × Nat)) (bufs : matrix × matrix) : matrix × matrix :=
  cells.foldl (fun bufs c => rk4_cell cell input1 input2 dt t c.1 c.2 bufs) bufs

/-! ## Loops and stores: general lemmas -/

theorem poke_same (d : Nat → ℚ) (i : Nat) (v : ℚ) : poke d i v i = v := by
  simp [poke]

theorem poke_other (d : Nat → ℚ) (i j : Nat) (v : ℚ) (h : j ≠ i) : poke d i v j = d j := by
  simp [poke, h]

theorem poke_poke (d : Nat → ℚ) (i : Nat) (u v : ℚ) : poke (poke d i u) i v = poke d i v := by
  funext j
  by_cases h : j = i <;> simp [poke, h]

theorem poke_self (d : Nat → ℚ) (i : Nat) : poke d i (d i) = d := by
  funext j
  by_cases h : j = i <;> simp [poke, h]

theorem idx_inj (w x y x1 y1 : Nat) (hx : x < w) (hx1 : x1 < w) :
    y*w + x = y1*w + x1 ↔ y = y1 ∧ x = x1 := by
  constructor
  · intro h
    rcases Nat.lt_trichotomy y y1 with hlt | heq | hgt
    · have h1 : (y + 1) * w ≤ y1 * w := Nat.mul_le_mul_right w hlt
      rw [Nat.succ_mul] at h1
      omega
    · subst heq
      exact ⟨rfl, by omega⟩
    · have h1 : (y1 + 1) * w ≤ y * w := Nat.mul_le_mul_right w hgt
      rw [Nat.succ_mul] at h1
      omega
  · rintro ⟨rfl, rfl⟩
    rfl

theorem loop_from_invariant {σ : Type} (f : Nat → σ → σ) (P : Nat → σ → Prop) :
    ∀ (n i : Nat) (st : σ), P i st →
      (∀ j st1, i ≤ j → j < i + n → P j st1 → P (j + 1) (f j st1)) →
      P (i + n) (loop_from f i n st) := by
  intro n
  induction n with
  | zero => intro i st h _; simpa [loop_from] using h
  | succ n ih =>
    intro i st h hs
    have h1 : P (i + 1) (f i st) := hs i st (Nat.le_refl i) (by omega) h
    have h2 := ih (i + 1) (f i st) h1 (fun j st1 hj hj1 hp => hs j st1 (by omega) (by omega) hp)
    have e : i + 1 + n = i + (n + 1) := by omega
    rw [e] at h2
    simpa [loop_from] using h2

theorem for_loop_empty {σ : Type} (lo hi : Nat) (f : Nat → σ → σ) (st : σ) (h : hi ≤ lo) :
    for_loop lo hi f st = st := by
  have e : hi - lo = 0 := by omega
  simp [for_loop, e, loop_from]

theorem for_loop_invariant {σ : Type} (lo hi : Nat) (f : Nat → σ → σ) (P : Nat → σ → Prop)
    (st : σ) (hle : lo ≤ hi) (h0 : P lo st)
    (hs : ∀ j st1, lo ≤ j → j < hi → P j st1 → P (j + 1) (f j st1)) :
    P hi (for_loop lo hi f st) := by
  have h := loop_from_invariant f P (hi - lo) lo st h0
    (fun j st1 hj hj1 hp => hs j st1 hj (by omega) hp)
  have e : lo + (hi - lo) = hi := by omega
  rw [e] at h
  exact h

theorem loop_from_rel {σ τ : Type} (R : σ → τ → Prop) (f : Nat → σ → σ) (g : Nat → τ → τ)
    (hfg : ∀ i a b, R a b → R (f i a) (g i b)) :
    ∀ (n i : Nat) (a : σ) (b : τ), R a b → R (loop_from f i n a) (loop_from g i n b) := by
  intro n
  induction n with
  | zero => intro i a b h; simpa [loop_from] using h
  | succ n ih =>
    intro i a b h
    simpa [loop_from] using ih (i + 1) (f i a) (g i b) (hfg i a b h)

theorem for_loop_rel {σ τ : Type} (R : σ → τ → Prop) (lo hi : Nat) (f : Nat → σ → σ)
    (g : Nat → τ → τ) (hfg : ∀ i a b, R a b → R (f i a) (g i b)) (a : σ) (b : τ) (h : R a b) :
    R (for_loop lo hi f a) (for_loop lo hi g b) :=
  loop_from_rel R f g hfg (hi - lo) lo a b h

/-- One column of a pass over a grid: the cells `(x, y)` with `ylo ≤ y < yhi`
are rewritten from their own old value, all other cells are untouched. -/
theorem column_pass_apply (w x ylo yhi : Nat) (g : Nat → ℚ → ℚ) (d0 : Nat → ℚ)
    (hx : x < w) (x1 y1 : Nat) (hx1 : x1 < w) :
    for_loop ylo yhi (fun y d => poke d (y*w + x) (g y (d (y*w + x)))) d0 (y1*w + x1)
      = if x1 = x ∧ ylo ≤ y1 ∧ y1 < yhi then g y1 (d0 (y1*w + x1)) else d0 (y1*w + x1) := by
  by_cases hle : ylo ≤ yhi
  · refine for_loop_invariant ylo yhi _
      (fun k d => ∀ x1 y1, x1 < w → d (y1*w + x1)
        = if x1 = x ∧ ylo ≤ y1 ∧ y1 < k then g y1 (d0 (y1*w + x1)) else d0 (y1*w + x1))
      d0 hle ?_ ?_ x1 y1 hx1
    · intro x1 y1 _
      have : ¬ (x1 = x ∧ ylo ≤ y1 ∧ y1 < ylo) := by omega
      simp [this]
    · intro k d hk hk1 ih x1 y1 hx1
      have hkk := ih x k hx
      have hn : ¬ (x = x ∧ ylo ≤ k ∧ k < k) := by omega
      rw [if_neg hn] at hkk
      by_cases hc : y1 = k ∧ x1 = x
      · obtain ⟨rfl, rfl⟩ := hc
        have hp : (x1 = x1 ∧ ylo ≤ y1 ∧ y1 < y1 + 1) := by omega
        rw [poke_same, if_pos hp, hkk]
      · have hne : y1*w + x1 ≠ k*w + x := fun h => hc ((idx_inj w x1 y1 x k hx1 hx).1 h)
        rw [poke_other _ _ _ _ hne, ih x1 y1 hx1]
        by_cases hq : x1 = x ∧ ylo ≤ y1 ∧ y1 < k
        · have hp : x1 = x ∧ ylo ≤ y1 ∧ y1 < k + 1 := by omega
          rw [if_pos hq, if_pos hp]
        · have hp : ¬ (x1 = x ∧ ylo ≤ y1 ∧ y1 < k + 1) := by omega
          rw [if_neg hq, if_neg hp]
  · have hn : ¬ (x1 = x ∧ ylo ≤ y1 ∧ y1 < yhi) := by omega
    rw [for_loop_empty _ _ _ _ (by omega), if_neg hn]

/-- A pass over the cells `(x, y)` with `xlo ≤ x < xhi` and `ylo ≤ y < yhi` of a
grid of width `w`: each such cell is rewritten from its own old value, all
other cells are untouched. -/
theorem grid_pass_apply (w xlo xhi ylo yhi : Nat) (g : Nat → Nat → ℚ → ℚ) (d0 : Nat → ℚ)
    (hxhi : xhi ≤ w) (x1 y1 : Nat) (hx1 : x1 < w) :
    for_loop xlo xhi (fun x d =>
        for_loop ylo yhi (fun y d => poke d (y*w + x) (g x y (d (y*w + x)))) d) d0 (y1*w + x1)
      = if xlo ≤ x1 ∧ x1 < xhi ∧ ylo ≤ y1 ∧ y1 < yhi then g x1 y1 (d0 (y1*w + x1))
        else d0 (y1*w + x1) := by
  by_cases hle : xlo ≤ xhi
  · refine for_loop_invariant xlo xhi _
      (fun k d => ∀ x1 y1, x1 < w → d (y1*w + x1)
        = if xlo ≤ x1 ∧ x1 < k ∧ ylo ≤ y1 ∧ y1 < yhi then g x1 y1 (d0 (y1*w + x1))
          else d0 (y1*w + x1))
      d0 hle ?_ ?_ x1 y1 hx1
    · intro x1 y1 _
      have : ¬ (xlo ≤ x1 ∧ x1 < xlo ∧ ylo ≤ y1 ∧ y1 < yhi) := by omega
      simp [this]
    · intro k d hk hk1 ih x1 y1 hx1
      rw [column_pass_apply w k ylo yhi (g k) d (by omega) x1 y1 hx1, ih x1 y1 hx1]
      by_cases hc : x1 = k ∧ ylo ≤ y1 ∧ y1 < yhi
      · have hn : ¬ (xlo ≤ x1 ∧ x1 < k ∧ ylo ≤ y1 ∧ y1 < yhi) := by omega
        have hp : xlo ≤ x1 ∧ x1 < k + 1 ∧ ylo ≤ y1 ∧ y1 < yhi := by omega
        obtain ⟨rfl, _, _⟩ := hc
        simp only [hn, hp, if_true, if_false, true_and, and_self]
        simp [*]
      · rw [if_neg hc]
        by_cases hq : xlo ≤ x1 ∧ x1 < k ∧ ylo ≤ y1 ∧ y1 < yhi
        · have hp : xlo ≤ x1 ∧ x1 < k + 1 ∧ ylo ≤ y1 ∧ y1 < yhi := by omega
          rw [if_pos hq, if_pos hp]
        · have hp : ¬ (xlo ≤ x1 ∧ x1 < k + 1 ∧ ylo ≤ y1 ∧ y1 < yhi) := by omega
          rw [if_neg hq, if_neg hp]
  · have hn : ¬ (xlo ≤ x1 ∧ x1 < xhi ∧ ylo ≤ y1 ∧ y1 < yhi) := by omega
    rw [for_loop_empty _ _ _ _ (by omega), if_neg hn]

/-! ## The integrator: one step -/

theorem rk4_cell_eq (cell : cell_fn) (input1 input2 : matrix) (dt t : ℚ) (x y : Nat)
    (G nx : matrix) :
    rk4_cell cell input1 input2 dt t x y (G, nx)
      = (G, { w := nx.w, h := nx.h,
              data := poke nx.data (y*nx.w + x) (rk4_value cell input1 input2 dt t G x y) }) := by
  simp only [rk4_cell, rk4_value, set_cell, cell_at, poke_poke, poke_self, poke_same]

/-- The cell pass of one step leaves the current buffer as the boundary
condition left it, and stores the RK4 values into the other buffer. -/
theorem cell_pass_eq (s : Nat) (cell : cell_fn) (input1 input2 : matrix) (dt t : ℚ)
    (G nx : matrix) :
    for_loop s (G.w - s) (fun x bufs =>
        for_loop s (G.h - s) (fun y bufs =>
          rk4_cell cell input1 input2 dt t x y bufs) bufs) (G, nx)
      = (G, { w := nx.w, h := nx.h,
              data := for_loop s (G.w - s) (fun x d =>
                for_loop s (G.h - s) (fun y d =>
                  poke d (y*nx.w + x) ((fun x y (_ : ℚ) =>
                    rk4_value cell input1 input2 dt t G x y) x y (d (y*nx.w + x)))) d)
                nx.data }) := by
  refine for_loop_rel
    (fun (p : matrix × matrix) (d : Nat → ℚ) => p = (G, { w := nx.w, h := nx.h, data := d }))
    s (G.w - s) _ _ ?_ (G, nx) nx.data rfl
  intro x p d hp
  refine for_loop_rel
    (fun (p : matrix × matrix) (d : Nat → ℚ) => p = (G, { w := nx.w, h := nx.h, data := d }))
    s (G.h - s) _ _ ?_ p d hp
  intro y p d hp
  subst hp
  rw [rk4_cell_eq]

theorem run_cnn_step_next (s : Nat) (cell : cell_fn) (bnd : bnd_fn) (input1 input2 : matrix)
    (dt t : ℚ) (rs : cnn_run) :
    (run_cnn_step s cell bnd input1 input2 dt t rs).next_state = call_bnd bnd rs.state s := by
  simp only [run_cnn_step]
  rw [cell_pass_eq]

theorem run_cnn_step_observed (s : Nat) (cell : cell_fn) (bnd : bnd_fn)
    (input1 input2 : matrix) (dt t : ℚ) (rs : cnn_run) :
    (run_cnn_step s cell bnd input1 input2 dt t rs).observed
      = rs.observed ++ [call_bnd bnd rs.state s] := by
  simp only [run_cnn_step]
  rw [cell_pass_eq]

theorem run_cnn_step_dims (s : Nat) (cell : cell_fn) (bnd : bnd_fn) (input1 input2 : matrix)
    (dt t : ℚ) (rs : cnn_run) :
    (run_cnn_step s cell bnd input1 input2 dt t rs).state.w = rs.next_state.w ∧
    (run_cnn_step s cell bnd input1 input2 dt t rs).state.h = rs.next_state.h ∧
    (run_cnn_step s cell bnd input1 input2 dt t rs).next_state.w = rs.state.w ∧
    (run_cnn_step s cell bnd input1 input2 dt t rs).next_state.h = rs.state.h := by
  simp only [run_cnn_step]
  rw [cell_pass_eq]
  simp [call_bnd]

/-- The new state after one step, cell by cell: the RK4 value on the cells of
the cell loop, the old content of the other buffer elsewhere. -/
theorem run_cnn_step_cell (s : Nat) (cell : cell_fn) (bnd : bnd_fn) (input1 input2 : matrix)
    (dt t : ℚ) (rs : cnn_run) (hw : rs.next_state.w = rs.state.w) (x y : Nat)
    (hx : x < rs.state.w) :
    cell_at (run_cnn_step s cell bnd input1 input2 dt t rs).state x y
      = if s ≤ x ∧ x < rs.state.w - s ∧ s ≤ y ∧ y < rs.state.h - s
        then rk4_value cell input1 input2 dt t (call_bnd bnd rs.state s) x y
        else cell_at rs.next_state x y := by
  simp only [run_cnn_step]
  rw [cell_pass_eq]
  simp only [cell_at, hw]
  exact grid_pass_apply rs.state.w s (rs.state.w - s) s (rs.state.h - s)
    (fun x y (_ : ℚ) => rk4_value cell input1 input2 dt t (call_bnd bnd rs.state s) x y)
    rs.next_state.data (Nat.sub_le _ _) x y hx

/-! ## The integrator: the time loop and the final pass -/

theorem run_cnn_loop_invariant (s : Nat) (cell : cell_fn) (bnd : bnd_fn)
    (input1 input2 : matrix) (dt t_end : ℚ) (P : cnn_run → Prop)
    (hs : ∀ t rs, P rs → P (run_cnn_step s cell bnd input1 input2 dt t rs)) :
    ∀ (fuel : Nat) (t : ℚ) (rs rs1 : cnn_run), P rs →
      run_cnn_loop s cell bnd input1 input2 dt t_end fuel t rs = some rs1 → P rs1 := by
  intro fuel
  induction fuel with
  | zero =>
    intro t rs rs1 hp h
    by_cases ht : t < t_end
    · simp [run_cnn_loop, ht] at h
    · simp only [run_cnn_loop, ht, if_false, Option.some.injEq] at h
      exact h ▸ hp
  | succ n ih =>
    intro t rs rs1 hp h
    by_cases ht : t < t_end
    · simp only [run_cnn_loop, ht, if_true] at h
      exact ih _ _ _ (hs t rs hp) h
    · simp only [run_cnn_loop, ht, if_false, Option.some.injEq] at h
      exact h ▸ hp

/-- Both buffers keep the dimensions of `init` throughout the run. -/
theorem run_cnn_loop_dims (s : Nat) (cell : cell_fn) (bnd : bnd_fn)
    (input1 input2 : matrix) (dt t_end : ℚ) (init : matrix) (fuel : Nat) (rs1 : cnn_run)
    (h : run_cnn_loop s cell bnd input1 input2 dt t_end fuel 0 (run_cnn_start init) = some rs1) :
    rs1.state.w = init.w ∧ rs1.state.h = init.h ∧
    rs1.next_state.w = init.w ∧ rs1.next_state.h = init.h := by
  refine run_cnn_loop_invariant s cell bnd input1 input2 dt t_end
    (fun rs => rs.state.w = init.w ∧ rs.state.h = init.h ∧
      rs.next_state.w = init.w ∧ rs.next_state.h = init.h) ?_ fuel 0 _ rs1 ?_ h
  · intro t rs hp
    obtain ⟨h1, h2, h3, h4⟩ := run_cnn_step_dims s cell bnd input1 input2 dt t rs
    obtain ⟨p1, p2, p3, p4⟩ := hp
    exact ⟨h1.trans p3, h2.trans p4, h3.trans p1, h4.trans p2⟩
  · simp [run_cnn_start, copy_matrix]

theorem phi_ge (x : ℚ) : -1 ≤ phi x := by
  unfold phi
  split_ifs <;> linarith

theorem phi_le (x : ℚ) : phi x ≤ 1 := by
  unfold phi
  split_ifs <;> linarith

theorem phi_of_mem (x : ℚ) (h1 : -1 ≤ x) (h2 : x ≤ 1) : phi x = x := by
  unfold phi
  split_ifs <;> linarith

theorem saturate_all_cell (m : matrix) (x y : Nat) (hx : x < m.w) :
    cell_at (saturate_all m) x y = if y < m.h then phi (cell_at m x y) else cell_at m x y := by
  simp only [cell_at, saturate_all]
  have h := grid_pass_apply m.w 0 m.w 0 m.h (fun _ _ v => phi v) m.data (Nat.le_refl _) x y hx
  simp only [Nat.zero_le, true_and, hx] at h
  exact h

theorem run_cnn_some (fuel : Nat) (init input1_ input2_ : matrix) (s : Nat) (cell : cell_fn)
    (bnd : bnd_fn) (dt t_end : ℚ) (out : cnn_result)
    (h : run_cnn fuel init input1_ input2_ s cell bnd dt t_end = some out) :
    ∃ last, run_cnn_loop s cell bnd (call_bnd bnd (copy_matrix input1_) s)
        (call_bnd bnd (copy_matrix input2_) s) dt t_end fuel 0 (run_cnn_start init) = some last
      ∧ out.result = saturate_all last.state ∧ out.observed = last.observed := by
  simp only [run_cnn] at h
  split at h
  · simp at h
  · rename_i rs hrs
    simp only [Option.some.injEq] at h
    exact ⟨rs, hrs, by rw [← h], by rw [← h]⟩

theorem run_cnn_loop_no_step (s : Nat) (cell : cell_fn) (bnd : bnd_fn)
    (input1 input2 : matrix) (dt t_end t : ℚ) (h : t_end ≤ t) (fuel : Nat) (rs : cnn_run) :
    run_cnn_loop s cell bnd input1 input2 dt t_end fuel t rs = some rs := by
  have ht : ¬ t < t_end := not_lt.mpr h
  cases fuel <;> simp [run_cnn_loop, ht]

theorem run_cnn_loop_one_step (s : Nat) (cell : cell_fn) (bnd : bnd_fn)
    (input1 input2 : matrix) (dt t_end t : ℚ) (h0 : t < t_end) (h1 : t_end ≤ t + dt)
    (fuel : Nat) (rs : cnn_run) :
    run_cnn_loop s cell bnd input1 input2 dt t_end (fuel + 1) t rs
      = some (run_cnn_step s cell bnd input1 input2 dt t rs) := by
  simp only [run_cnn_loop, h0, if_true]
  exact run_cnn_loop_no_step s cell bnd input1 input2 dt t_end (t + dt) h1 fuel _

/-- With a positive step the time loop terminates: some amount of fuel is
enough, whatever the starting time and buffers. -/
theorem run_cnn_loop_terminates (s : Nat) (cell : cell_fn) (bnd : bnd_fn)
    (input1 input2 : matrix) (dt t_end : ℚ) (hdt : 0 < dt) (t : ℚ) (rs : cnn_run) :
    ∃ fuel rs1, run_cnn_loop s cell bnd input1 input2 dt t_end fuel t rs = some rs1 := by
  have key : ∀ (n : Nat) (t : ℚ) (rs : cnn_run), t_end - t ≤ n * dt →
      ∃ rs1, run_cnn_loop s cell bnd input1 input2 dt t_end n t rs = some rs1 := by
    intro n
    induction n with
    | zero =>
      intro t rs h
      simp only [Nat.cast_zero, zero_mul] at h
      exact ⟨rs, run_cnn_loop_no_step s cell bnd input1 input2 dt t_end t (by linarith) 0 rs⟩
    | succ n ih =>
      intro t rs h
      by_cases ht : t < t_end
      · simp only [run_cnn_loop, ht, if_true]
        apply ih
        push_cast at h
        linarith
      · exact ⟨rs, run_cnn_loop_no_step s cell bnd input1 input2 dt t_end t
          (not_lt.mp ht) _ rs⟩
  obtain ⟨n, hn⟩ := exists_nat_ge ((t_end - t) / dt)
  have h2 : t_end - t ≤ n * dt := by
    rw [div_le_iff₀ hdt] at hn
    exact hn
  obtain ⟨rs1, h⟩ := key n t rs h2
  exact ⟨n, rs1, h⟩

theorem run_cnn_no_step (fuel : Nat) (init input1_ input2_ : matrix) (s : Nat)
    (cell : cell_fn) (bnd : bnd_fn) (dt t_end : ℚ) (h : t_end ≤ 0) :
    run_cnn fuel init input1_ input2_ s cell bnd dt t_end
      = some { result := saturate_all (copy_matrix init), observed := [] } := by
  simp only [run_cnn]
  rw [run_cnn_loop_no_step _ _ _ _ _ _ _ _ h]
  rfl

theorem run_cnn_one_step (fuel : Nat) (init input1_ input2_ : matrix) (s : Nat)
    (cell : cell_fn) (bnd : bnd_fn) (dt t_end : ℚ) (h0 : 0 < t_end) (h1 : t_end ≤ dt) :
    run_cnn (fuel + 1) init input1_ input2_ s cell bnd dt t_end
      = some { result := saturate_all (run_cnn_step s cell bnd
                  (call_bnd bnd (copy_matrix input1_) s) (call_bnd bnd (copy_matrix input2_) s)
                  dt 0 (run_cnn_start init)).state,
               observed := [call_bnd bnd (copy_matrix init) s] } := by
  simp only [run_cnn]
  rw [run_cnn_loop_one_step _ _ _ _ _ _ _ _ h0 (by linarith)]
  simp only [run_cnn_step_observed]
  rfl

/-- With a positive step `run_cnn` returns: some amount of fuel is enough. -/
theorem run_cnn_terminates (init input1_ input2_ : matrix) (s : Nat) (cell : cell_fn)
    (bnd : bnd_fn) (dt t_end : ℚ) (hdt : 0 < dt) :
    ∃ fuel out, run_cnn fuel init input1_ input2_ s cell bnd dt t_end = some out := by
  obtain ⟨fuel, rs1, h⟩ := run_cnn_loop_terminates s cell bnd
    (call_bnd bnd (copy_matrix input1_) s) (call_bnd bnd (copy_matrix input2_) s) dt t_end hdt 0
    (run_cnn_start init)
  refine ⟨fuel, { result := saturate_all rs1.state, observed := rs1.observed }, ?_⟩
  simp only [run_cnn, h]

/-- More fuel does not change what the time loop returns. -/
theorem run_cnn_loop_fuel_mono (s : Nat) (cell : cell_fn) (bnd : bnd_fn)
    (input1 input2 : matrix) (dt t_end : ℚ) :
    ∀ (fuel : Nat) (t : ℚ) (rs rs1 : cnn_run),
      run_cnn_loop s cell bnd input1 input2 dt t_end fuel t rs = some rs1 →
      ∀ more, run_cnn_loop s cell bnd input1 input2 dt t_end (fuel + more) t rs = some rs1 := by
  intro fuel
  induction fuel with
  | zero =>
    intro t rs rs1 h more
    by_cases ht : t < t_end
    · simp [run_cnn_loop, ht] at h
    · simp only [run_cnn_loop, ht, if_false] at h
      rw [run_cnn_loop_no_step s cell bnd input1 input2 dt t_end t (not_lt.mp ht)]
      exact h
  | succ n ih =>
    intro t rs rs1 h more
    by_cases ht : t < t_end
    · simp only [run_cnn_loop, ht, if_true] at h
      have e : n + 1 + more = (n + more) + 1 := by omega
      rw [e]
      simp only [run_cnn_loop, ht, if_true]
      exact ih _ _ _ h more
    · simp only [run_cnn_loop, ht, if_false] at h
      rw [run_cnn_loop_no_step s cell bnd input1 input2 dt t_end t (not_lt.mp ht)]
      exact h

theorem call_bnd_constant (m : matrix) (s : Nat) : call_bnd bound_constant m s = m := rfl

/-- With the Constant boundary the margin cells of both buffers keep the values
they have in `init`, through any number of steps. -/
theorem constant_margin_invariant (s : Nat) (cell : cell_fn) (input1 input2 : matrix)
    (dt t_end : ℚ) (init : matrix) (fuel : Nat) (rs1 : cnn_run)
    (h : run_cnn_loop s cell bound_constant input1 input2 dt t_end fuel 0 (run_cnn_start init)
      = some rs1) (x y : Nat) (hx : x < init.w) (hm : is_margin init.w init.h s x y) :
    cell_at rs1.state x y = cell_at init x y := by
  have hinv := run_cnn_loop_invariant s cell bound_constant input1 input2 dt t_end
    (fun rs => (rs.state.w = init.w ∧ rs.state.h = init.h ∧
        rs.next_state.w = init.w ∧ rs.next_state.h = init.h) ∧
      ∀ x y, x < init.w → is_margin init.w init.h s x y →
        cell_at rs.state x y = cell_at init x y ∧ cell_at rs.next_state x y = cell_at init x y)
    ?_ fuel 0 _ rs1 ?_ h
  · exact (hinv.2 x y hx hm).1
  · intro t rs hp
    obtain ⟨⟨p1, p2, p3, p4⟩, hcells⟩ := hp
    obtain ⟨h1, h2, h3, h4⟩ := run_cnn_step_dims s cell bound_constant input1 input2 dt t rs
    refine ⟨⟨h1.trans p3, h2.trans p4, h3.trans p1, h4.trans p2⟩, ?_⟩
    intro x y hx hm
    constructor
    · rw [run_cnn_step_cell s cell bound_constant input1 input2 dt t rs (p3.trans p1.symm) x y
        (by rw [p1]; exact hx)]
      have hn : ¬ (s ≤ x ∧ x < rs.state.w - s ∧ s ≤ y ∧ y < rs.state.h - s) := by
        rw [p1, p2]; exact hm
      rw [if_neg hn]
      exact (hcells x y hx hm).2
    · rw [run_cnn_step_next, call_bnd_constant]
      exact (hcells x y hx hm).1
  · refine ⟨by simp [run_cnn_start, copy_matrix], ?_⟩
    intro x y _ _
    exact ⟨rfl, rfl⟩

/-! ## Boundary conditions: copy passes -/

theorem idx_inj_left (w x y x1 y1 : Nat) (hx : x < w) (hx1 : x1 < w) :
    w*y + x = w*y1 + x1 ↔ y = y1 ∧ x = x1 := by
  rw [Nat.mul_comm w y, Nat.mul_comm w y1]
  exact idx_inj w x y x1 y1 hx hx1

theorem for_loop_one {σ : Type} (f : Nat → σ → σ) (st : σ) : for_loop 0 1 f st = f 0 st := rfl

/-- A loop that in iteration `j` copies offset `r1 j` to offset `a j` and then
offset `r2 j` to offset `b j`, where no offset is written twice and no source
offset is ever written: every destination ends with the original content of
its source, and every other offset is untouched. -/
theorem copy_pass_spec (n : Nat) (a r1 b r2 : Nat → Nat) (d0 : Nat → ℚ)
    (ha : ∀ j k, j < n → k < n → a j = a k → j = k)
    (hb : ∀ j k, j < n → k < n → b j = b k → j = k)
    (hab : ∀ j k, j < n → k < n → a j ≠ b k)
    (h1a : ∀ j k, j < n → k < n → r1 j ≠ a k) (h1b : ∀ j k, j < n → k < n → r1 j ≠ b k)
    (h2a : ∀ j k, j < n → k < n → r2 j ≠ a k) (h2b : ∀ j k, j < n → k < n → r2 j ≠ b k) :
    (∀ j, j < n →
      for_loop 0 n (fun j d => poke (poke d (a j) (d (r1 j))) (b j)
        (poke d (a j) (d (r1 j)) (r2 j))) d0 (a j) = d0 (r1 j) ∧
      for_loop 0 n (fun j d => poke (poke d (a j) (d (r1 j))) (b j)
        (poke d (a j) (d (r1 j)) (r2 j))) d0 (b j) = d0 (r2 j)) ∧
    (∀ i, (∀ j, j < n → i ≠ a j ∧ i ≠ b j) →
      for_loop 0 n (fun j d => poke (poke d (a j) (d (r1 j))) (b j)
        (poke d (a j) (d (r1 j)) (r2 j))) d0 i = d0 i) := by
  have key := for_loop_invariant 0 n
    (fun j d => poke (poke d (a j) (d (r1 j))) (b j) (poke d (a j) (d (r1 j)) (r2 j)))
    (fun k d => k ≤ n → ((∀ j, j < k → d (a j) = d0 (r1 j) ∧ d (b j) = d0 (r2 j)) ∧
      (∀ i, (∀ j, j < k → i ≠ a j ∧ i ≠ b j) → d i = d0 i)))
    d0 (Nat.zero_le n) ?_ ?_ (Nat.le_refl n)
  · exact key
  · intro _
    exact ⟨fun j hj => absurd hj (Nat.not_lt_zero j), fun i _ => rfl⟩
  · intro k d _ hk ih _
    obtain ⟨ihw, ihu⟩ := ih (Nat.le_of_lt hk)
    have e1 : d (r1 k) = d0 (r1 k) := ihu _ (fun j hj => ⟨h1a k j hk (by omega), h1b k j hk (by omega)⟩)
    have e2 : poke d (a k) (d (r1 k)) (r2 k) = d0 (r2 k) := by
      rw [poke_other _ _ _ _ (h2a k k hk hk)]
      exact ihu _ (fun j hj => ⟨h2a k j hk (by omega), h2b k j hk (by omega)⟩)
    show (∀ j, j < k + 1 →
        poke (poke d (a k) (d (r1 k))) (b k) (poke d (a k) (d (r1 k)) (r2 k)) (a j) = d0 (r1 j) ∧
        poke (poke d (a k) (d (r1 k))) (b k) (poke d (a k) (d (r1 k)) (r2 k)) (b j) = d0 (r2 j)) ∧
      (∀ i, (∀ j, j < k + 1 → i ≠ a j ∧ i ≠ b j) →
        poke (poke d (a k) (d (r1 k))) (b k) (poke d (a k) (d (r1 k)) (r2 k)) i = d0 i)
    rw [e2, e1]
    constructor
    · intro j hj
      by_cases hjk : j = k
      · subst hjk
        exact ⟨by rw [poke_other _ _ _ _ (hab j j hk hk), poke_same], poke_same _ _ _⟩
      · have hj1 : j < k := by omega
        have n1 : a j ≠ b k := hab j k (by omega) hk
        have n2 : a j ≠ a k := fun h => hjk (ha j k (by omega) hk h)
        have n3 : b j ≠ b k := fun h => hjk (hb j k (by omega) hk h)
        have n4 : b j ≠ a k := fun h => hab k j hk (by omega) h.symm
        rw [poke_other _ _ _ _ n1, poke_other _ _ _ _ n2, poke_other _ _ _ _ n3,
          poke_other _ _ _ _ n4]
        exact ihw j hj1
    · intro i hi
      rw [poke_other _ _ _ _ (hi k (by omega)).2, poke_other _ _ _ _ (hi k (by omega)).1]
      exact ihu i (fun j hj => hi j (by omega))

/-- The two passes of a boundary condition of margin 1 on a `w` by `h` grid:
first row `0` is copied from row `ra` and row `h-1` from row `rb`, then column
`0` is copied from column `ca` and column `w-1` from column `cb`, the sources
being interior rows and columns.  Every cell ends with the original content of
the cell found by redirecting its row and its column. -/
theorem edge_copy_cell (w h ra rb ca cb : Nat) (hw : 3 ≤ w) (hh : 3 ≤ h)
    (hra : 1 ≤ ra ∧ ra ≤ h - 2) (hrb : 1 ≤ rb ∧ rb ≤ h - 2)
    (hca : 1 ≤ ca ∧ ca ≤ w - 2) (hcb : 1 ≤ cb ∧ cb ≤ w - 2)
    (a1 r1 b1 r2 a2 r3 b2 r4 : Nat → Nat)
    (ea1 : ∀ j, j < w → a1 j = w*0 + j) (er1 : ∀ j, j < w → r1 j = w*ra + j)
    (eb1 : ∀ j, j < w → b1 j = w*(h-1) + j) (er2 : ∀ j, j < w → r2 j = w*rb + j)
    (ea2 : ∀ j, j < h → a2 j = w*j + 0) (er3 : ∀ j, j < h → r3 j = w*j + ca)
    (eb2 : ∀ j, j < h → b2 j = w*j + (w-1)) (er4 : ∀ j, j < h → r4 j = w*j + cb)
    (d0 : Nat → ℚ) (x y : Nat) (hx : x < w) (hy : y < h) :
    for_loop 0 h (fun j d => poke (poke d (a2 j) (d (r3 j))) (b2 j)
        (poke d (a2 j) (d (r3 j)) (r4 j)))
      (for_loop 0 w (fun j d => poke (poke d (a1 j) (d (r1 j))) (b1 j)
        (poke d (a1 j) (d (r1 j)) (r2 j))) d0) (w*y + x)
      = d0 (w * (if y = 0 then ra else if y = h-1 then rb else y)
            + (if x = 0 then ca else if x = w-1 then cb else x)) := by
  -- a helper: two offsets in normal form differ as soon as row or column differ
  have ne_of : ∀ (x y x1 y1 : Nat), x < w → x1 < w → (y ≠ y1 ∨ x ≠ x1) →
      w*y + x ≠ w*y1 + x1 := by
    intro x y x1 y1 h1 h2 h3 h4
    have := (idx_inj_left w x y x1 y1 h1 h2).1 h4
    omega
  -- the row pass
  obtain ⟨rw1, rw2⟩ := copy_pass_spec w a1 r1 b1 r2 d0
    (by intro j k hj hk e; rw [ea1 j hj, ea1 k hk] at e; omega)
    (by intro j k hj hk e; rw [eb1 j hj, eb1 k hk] at e; omega)
    (by intro j k hj hk; rw [ea1 j hj, eb1 k hk]; exact ne_of _ _ _ _ hj hk (by omega))
    (by intro j k hj hk; rw [er1 j hj, ea1 k hk]; exact ne_of _ _ _ _ hj hk (by omega))
    (by intro j k hj hk; rw [er1 j hj, eb1 k hk]; exact ne_of _ _ _ _ hj hk (by omega))
    (by intro j k hj hk; rw [er2 j hj, ea1 k hk]; exact ne_of _ _ _ _ hj hk (by omega))
    (by intro j k hj hk; rw [er2 j hj, eb1 k hk]; exact ne_of _ _ _ _ hj hk (by omega))
  have hrow : ∀ x y, x < w →
      for_loop 0 w (fun j d => poke (poke d (a1 j) (d (r1 j))) (b1 j)
        (poke d (a1 j) (d (r1 j)) (r2 j))) d0 (w*y + x)
      = d0 (w * (if y = 0 then ra else if y = h-1 then rb else y) + x) := by
    intro x y hx
    by_cases h0 : y = 0
    · subst h0
      have := (rw1 x hx).1
      rw [ea1 x hx, er1 x hx] at this
      simpa using this
    · by_cases h1 : y = h - 1
      · subst h1
        have := (rw1 x hx).2
        rw [eb1 x hx, er2 x hx] at this
        rw [if_neg h0, if_pos rfl]
        exact this
      · rw [if_neg h0, if_neg h1]
        apply rw2
        intro j hj
        rw [ea1 j hj, eb1 j hj]
        exact ⟨ne_of _ _ _ _ hx hj (by omega), ne_of _ _ _ _ hx hj (by omega)⟩
  -- the column pass
  obtain ⟨cl1, cl2⟩ := copy_pass_spec h a2 r3 b2 r4
    (for_loop 0 w (fun j d => poke (poke d (a1 j) (d (r1 j))) (b1 j)
        (poke d (a1 j) (d (r1 j)) (r2 j))) d0)
    (by intro j k hj hk e; rw [ea2 j hj, ea2 k hk] at e
        exact ((idx_inj_left w 0 j 0 k (by omega) (by omega)).1 e).1)
    (by intro j k hj hk e; rw [eb2 j hj, eb2 k hk] at e
        exact ((idx_inj_left w (w-1) j (w-1) k (by omega) (by omega)).1 e).1)
    (by intro j k hj hk; rw [ea2 j hj, eb2 k hk]
        exact ne_of _ _ _ _ (by omega) (by omega) (by omega))
    (by intro j k hj hk; rw [er3 j hj, ea2 k hk]
        exact ne_of _ _ _ _ (by omega) (by omega) (by omega))
    (by intro j k hj hk; rw [er3 j hj, eb2 k hk]
        exact ne_of _ _ _ _ (by omega) (by omega) (by omega))
    (by intro j k hj hk; rw [er4 j hj, ea2 k hk]
        exact ne_of _ _ _ _ (by omega) (by omega) (by omega))
    (by intro j k hj hk; rw [er4 j hj, eb2 k hk]
        exact ne_of _ _ _ _ (by omega) (by omega) (by omega))
  by_cases hx0 : x = 0
  · subst hx0
    have := (cl1 y hy).1
    rw [ea2 y hy, er3 y hy] at this
    rw [this, hrow ca y (by omega), if_pos rfl]
  · by_cases hx1 : x = w - 1
    · subst hx1
      have := (cl1 y hy).2
      rw [eb2 y hy, er4 y hy] at this
      rw [this, hrow cb y (by omega), if_neg hx0, if_pos rfl]
    · rw [if_neg hx0, if_neg hx1, ← hrow x y hx]
      apply cl2
      intro j hj
      rw [ea2 j hj, eb2 j hj]
      exact ⟨ne_of _ _ _ _ hx (by omega) (by omega), ne_of _ _ _ _ hx (by omega) (by omega)⟩

/-- ZeroFlux with margin 1, cell by cell: every cell ends with the original
content of the cell obtained by moving an edge row or column one step inwards. -/
theorem bound_zeroflux_cell (m : matrix) (hw : 3 ≤ m.w) (hh : 3 ≤ m.h) (x y : Nat)
    (hx : x < m.w) (hy : y < m.h) :
    cell_at (bound_zeroflux m 1) x y
      = cell_at m (if x = 0 then 1 else if x = m.w - 1 then m.w - 2 else x)
          (if y = 0 then 1 else if y = m.h - 1 then m.h - 2 else y) := by
  have ew : (bound_zeroflux m 1).w = m.w := rfl
  simp only [cell_at, ew]
  rw [Nat.mul_comm y m.w, Nat.mul_comm _ m.w]
  exact edge_copy_cell m.w m.h 1 (m.h - 2) 1 (m.w - 2) hw hh
    (by omega) (by omega) (by omega) (by omega)
    (fun j => m.w*0 + j) (fun j => m.w*1 + j)
    (fun j => m.w*(m.h-0-1) + j) (fun j => m.w*(m.h-1-1) + j)
    (fun j => m.w*j + 0) (fun j => m.w*j + 1)
    (fun j => m.w*j + m.w-0-1) (fun j => m.w*j + m.w-1-1)
    (fun _ _ => rfl) (fun _ _ => rfl) (fun _ _ => rfl) (fun _ _ => rfl)
    (fun _ _ => rfl) (fun _ _ => rfl) (fun j _ => by beta_reduce; omega) (fun j _ => by beta_reduce; omega)
    m.data x y hx hy

/-- Periodic with margin 1, cell by cell: every cell ends with the original
content of the cell obtained by wrapping an edge row or column around to the
opposite interior row or column. -/
theorem bound_periodic_cell (m : matrix) (hw : 3 ≤ m.w) (hh : 3 ≤ m.h) (x y : Nat)
    (hx : x < m.w) (hy : y < m.h) :
    cell_at (bound_periodic m 1) x y
      = cell_at m (if x = 0 then m.w - 2 else if x = m.w - 1 then 1 else x)
          (if y = 0 then m.h - 2 else if y = m.h - 1 then 1 else y) := by
  have ew : (bound_periodic m 1).w = m.w := rfl
  simp only [cell_at, ew]
  rw [Nat.mul_comm y m.w, Nat.mul_comm _ m.w]
  exact edge_copy_cell m.w m.h (m.h - 2) 1 (m.w - 2) 1 hw hh
    (by omega) (by omega) (by omega) (by omega)
    (fun j => m.w*0 + j) (fun j => (m.h-2*1+0)*m.w + j)
    (fun j => m.w*(m.h-0-1) + j) (fun j => m.w*(2*1-1-0) + j)
    (fun j => m.w*j + 0) (fun j => m.w*j + m.w-2*1+0)
    (fun j => m.w*j + m.w-0-1) (fun j => m.w*j + 2*1-1-0)
    (fun _ _ => rfl) (fun j _ => by simp [Nat.mul_comm]) (fun _ _ => rfl) (fun _ _ => rfl)
    (fun _ _ => rfl) (fun j _ => by beta_reduce; omega) (fun j _ => by beta_reduce; omega) (fun j _ => by beta_reduce; omega)
    m.data x y hx hy

theorem arr1_ij (x y : Nat) (state input1 input2 : matrix) (sel : Nat) (h : sel < 4) :
    arr1 (nonlinear3x3_ij x y state input1 input2) sel
      = field_cell sel state input1 input2 x y := by
  interval_cases sel <;> simp [arr1, nonlinear3x3_ij, field_cell, cell_at, Nat.mul_comm]

theorem arr2_kl (x y : Nat) (state input1 input2 : matrix) (sel k : Nat)
    (hx : 1 ≤ x) (hy : 1 ≤ y) (h : sel < 4) (hk : k < 9) :
    arr2 (nonlinear3x3_kl x y state input1 input2) sel k
      = field_cell sel state input1 input2 (x - 1 + k % 3) (y - 1 + k / 3) := by
  obtain ⟨x, rfl⟩ : ∃ x0, x = x0 + 1 := ⟨x - 1, by omega⟩
  obtain ⟨y, rfl⟩ : ∃ y0, y = y0 + 1 := ⟨y - 1, by omega⟩
  interval_cases sel <;> interval_cases k <;>
    simp [arr2, nonlinear3x3_kl, field_cell, cell_at, Nat.mul_comm, Nat.add_assoc]

theorem nonlinear3x3_expand (x y : Nat) (state input1 input2 : matrix) (t : ℚ)
    (tmpl : template3x3) (hx : 1 ≤ x) (hy : 1 ≤ y) (hij : tmpl.dij < 4) (hkl : tmpl.dkl < 4) :
    nonlinear3x3 x y state input1 input2 t tmpl
      = nonlinear3x3_spec x y state input1 input2 tmpl := by
  have e1 := arr1_ij x y state input1 input2 tmpl.dij hij
  have e2 : ∀ sel k, sel < 4 → k < 9 → _ := fun sel k h hk =>
    arr2_kl x y state input1 input2 sel k hx hy h hk
  simp only [nonlinear3x3, nonlinear3x3_spec, Finset.sum_range_succ, Finset.sum_range_zero,
    neighbor]
  rw [e1]
  rw [e2 1 0 (by norm_num) (by norm_num),
    e2 1 1 (by norm_num) (by norm_num),
    e2 1 2 (by norm_num) (by norm_num),
    e2 1 3 (by norm_num) (by norm_num),
    e2 1 4 (by norm_num) (by norm_num),
    e2 1 5 (by norm_num) (by norm_num),
    e2 1 6 (by norm_num) (by norm_num),
    e2 1 7 (by norm_num) (by norm_num),
    e2 1 8 (by norm_num) (by norm_num),
    e2 2 0 (by norm_num) (by norm_num),
    e2 2 1 (by norm_num) (by norm_num),
    e2 2 2 (by norm_num) (by norm_num),
    e2 2 3 (by norm_num) (by norm_num),
    e2 2 4 (by norm_num) (by norm_num),
    e2 2 5 (by norm_num) (by norm_num),
    e2 2 6 (by norm_num) (by norm_num),
    e2 2 7 (by norm_num) (by norm_num),
    e2 2 8 (by norm_num) (by norm_num),
    e2 tmpl.dkl 0 hkl (by norm_num),
    e2 tmpl.dkl 1 hkl (by norm_num),
    e2 tmpl.dkl 2 hkl (by norm_num),
    e2 tmpl.dkl 3 hkl (by norm_num),
    e2 tmpl.dkl 4 hkl (by norm_num),
    e2 tmpl.dkl 5 hkl (by norm_num),
    e2 tmpl.dkl 6 hkl (by norm_num),
    e2 tmpl.dkl 7 hkl (by norm_num),
    e2 tmpl.dkl 8 hkl (by norm_num)]
  have f1 : ∀ u v, field_cell 1 state input1 input2 u v = phi (cell_at state u v) :=
    fun _ _ => rfl
  have f2 : ∀ u v, field_cell 2 state input1 input2 u v = cell_at input1 u v :=
    fun _ _ => rfl
  have f0 : state.data (state.w * y + x) = cell_at state x y := by
    simp [cell_at, Nat.mul_comm]
  simp only [f1, f2, f0, zero_add, ← add_assoc, sub_eq_add_neg, add_comm tmpl.z]

/-- With an all-zero `d`, `nonlinear3x3` computes the Linear3x3 formula of
the specification. -/
theorem nonlinear3x3_zero_d (x y : Nat) (state input1 input2 : matrix) (t : ℚ)
    (tmpl : template3x3) (hx : 1 ≤ x) (hy : 1 ≤ y) (hij : tmpl.dij < 4) (hkl : tmpl.dkl < 4)
    (hd : ∀ k, tmpl.d k = 0) :
    nonlinear3x3 x y state input1 input2 t tmpl = linear3x3_spec x y state input1 tmpl := by
  rw [nonlinear3x3_expand x y state input1 input2 t tmpl hx hy hij hkl]
  simp only [nonlinear3x3_spec, linear3x3_spec, hd, mul_zero, Finset.sum_const_zero, add_zero]
  ring

/-! ## The time loop, iteration by iteration -/

theorem loop_time_eq (dt : ℚ) (k : Nat) : loop_time dt k = k * dt := by
  induction k with
  | zero => simp [loop_time]
  | succ k ih => simp only [loop_time, ih]; push_cast; ring

theorem run_cnn_steps_dims (s : Nat) (cell : cell_fn) (bnd : bnd_fn) (input1 input2 : matrix)
    (dt : ℚ) (init : matrix) (n : Nat) :
    (run_cnn_steps s cell bnd input1 input2 dt n (run_cnn_start init)).state.w = init.w ∧
    (run_cnn_steps s cell bnd input1 input2 dt n (run_cnn_start init)).state.h = init.h ∧
    (run_cnn_steps s cell bnd input1 input2 dt n (run_cnn_start init)).next_state.w = init.w ∧
    (run_cnn_steps s cell bnd input1 input2 dt n (run_cnn_start init)).next_state.h = init.h := by
  induction n with
  | zero => exact ⟨rfl, rfl, rfl, rfl⟩
  | succ n ih =>
    obtain ⟨p1, p2, p3, p4⟩ := ih
    obtain ⟨h1, h2, h3, h4⟩ := run_cnn_step_dims s cell bnd input1 input2 dt (loop_time dt n)
      (run_cnn_steps s cell bnd input1 input2 dt n (run_cnn_start init))
    exact ⟨h1.trans p3, h2.trans p4, h3.trans p1, h4.trans p2⟩

/-- The matrices handed to `update` during the first `n` iterations: the `k`-th
call receives the state buffer as it is before the `k`-th step computes, with
the boundary condition applied. -/
theorem run_cnn_steps_observed (s : Nat) (cell : cell_fn) (bnd : bnd_fn)
    (input1 input2 : matrix) (dt : ℚ) (rs : cnn_run) (n : Nat) :
    (run_cnn_steps s cell bnd input1 input2 dt n rs).observed
      = rs.observed ++ (List.range n).map (fun k =>
          call_bnd bnd (run_cnn_steps s cell bnd input1 input2 dt k rs).state s) := by
  induction n with
  | zero => simp [run_cnn_steps]
  | succ n ih =>
    simp only [run_cnn_steps, run_cnn_step_observed, ih, List.range_succ, List.map_append,
      List.map_cons, List.map_nil, List.append_assoc]

/-- The time loop, started after `k` iterations, performs `m` more when the loop
test holds at the next `m` values of `t` and fails at the one after. -/
theorem run_cnn_loop_steps (s : Nat) (cell : cell_fn) (bnd : bnd_fn)
    (input1 input2 : matrix) (dt t_end : ℚ) (rs0 : cnn_run) :
    ∀ (m k fuel : Nat), m ≤ fuel → (∀ j, j < m → loop_time dt (k + j) < t_end) →
      t_end ≤ loop_time dt (k + m) →
      run_cnn_loop s cell bnd input1 input2 dt t_end fuel (loop_time dt k)
          (run_cnn_steps s cell bnd input1 input2 dt k rs0)
        = some (run_cnn_steps s cell bnd input1 input2 dt (k + m) rs0) := by
  intro m
  induction m with
  | zero =>
    intro k fuel _ _ h
    exact run_cnn_loop_no_step s cell bnd input1 input2 dt t_end _ h fuel _
  | succ m ih =>
    intro k fuel hf hlt hge
    obtain ⟨fuel, rfl⟩ : ∃ f, fuel = f + 1 := ⟨fuel - 1, by omega⟩
    have h0 : loop_time dt k < t_end := by simpa using hlt 0 (by omega)
    simp only [run_cnn_loop, h0, if_true]
    have e : k + (m + 1) = (k + 1) + m := by omega
    rw [e]
    exact ih (k + 1) fuel (by omega)
      (fun j hj => by have := hlt (j + 1) (by omega); rwa [show k + (j + 1) = k + 1 + j by omega] at this)
      (by rwa [e] at hge)

/-- Whatever the time loop returns is the result of some number `n` of
iterations of its body, and `n` is where the loop test first fails. -/
theorem run_cnn_loop_returns_steps (s : Nat) (cell : cell_fn) (bnd : bnd_fn)
    (input1 input2 : matrix) (dt t_end : ℚ) (rs0 : cnn_run) :
    ∀ (fuel k : Nat) (last : cnn_run),
      run_cnn_loop s cell bnd input1 input2 dt t_end fuel (loop_time dt k)
          (run_cnn_steps s cell bnd input1 input2 dt k rs0) = some last →
      ∃ n, k ≤ n ∧ last = run_cnn_steps s cell bnd input1 input2 dt n rs0 ∧
        (∀ j, k ≤ j → j < n → loop_time dt j < t_end) ∧ t_end ≤ loop_time dt n := by
  intro fuel
  induction fuel with
  | zero =>
    intro k last h
    by_cases ht : loop_time dt k < t_end
    · simp [run_cnn_loop, ht] at h
    · simp only [run_cnn_loop, ht, if_false, Option.some.injEq] at h
      exact ⟨k, Nat.le_refl k, h.symm, fun j h1 h2 => absurd h2 (by omega), not_lt.mp ht⟩
  | succ fuel ih =>
    intro k last h
    by_cases ht : loop_time dt k < t_end
    · simp only [run_cnn_loop, ht, if_true] at h
      obtain ⟨n, hn, hl, hlt, hge⟩ := ih (k + 1) last h
      refine ⟨n, by omega, hl, ?_, hge⟩
      intro j h1 h2
      by_cases hj : j = k
      · rw [hj]; exact ht
      · exact hlt j (by omega) h2
    · simp only [run_cnn_loop, ht, if_false, Option.some.injEq] at h
      exact ⟨k, Nat.le_refl k, h.symm, fun j h1 h2 => absurd h2 (by omega), not_lt.mp ht⟩

/-- In exact arithmetic and with a positive step the time loop performs
`⌈t_end / dt⌉` iterations, the smallest `n` with `t_end ≤ n * dt`. -/
theorem run_cnn_loop_exact_count (s : Nat) (cell : cell_fn) (bnd : bnd_fn)
    (input1 input2 : matrix) (dt t_end : ℚ) (hdt : 0 < dt) (rs0 : cnn_run) (fuel : Nat)
    (hf : ⌈t_end / dt⌉₊ ≤ fuel) :
    run_cnn_loop s cell bnd input1 input2 dt t_end fuel 0 rs0
      = some (run_cnn_steps s cell bnd input1 input2 dt ⌈t_end / dt⌉₊ rs0) := by
  have h := run_cnn_loop_steps s cell bnd input1 input2 dt t_end rs0 ⌈t_end / dt⌉₊ 0 fuel hf
    (by
      intro j hj
      rw [Nat.zero_add, loop_time_eq]
      have := Nat.lt_ceil.mp hj
      rwa [lt_div_iff₀ hdt] at this)
    (by
      rw [Nat.zero_add, loop_time_eq]
      have := Nat.le_ceil (t_end / dt)
      rwa [div_le_iff₀ hdt] at this)
  simpa [loop_time, run_cnn_steps] using h

/-! ## Pure decay -/

theorem phi_zero : phi 0 = 0 := by norm_num [phi]

/-- With `a`, `b` and `z` all zero, `linear3x3` returns minus the state of the
cell. -/
theorem linear3x3_decay (tmpl : template3x3) (ha : ∀ k, k < 9 → tmpl.a k = 0)
    (hb : ∀ k, k < 9 → tmpl.b k = 0) (hz : tmpl.z = 0) (x y : Nat)
    (state input1 input2 : matrix) (t : ℚ) :
    linear3x3 x y state input1 input2 t tmpl = -cell_at state x y := by
  simp only [linear3x3, cell_at, ha 0 (by norm_num), ha 1 (by norm_num), ha 2 (by norm_num),
    ha 3 (by norm_num), ha 4 (by norm_num), ha 5 (by norm_num), ha 6 (by norm_num),
    ha 7 (by norm_num), ha 8 (by norm_num), hb 0 (by norm_num), hb 1 (by norm_num),
    hb 2 (by norm_num), hb 3 (by norm_num), hb 4 (by norm_num), hb 5 (by norm_num),
    hb 6 (by norm_num), hb 7 (by norm_num), hb 8 (by norm_num), hz, mul_zero, phi_zero,
    add_zero, zero_add, Nat.mul_comm state.w y]

theorem cell_at_set_cell (m : matrix) (x y : Nat) (v : ℚ) :
    cell_at (set_cell m x y v) x y = v := by
  simp [cell_at, set_cell, poke]

/-- One RK4 step of a cell function that returns minus the state of the cell
multiplies the cell by the factor `1 - dt + dt^2/2 - dt^3/6 + dt^4/24`. -/
theorem rk4_value_decay (f : cell_fn)
    (hf : ∀ x y state input1 input2 t, f x y state input1 input2 t = -cell_at state x y)
    (input1 input2 : matrix) (dt t : ℚ) (grid : matrix) (x y : Nat) :
    rk4_value f input1 input2 dt t grid x y = cell_at grid x y * decay_factor dt := by
  simp only [rk4_value, hf, cell_at_set_cell, decay_factor]
  ring

/-- After `n` iterations of the loop body with a decay cell function and a
boundary function that leaves the cells of the cell loop alone, each such cell
holds its initial value times the `n`-th power of the RK4 factor. -/
theorem run_cnn_steps_decay (f : cell_fn)
    (hf : ∀ x y state input1 input2 t, f x y state input1 input2 t = -cell_at state x y)
    (s : Nat) (bnd : bnd_fn) (init input1 input2 : matrix) (dt : ℚ)
    (hbnd : ∀ m : matrix, m.w = init.w → m.h = init.h → ∀ x y, s ≤ x → x < init.w - s →
      s ≤ y → y < init.h - s → cell_at (call_bnd bnd m s) x y = cell_at m x y)
    (n x y : Nat) (hx1 : s ≤ x) (hx2 : x < init.w - s) (hy1 : s ≤ y) (hy2 : y < init.h - s) :
    cell_at (run_cnn_steps s f bnd input1 input2 dt n (run_cnn_start init)).state x y
      = cell_at init x y * decay_factor dt ^ n := by
  induction n with
  | zero => simp [run_cnn_steps, run_cnn_start, copy_matrix, cell_at]
  | succ n ih =>
    obtain ⟨p1, p2, p3, _⟩ := run_cnn_steps_dims s f bnd input1 input2 dt init n
    simp only [run_cnn_steps]
    rw [run_cnn_step_cell s f bnd input1 input2 dt _ _ (p3.trans p1.symm) x y
      (by rw [p1]; omega), if_pos (by rw [p1, p2]; exact ⟨hx1, hx2, hy1, hy2⟩),
      rk4_value_decay f hf, hbnd _ p1 p2 x y hx1 hx2 hy1 hy2, ih, pow_succ]
    ring

/-- The three built-in boundary functions with margin 1 leave the cells of the
cell loop alone. -/
theorem builtin_bnd_interior (b : ℚ) (m : matrix) (x y : Nat) (hx1 : 1 ≤ x)
    (hx2 : x < m.w - 1) (hy1 : 1 ≤ y) (hy2 : y < m.h - 1) :
    cell_at (call_bnd (py_bnd_func b) m 1) x y = cell_at m x y := by
  unfold py_bnd_func
  split_ifs
  · have h := bound_zeroflux_cell m (by omega) (by omega) x y (by omega) (by omega)
    rw [if_neg (by omega), if_neg (by omega), if_neg (by omega), if_neg (by omega)] at h
    exact h
  · have h := bound_periodic_cell m (by omega) (by omega) x y (by omega) (by omega)
    rw [if_neg (by omega), if_neg (by omega), if_neg (by omega), if_neg (by omega)] at h
    exact h
  · rfl

/-! ## The binding layer -/

theorem d_scan_eq_true (d : Nat → ℚ) :
    ∀ (n i : Nat), d_scan d i n = true ↔ ∃ k, i ≤ k ∧ k < i + n ∧ d k ≠ 0 := by
  intro n
  induction n with
  | zero =>
    intro i
    simp only [d_scan]
    constructor
    · intro h; cases h
    · rintro ⟨k, h1, h2, _⟩; omega
  | succ n ih =>
    intro i
    by_cases h0 : d i = 0
    · simp only [d_scan, h0, ne_eq, not_true_eq_false, if_false]
      rw [ih (i + 1)]
      constructor
      · rintro ⟨k, h1, h2, h3⟩
        exact ⟨k, by omega, by omega, h3⟩
      · rintro ⟨k, h1, h2, h3⟩
        have hk : k ≠ i := fun e => h3 (e ▸ h0)
        exact ⟨k, by omega, by omega, h3⟩
    · simp only [d_scan, ne_eq, h0, not_false_eq_true, if_true, true_iff]
      exact ⟨i, Nat.le_refl i, by omega, h0⟩

theorem d_scan_nine (d : Nat → ℚ) : d_scan d 0 9 = false ↔ ∀ i, i < 9 → d i = 0 := by
  rw [← Bool.not_eq_true, d_scan_eq_true]
  constructor
  · intro h i hi
    by_contra hne
    exact h ⟨i, Nat.zero_le i, by omega, hne⟩
  · rintro h ⟨k, _, h2, h3⟩
    exact h3 (h k (by omega))

/-! ## The end-to-end decay run -/

/-- In exact arithmetic the run of the decay template on `init4` with
`dt = 1/10` and `t_end = 1` takes ten steps and returns interior cells within
`1/1000` of `0.3679` and a margin of zeros. -/
theorem end_to_end_exact :
    ∃ out, run_cnn 10 init4 (const_matrix 4 4 0) (const_matrix 4 4 0) 1 decay_cell
        bound_constant (1/10) 1 = some out ∧
      out.observed.length = 10 ∧
      (∀ x y, 1 ≤ x → x < 3 → 1 ≤ y → y < 3 →
        |cell_at out.result x y - 3679/10000| < 1/1000) ∧
      (∀ x y, x < 4 → y < 4 → ¬ (1 ≤ x ∧ x < 3 ∧ 1 ≤ y ∧ y < 3) →
        cell_at out.result x y = 0) := by
  have hloop := run_cnn_loop_steps 1 decay_cell bound_constant
    (call_bnd bound_constant (copy_matrix (const_matrix 4 4 0)) 1)
    (call_bnd bound_constant (copy_matrix (const_matrix 4 4 0)) 1) (1/10) 1
    (run_cnn_start init4) 10 0 10 (Nat.le_refl 10)
    (by
      intro j hj
      rw [Nat.zero_add, loop_time_eq]
      have : (j : ℚ) ≤ 9 := by exact_mod_cast Nat.le_of_lt_succ hj
      linarith)
    (by rw [loop_time_eq]; norm_num)
  have hrun : run_cnn 10 init4 (const_matrix 4 4 0) (const_matrix 4 4 0) 1 decay_cell
      bound_constant (1/10) 1
      = some { result := saturate_all (run_cnn_steps 1 decay_cell bound_constant
                  (call_bnd bound_constant (copy_matrix (const_matrix 4 4 0)) 1)
                  (call_bnd bound_constant (copy_matrix (const_matrix 4 4 0)) 1) (1/10) 10
                  (run_cnn_start init4)).state,
               observed := (run_cnn_steps 1 decay_cell bound_constant
                  (call_bnd bound_constant (copy_matrix (const_matrix 4 4 0)) 1)
                  (call_bnd bound_constant (copy_matrix (const_matrix 4 4 0)) 1) (1/10) 10
                  (run_cnn_start init4)).observed } := by
    simp only [run_cnn]
    have h0 : loop_time (1/10) 0 = 0 := rfl
    rw [h0] at hloop
    simp only [run_cnn_steps, Nat.zero_add] at hloop
    rw [hloop]
    simp only [run_cnn_steps]
  obtain ⟨d1, d2, _, _⟩ := run_cnn_steps_dims 1 decay_cell bound_constant
    (call_bnd bound_constant (copy_matrix (const_matrix 4 4 0)) 1)
    (call_bnd bound_constant (copy_matrix (const_matrix 4 4 0)) 1) (1/10) init4 10
  refine ⟨_, hrun, ?_, ?_, ?_⟩
  · simp [run_cnn_steps_observed, run_cnn_start]
  · intro x y hx1 hx2 hy1 hy2
    show |cell_at (saturate_all _) x y - _| < _
    rw [saturate_all_cell _ x y (by rw [d1]; show x < 4; omega),
      if_pos (by rw [d2]; show y < 4; omega),
      run_cnn_steps_decay decay_cell
        (linear3x3_decay (centre_template 0) (fun k _ => by simp [centre_template])
          (fun _ _ => rfl) rfl) 1 bound_constant init4 _ _ (1/10)
        (fun m _ _ x y _ _ _ _ => rfl) 10 x y hx1 (by show x < 4 - 1; omega) hy1
        (by show y < 4 - 1; omega)]
    have hv : cell_at init4 x y = 1 := by
      have hx : x = 1 ∨ x = 2 := by omega
      have hy : y = 1 ∨ y = 2 := by omega
      rcases hx with rfl | rfl <;> rcases hy with rfl | rfl <;> norm_num [cell_at, init4]
    rw [hv]
    norm_num [decay_factor, phi, abs_lt]
  · intro x y hx hy hm
    show cell_at (saturate_all _) x y = _
    rw [saturate_all_cell _ x y (by rw [d1]; exact hx), if_pos (by rw [d2]; exact hy),
      constant_margin_invariant 1 decay_cell _ _ (1/10) 1 init4 10 _
        (by
          have h0 : loop_time (1/10) 0 = 0 := rfl
          rw [h0] at hloop
          simpa [run_cnn_steps] using hloop) x y hx hm]
    have hv : cell_at init4 x y = 0 := by
      simp only [cell_at, init4]
      rw [if_neg]
      intro h
      apply hm
      omega
    rw [hv, phi_zero]

/-! ## Matrix utilities -/

theorem for_loop_frame (lo hi : Nat) (f : Nat → (Nat → ℚ) → (Nat → ℚ)) (d0 : Nat → ℚ)
    (i : Nat) (hf : ∀ j d, lo ≤ j → j < hi → f j d i = d i) :
    for_loop lo hi f d0 i = d0 i := by
  by_cases hle : lo ≤ hi
  · exact for_loop_invariant lo hi f (fun _ d => d i = d0 i) d0 hle rfl
      (fun j d h1 h2 ih => (hf j d h1 h2).trans ih)
  · rw [for_loop_empty _ _ _ _ (by omega)]

/-- With margin 1, `fill_bounds` leaves every cell outside row `0`, row `h-1`
and column `0` as it was. -/
theorem fill_bounds_keep (m : matrix) (val : ℚ) (x y : Nat) (hx1 : 1 ≤ x) (hx : x < m.w)
    (hy1 : 1 ≤ y) (hy : y + 1 < m.h) :
    cell_at (fill_bounds m 1 val) x y = cell_at m x y := by
  have ne_of : ∀ (x1 y1 : Nat), x1 < m.w → (y ≠ y1 ∨ x ≠ x1) → m.w*y + x ≠ m.w*y1 + x1 := by
    intro x1 y1 h1 h2 h3
    have := (idx_inj_left m.w x y x1 y1 hx h1).1 h3
    omega
  have ew : (fill_bounds m 1 val).w = m.w := rfl
  simp only [cell_at, ew]
  rw [Nat.mul_comm y m.w]
  show for_loop 0 m.h _ (for_loop 0 m.w _ m.data) (m.w*y + x) = _
  rw [for_loop_frame, for_loop_frame]
  · intro j d _ hj
    show poke (poke d (m.w*0 + j) val) (m.w*(m.h-1-0) + j) val (m.w*y + x) = d (m.w*y + x)
    rw [poke_other _ _ _ _ (ne_of j _ hj (by omega)), poke_other _ _ _ _ (ne_of j _ hj (by omega))]
  · intro j d _ hj
    show poke (poke d (m.w*j + 0) val) (m.w*(m.h-1-j) + 0) val (m.w*y + x) = d (m.w*y + x)
    rw [poke_other _ _ _ _ (ne_of 0 _ (by omega) (by omega)),
      poke_other _ _ _ _ (ne_of 0 _ (by omega) (by omega))]

theorem memcpy_apply (dst : Nat → ℚ) (doff : Nat) (src : Nat → ℚ) (soff n i : Nat) :
    memcpy dst doff src soff n i
      = if doff ≤ i ∧ i < doff + n then src (soff + (i - doff)) else dst i := by
  refine for_loop_invariant 0 n _
    (fun k d => ∀ i, d i = if doff ≤ i ∧ i < doff + k then src (soff + (i - doff)) else dst i)
    dst (Nat.zero_le n) ?_ ?_ i
  · intro i
    rw [if_neg (by omega)]
  · intro k d _ _ ih i
    show poke d (doff + k) (src (soff + k)) i = _
    by_cases hi : i = doff + k
    · subst hi
      rw [poke_same, if_pos (by omega)]
      congr 1
      omega
    · rw [poke_other _ _ _ _ hi, ih i]
      by_cases hc : doff ≤ i ∧ i < doff + k
      · rw [if_pos hc, if_pos (by omega)]
      · rw [if_neg hc, if_neg (by omega)]

/-- A loop that copies, for each row `i` in `lo ≤ i < hi`, `n` doubles from offset
`soff i` of `src` to the columns `c, ..., c+n-1` of row `i` of a buffer of row
length `W`. -/
theorem row_copy_apply (W c n lo hi : Nat) (src : Nat → ℚ) (soff : Nat → Nat)
    (d0 : Nat → ℚ) (hc : c + n ≤ W) (x y : Nat) (hx : x < n) (hy1 : lo ≤ y) (hy2 : y < hi) :
    for_loop lo hi (fun i d => memcpy d (i*W + c) src (soff i) n) d0 (y*W + c + x)
      = src (soff y + x) := by
  refine for_loop_invariant lo hi _
    (fun k d => ∀ x y, x < n → lo ≤ y → y < k → d (y*W + c + x) = src (soff y + x))
    d0 (by omega) ?_ ?_ x y hx hy1 hy2
  · intro x y _ h1 h2
    omega
  · intro k d _ _ ih x y hx h1 h2
    show memcpy d (k*W + c) src (soff k) n (y*W + c + x) = _
    rw [memcpy_apply]
    by_cases hk : y = k
    · subst hk
      rw [if_pos (by omega)]
      congr 1
      omega
    · have hlt : y < k := by omega
      have hm : (y + 1) * W ≤ k * W := Nat.mul_le_mul_right W hlt
      rw [Nat.succ_mul] at hm
      rw [if_neg (by omega)]
      exact ih x y hx h1 hlt

theorem expand_matrix_cell (m : matrix) (s : Nat) (junk : Nat → ℚ) (x y : Nat)
    (hx : x < m.w) (hy : y < m.h) :
    cell_at (expand_matrix m s junk) (x + 1) (y + 1) = cell_at m x y := by
  have h := row_copy_apply (m.w + 2) 1 m.w 1 (m.h + 2 - 1) m.data (fun i => (i-1)*m.w) junk
    (by omega) x (y + 1) hx (by omega) (by omega)
  simp only [cell_at, expand_matrix, create_matrix]
  rw [show (y + 1) * (m.w + 2) + (x + 1) = (y + 1) * (m.w + 2) + 1 + x by omega]
  exact h

theorem shrink_matrix_cell (m : matrix) (s : Nat) (junk : Nat → ℚ) (x y : Nat)
    (hx : x < m.w - 2) (hy : y < m.h - 2) :
    cell_at (shrink_matrix m s junk) x y = cell_at m (x + 1) (y + 1) := by
  have h := row_copy_apply (m.w - 2) 0 (m.w - 2) 0 (m.h - 2) m.data
    (fun i => (i+1)*m.w + 1) junk (by omega) x y hx (by omega) hy
  simp only [cell_at, shrink_matrix, create_matrix]
  rw [show (y + 1) * m.w + (x + 1) = (y + 1) * m.w + 1 + x by omega]
  exact h

theorem py_apply_template_one_step (fuel : Nat) (g : py_globals) (dt t_end : ℚ)
    (h0 : 0 < t_end) (h1 : t_end ≤ dt) :
    py_apply_template (fuel + 1) g dt t_end
      = some { result := saturate_all (run_cnn_step 1 (py_tem_cell g) (py_bnd_func g.bnd)
                  (call_bnd (py_bnd_func g.bnd) (copy_matrix (fill_bounds g.input1 1 g.bnd)) 1)
                  (call_bnd (py_bnd_func g.bnd) (copy_matrix (fill_bounds g.input2 1 g.bnd)) 1)
                  dt 0 (run_cnn_start (fill_bounds g.init 1 g.bnd))).state,
               observed := [call_bnd (py_bnd_func g.bnd)
                  (copy_matrix (fill_bounds g.init 1 g.bnd)) 1] } :=
  run_cnn_one_step fuel (fill_bounds g.init 1 g.bnd) (fill_bounds g.input1 1 g.bnd)
    (fill_bounds g.input2 1 g.bnd) 1 (py_tem_cell g) (py_bnd_func g.bnd) dt t_end h0 h1

/-! ## The piecewise nonlinearities -/

theorem double_to_int_natCast (n : Nat) : double_to_int (n : ℚ) = (n : Int) := by
  unfold double_to_int
  rw [if_pos (Nat.cast_nonneg n), Int.floor_natCast]

theorem pw_constant_count (k : Nat) (p : Nat → ℚ) (hp : p 0 = 2*k + 1) :
    p 0 = ((2*k + 1 : Nat) : ℚ) ∧ (double_to_int (p 0) - 1).toNat = 2*k := by
  have e : p 0 = ((2*k + 1 : Nat) : ℚ) := by rw [hp]; push_cast; ring
  refine ⟨e, ?_⟩
  rw [e, double_to_int_natCast]
  omega

/-- The loop of `nonlin_pw_constant`, entered at the breakpoint of index `j`
(counting from 0) when no breakpoint from there on exceeds `x`: it runs to the
end and the last level is returned. -/
theorem pw_constant_loop_miss (k : Nat) (p : Nat → ℚ) (hp : p 0 = 2*k + 1) (x : ℚ) :
    ∀ (n fuel j : Nat), j + n = k → n ≤ fuel →
      (∀ j1, j ≤ j1 → j1 < k → ¬ x < p (2*j1 + 1)) →
      nonlin_pw_constant_loop x p fuel (2*j + 1) = some (p (2*k)) := by
  obtain ⟨e, hlast⟩ := pw_constant_count k p hp
  intro n
  induction n with
  | zero =>
    intro fuel j hj _ _
    have hge : ¬ ((2*j + 1 : Nat) : ℚ) < p 0 := by
      rw [e]; exact_mod_cast (by omega : ¬ 2*j + 1 < 2*k + 1)
    cases fuel <;> simp only [nonlin_pw_constant_loop, hge, if_false, hlast]
  | succ n ih =>
    intro fuel j hj hf hmiss
    obtain ⟨fuel, rfl⟩ : ∃ f, fuel = f + 1 := ⟨fuel - 1, by omega⟩
    have hlt : ((2*j + 1 : Nat) : ℚ) < p 0 := by
      rw [e]; exact_mod_cast (by omega : 2*j + 1 < 2*k + 1)
    simp only [nonlin_pw_constant_loop, hlt, if_true, hmiss j (Nat.le_refl j) (by omega),
      if_false]
    rw [show 2*j + 1 + 2 = 2*(j + 1) + 1 by omega]
    exact ih fuel (j + 1) (by omega) (by omega) (fun j1 h1 h2 => hmiss j1 (by omega) h2)

/-- The loop of `nonlin_pw_constant`, entered at the breakpoint of index `j`
when the first breakpoint from there on that exceeds `x` has index `j + n`: its
level is returned. -/
theorem pw_constant_loop_hit (k : Nat) (p : Nat → ℚ) (hp : p 0 = 2*k + 1) (x : ℚ) :
    ∀ (n fuel j : Nat), n + 1 ≤ fuel → j + n < k →
      (∀ j1, j ≤ j1 → j1 < j + n → ¬ x < p (2*j1 + 1)) → x < p (2*(j + n) + 1) →
      nonlin_pw_constant_loop x p fuel (2*j + 1) = some (p (2*(j + n) + 2)) := by
  obtain ⟨e, _⟩ := pw_constant_count k p hp
  intro n
  induction n with
  | zero =>
    intro fuel j hf hj _ hx
    obtain ⟨fuel, rfl⟩ : ∃ f, fuel = f + 1 := ⟨fuel - 1, by omega⟩
    have hlt : ((2*j + 1 : Nat) : ℚ) < p 0 := by
      rw [e]; exact_mod_cast (by omega : 2*j + 1 < 2*k + 1)
    simp only [Nat.add_zero] at hx
    simp only [nonlin_pw_constant_loop, hlt, if_true, hx, Nat.add_zero]
  | succ n ih =>
    intro fuel j hf hj hmiss hx
    obtain ⟨fuel, rfl⟩ : ∃ f, fuel = f + 1 := ⟨fuel - 1, by omega⟩
    have hlt : ((2*j + 1 : Nat) : ℚ) < p 0 := by
      rw [e]; exact_mod_cast (by omega : 2*j + 1 < 2*k + 1)
    simp only [nonlin_pw_constant_loop, hlt, if_true, hmiss j (Nat.le_refl j) (by omega),
      if_false]
    rw [show 2*j + 1 + 2 = 2*(j + 1) + 1 by omega, show j + (n + 1) = (j + 1) + n by omega]
    exact ih fuel (j + 1) (by omega) (by omega) (fun j1 h1 h2 => hmiss j1 (by omega) (by omega))
      (by rwa [show j + (n + 1) = (j + 1) + n by omega] at hx)

theorem pw_linear_count (k : Nat) (hk : 1 ≤ k) (p : Nat → ℚ) (hp : p 0 = 3*k + 1) :
    p 0 = ((3*k + 1 : Nat) : ℚ) ∧ (double_to_int (p 0) - 2).toNat = 3*k - 1 ∧
    (double_to_int (p 0) - 1).toNat = 3*k := by
  have e : p 0 = ((3*k + 1 : Nat) : ℚ) := by rw [hp]; push_cast; ring
  refine ⟨e, ?_, ?_⟩
  · rw [e, double_to_int_natCast]
    omega
  · rw [e, double_to_int_natCast]
    omega

/-- The loop of `nonlin_pw_linear`, entered at the breakpoint of index `j`
(counting from 0) when no breakpoint from there on exceeds `x`: it runs to the
end and the last segment is evaluated. -/
theorem pw_linear_loop_miss (k : Nat) (hk : 1 ≤ k) (p : Nat → ℚ) (hp : p 0 = 3*k + 1)
    (x : ℚ) :
    ∀ (n fuel j : Nat), j + n = k → n ≤ fuel →
      (∀ j1, j ≤ j1 → j1 < k → ¬ x < p (3*j1 + 1)) →
      nonlin_pw_linear_loop x p fuel (3*j + 1) = some (x * p (3*k - 1) + p (3*k)) := by
  obtain ⟨e, hl2, hl1⟩ := pw_linear_count k hk p hp
  intro n
  induction n with
  | zero =>
    intro fuel j hj _ _
    have hge : ¬ ((3*j + 1 : Nat) : ℚ) < p 0 := by
      rw [e]; exact_mod_cast (by omega : ¬ 3*j + 1 < 3*k + 1)
    cases fuel <;> simp only [nonlin_pw_linear_loop, hge, if_false, hl1, hl2]
  | succ n ih =>
    intro fuel j hj hf hmiss
    obtain ⟨fuel, rfl⟩ : ∃ f, fuel = f + 1 := ⟨fuel - 1, by omega⟩
    have hlt : ((3*j + 1 : Nat) : ℚ) < p 0 := by
      rw [e]; exact_mod_cast (by omega : 3*j + 1 < 3*k + 1)
    simp only [nonlin_pw_linear_loop, hlt, if_true, hmiss j (Nat.le_refl j) (by omega),
      if_false]
    rw [show 3*j + 1 + 3 = 3*(j + 1) + 1 by omega]
    exact ih fuel (j + 1) (by omega) (by omega) (fun j1 h1 h2 => hmiss j1 (by omega) h2)

/-- The loop of `nonlin_pw_linear`, entered at the breakpoint of index `j` when
the first breakpoint from there on that exceeds `x` has index `j + n`: its
segment is evaluated. -/
theorem pw_linear_loop_hit (k : Nat) (hk : 1 ≤ k) (p : Nat → ℚ) (hp : p 0 = 3*k + 1)
    (x : ℚ) :
    ∀ (n fuel j : Nat), n + 1 ≤ fuel → j + n < k →
      (∀ j1, j ≤ j1 → j1 < j + n → ¬ x < p (3*j1 + 1)) → x < p (3*(j + n) + 1) →
      nonlin_pw_linear_loop x p fuel (3*j + 1)
        = some (x * p (3*(j + n) + 2) + p (3*(j + n) + 3)) := by
  obtain ⟨e, _, _⟩ := pw_linear_count k hk p hp
  intro n
  induction n with
  | zero =>
    intro fuel j hf hj _ hx
    obtain ⟨fuel, rfl⟩ : ∃ f, fuel = f + 1 := ⟨fuel - 1, by omega⟩
    have hlt : ((3*j + 1 : Nat) : ℚ) < p 0 := by
      rw [e]; exact_mod_cast (by omega : 3*j + 1 < 3*k + 1)
    simp only [Nat.add_zero] at hx
    simp only [nonlin_pw_linear_loop, hlt, if_true, hx, Nat.add_zero]
  | succ n ih =>
    intro fuel j hf hj hmiss hx
    obtain ⟨fuel, rfl⟩ : ∃ f, fuel = f + 1 := ⟨fuel - 1, by omega⟩
    have hlt : ((3*j + 1 : Nat) : ℚ) < p 0 := by
      rw [e]; exact_mod_cast (by omega : 3*j + 1 < 3*k + 1)
    simp only [nonlin_pw_linear_loop, hlt, if_true, hmiss j (Nat.le_refl j) (by omega),
      if_false]
    rw [show 3*j + 1 + 3 = 3*(j + 1) + 1 by omega, show j + (n + 1) = (j + 1) + n by omega]
    exact ih fuel (j + 1) (by omega) (by omega) (fun j1 h1 h2 => hmiss j1 (by omega) (by omega))
      (by rwa [show j + (n + 1) = (j + 1) + n by omega] at hx)

/-! ## Pixels and samples -/

/-- A gray pixel of level `g` is mapped to the sample `1 - g/127.5`. -/
theorem img_to_data_sample_gray (g : Nat) :
    img_to_data_sample (SDL_Color.mk g g g) = 1 - g/127.5 := by
  simp only [img_to_data_sample]
  ring

/-- The scaling by `-127` in `data_to_img` takes the sample of the gray level
`g` to `g*254/255`, which truncates to `g - 1` for every `g` from 1 to 255. -/
theorem data_to_img_gray_sample (g : Nat) (h1 : 1 ≤ g) (h2 : g ≤ 255) :
    data_to_img_gray (img_to_data_sample (SDL_Color.mk g g g)) = g - 1 := by
  obtain ⟨n, rfl⟩ : ∃ n, g = n + 1 := ⟨g - 1, by omega⟩
  have hn : (n : ℚ) ≤ 254 := by exact_mod_cast (by omega : n ≤ 254)
  have hv : (img_to_data_sample (SDL_Color.mk (n + 1) (n + 1) (n + 1)) - 1) * -127
      = ((n : ℚ) + 1) * 254 / 255 := by
    rw [img_to_data_sample_gray]
    push_cast
    ring
  have hfl : ⌊((n : ℚ) + 1) * 254 / 255⌋ = (n : Int) := by
    rw [Int.floor_eq_iff]
    constructor
    · push_cast
      linarith
    · push_cast
      have : (0 : ℚ) ≤ n := Nat.cast_nonneg n
      linarith
  have hpos : (0 : ℚ) ≤ ((n : ℚ) + 1) * 254 / 255 := by
    have : (0 : ℚ) ≤ n := Nat.cast_nonneg n
    positivity
  simp only [data_to_img_gray, double_to_uint8, hv, double_to_int, if_pos hpos, hfl,
    int_to_uchar]
  omega

/-- The scaling by `-127.5` in `update_animate` takes the sample of the gray
level `g` back to `g`. -/
theorem update_animate_gray_sample (g : Nat) (h2 : g ≤ 255) :
    update_animate_gray (img_to_data_sample (SDL_Color.mk g g g)) = g := by
  have hv : (img_to_data_sample (SDL_Color.mk g g g) - 1) * -127.5 = (g : ℚ) := by
    rw [img_to_data_sample_gray]
    ring
  have h255 : ¬ ((g : Int) > 255) := by omega
  have h0 : ¬ ((g : Int) < 0) := by omega
  simp only [update_animate_gray, hv, double_to_int_natCast, h255, h0, if_false]

/-! ## Boundary conditions: frame -/

theorem bound_zeroflux_interior (m : matrix) (x y : Nat) (hx1 : 1 ≤ x) (hx2 : x + 2 ≤ m.w)
    (hy1 : 1 ≤ y) (hy2 : y + 2 ≤ m.h) :
    cell_at (bound_zeroflux m 1) x y = cell_at m x y := by
  have h := bound_zeroflux_cell m (by omega) (by omega) x y (by omega) (by omega)
  rw [if_neg (by omega), if_neg (by omega), if_neg (by omega), if_neg (by omega)] at h
  exact h

theorem bound_periodic_interior (m : matrix) (x y : Nat) (hx1 : 1 ≤ x) (hx2 : x + 2 ≤ m.w)
    (hy1 : 1 ≤ y) (hy2 : y + 2 ≤ m.h) :
    cell_at (bound_periodic m 1) x y = cell_at m x y := by
  have h := bound_periodic_cell m (by omega) (by omega) x y (by omega) (by omega)
  rw [if_neg (by omega), if_neg (by omega), if_neg (by omega), if_neg (by omega)] at h
  exact h

/-! ## `fill_bounds`, cell by cell -/

theorem poke_val_keep (d : Nat → ℚ) (a i : Nat) (val : ℚ) (h : d i = val ∨ i = a) :
    poke d a val i = val := by
  by_cases hi : i = a
  · rw [hi, poke_same]
  · rw [poke_other _ _ _ _ hi]
    exact h.resolve_right hi

theorem for_loop_keep_val (lo hi : Nat) (f : Nat → (Nat → ℚ) → (Nat → ℚ)) (d0 : Nat → ℚ)
    (i : Nat) (val : ℚ) (hk : ∀ j d, d i = val → f j d i = val) (h0 : d0 i = val) :
    for_loop lo hi f d0 i = val := by
  by_cases hle : lo ≤ hi
  · exact for_loop_invariant lo hi f (fun _ d => d i = val) d0 hle h0
      (fun j d _ _ ih => hk j d ih)
  · rw [for_loop_empty _ _ _ _ (by omega)]
    exact h0

theorem for_loop_set_val (lo hi : Nat) (f : Nat → (Nat → ℚ) → (Nat → ℚ)) (d0 : Nat → ℚ)
    (i : Nat) (val : ℚ) (j0 : Nat) (h1 : lo ≤ j0) (h2 : j0 < hi) (hw : ∀ d, f j0 d i = val)
    (hk : ∀ j d, d i = val → f j d i = val) :
    for_loop lo hi f d0 i = val := by
  refine for_loop_invariant lo hi f (fun k d => j0 < k → d i = val) d0 (by omega)
    (fun h => absurd h (by omega)) ?_ h2
  intro j d _ _ ih hj
  by_cases e : j = j0
  · rw [e]; exact hw d
  · exact hk j d (ih (by omega))

/-- With margin 1, `fill_bounds` sets row `0`, row `h-1` and column `0` to `val`
and leaves every other cell, column `w-1` included, as it was. -/
theorem fill_bounds_cell (m : matrix) (val : ℚ) (x y : Nat) (hx : x < m.w) (hy : y < m.h) :
    cell_at (fill_bounds m 1 val) x y
      = if y = 0 ∨ y = m.h - 1 ∨ x = 0 then val else cell_at m x y := by
  by_cases hc : y = 0 ∨ y = m.h - 1 ∨ x = 0
  · rw [if_pos hc]
    have ew : (fill_bounds m 1 val).w = m.w := rfl
    simp only [cell_at, ew]
    rw [Nat.mul_comm y m.w]
    show for_loop 0 m.h
      (fun j d => poke (poke d (m.w*j + 0) val) (m.w*(m.h-1-j) + 0) val)
      (for_loop 0 m.w
        (fun j d => poke (poke d (m.w*0 + j) val) (m.w*(m.h-1-0) + j) val) m.data)
      (m.w*y + x) = val
    have keep1 : ∀ (j : Nat) (d : Nat → ℚ), d (m.w*y + x) = val →
        poke (poke d (m.w*j + 0) val) (m.w*(m.h-1-j) + 0) val (m.w*y + x) = val :=
      fun j d h => poke_val_keep _ _ _ _ (Or.inl (poke_val_keep _ _ _ _ (Or.inl h)))
    have keep2 : ∀ (j : Nat) (d : Nat → ℚ), d (m.w*y + x) = val →
        poke (poke d (m.w*0 + j) val) (m.w*(m.h-1-0) + j) val (m.w*y + x) = val :=
      fun j d h => poke_val_keep _ _ _ _ (Or.inl (poke_val_keep _ _ _ _ (Or.inl h)))
    by_cases hx0 : x = 0
    · subst hx0
      exact for_loop_set_val 0 m.h _ _ _ val y (Nat.zero_le y) hy
        (fun d => poke_val_keep _ _ _ _ (Or.inl (poke_val_keep _ _ _ _ (Or.inr rfl)))) keep1
    · apply for_loop_keep_val 0 m.h _ _ _ val keep1
      rcases hc with h0 | h1 | h2
      · subst h0
        exact for_loop_set_val 0 m.w _ _ _ val x (Nat.zero_le x) hx
          (fun d => poke_val_keep _ _ _ _ (Or.inl (poke_val_keep _ _ _ _ (Or.inr rfl)))) keep2
      · subst h1
        exact for_loop_set_val 0 m.w _ _ _ val x (Nat.zero_le x) hx
          (fun d => poke_val_keep _ _ _ _ (Or.inr rfl)) keep2
      · exact absurd h2 hx0
  · rw [if_neg hc]
    exact fill_bounds_keep m val x y (by omega) hx (by omega) (by omega)

/-! ## The cell pass in any order -/

theorem cell_pass_in_order_eq (cell : cell_fn) (input1 input2 : matrix) (dt t : ℚ)
    (G : matrix) :
    ∀ (cells : List (Nat × Nat)) (nx : matrix),
      cell_pass_in_order cell input1 input2 dt t cells (G, nx)
        = (G, { w := nx.w, h := nx.h,
                data := cells.foldl (fun d c =>
                  poke d (c.2*nx.w + c.1) (rk4_value cell input1 input2 dt t G c.1 c.2))
                  nx.data }) := by
  intro cells
  induction cells with
  | nil => intro nx; rfl
  | cons c rest ih =>
    intro nx
    simp only [cell_pass_in_order, List.foldl_cons, rk4_cell_eq]
    exact ih _

theorem poke_fold_apply (w : Nat) (R : Nat → Nat → ℚ) :
    ∀ (cells : List (Nat × Nat)) (d0 : Nat → ℚ), (∀ c, c ∈ cells → c.1 < w) →
      ∀ x y, x < w →
        cells.foldl (fun d c => poke d (c.2*w + c.1) (R c.1 c.2)) d0 (y*w + x)
          = if (x, y) ∈ cells then R x y else d0 (y*w + x) := by
  intro cells
  induction cells with
  | nil => intro d0 _ x y _; simp
  | cons c rest ih =>
    intro d0 hc x y hx
    simp only [List.foldl_cons]
    rw [ih _ (fun c1 h => hc c1 (List.mem_cons_of_mem _ h)) x y hx]
    by_cases hr : (x, y) ∈ rest
    · rw [if_pos hr, if_pos (List.mem_cons_of_mem _ hr)]
    · rw [if_neg hr]
      by_cases he : (x, y) = c
      · subst he
        rw [poke_same, if_pos (List.mem_cons_self _ _)]
      · have hne : y*w + x ≠ c.2*w + c.1 := by
          intro h
          have := (idx_inj w x y c.1 c.2 hx (hc c (List.mem_cons_self _ _))).1 h
          exact he (Prod.ext this.2 this.1)
        rw [poke_other _ _ _ _ hne, if_neg]
        intro hm
        rcases List.mem_cons.1 hm with h1 | h1
        · exact he h1
        · exact hr h1

theorem matrix_ext (a b : matrix) (hw : a.w = b.w) (hh : a.h = b.h) (hd : a.data = b.data) :
    a = b := by
  cases a
  cases b
  simp only at hw hh hd
  subst hw hh hd
  rfl

/-- Visiting the cells of the cell loop one after the other in any order, even
with repetitions, leaves the two buffers exactly as the loops of `run_cnn` do. -/
theorem cell_pass_any_order (s : Nat) (cell : cell_fn) (bnd : bnd_fn) (input1 input2 : matrix)
    (dt t : ℚ) (rs : cnn_run) (hw : rs.next_state.w = rs.state.w)
    (cells : List (Nat × Nat))
    (hcells : ∀ x y, (x, y) ∈ cells ↔
      s ≤ x ∧ x < rs.state.w - s ∧ s ≤ y ∧ y < rs.state.h - s) :
    cell_pass_in_order cell input1 input2 dt t cells (call_bnd bnd rs.state s, rs.next_state)
      = ((run_cnn_step s cell bnd input1 input2 dt t rs).next_state,
         (run_cnn_step s cell bnd input1 input2 dt t rs).state) := by
  have e : (run_cnn_step s cell bnd input1 input2 dt t rs).state
      = { w := rs.next_state.w, h := rs.next_state.h,
          data := for_loop s ((call_bnd bnd rs.state s).w - s) (fun x d =>
            for_loop s ((call_bnd bnd rs.state s).h - s) (fun y d =>
              poke d (y*rs.next_state.w + x) ((fun x y (_ : ℚ) =>
                rk4_value cell input1 input2 dt t (call_bnd bnd rs.state s) x y) x y
                (d (y*rs.next_state.w + x)))) d) rs.next_state.data } := by
    simp only [run_cnn_step]
    rw [cell_pass_eq]
  rw [cell_pass_in_order_eq, run_cnn_step_next]
  refine Prod.ext rfl ?_
  refine matrix_ext _ _ (run_cnn_step_dims s cell bnd input1 input2 dt t rs).1.symm
    (run_cnn_step_dims s cell bnd input1 input2 dt t rs).2.1.symm ?_
  funext i
  show cells.foldl (fun d c => poke d (c.2*rs.next_state.w + c.1)
      (rk4_value cell input1 input2 dt t (call_bnd bnd rs.state s) c.1 c.2))
      rs.next_state.data i
    = (run_cnn_step s cell bnd input1 input2 dt t rs).state.data i
  by_cases hw0 : rs.next_state.w = 0
  · have hnil : cells = [] := by
      apply List.eq_nil_iff_forall_not_mem.2
      intro c hc
      have := (hcells c.1 c.2).1 hc
      omega
    have hcw : (call_bnd bnd rs.state s).w = rs.state.w := rfl
    rw [hnil, e]
    simp only [List.foldl_nil]
    rw [for_loop_empty _ _ _ _ (by rw [hcw]; omega)]
  · have hi : i = (i / rs.next_state.w) * rs.next_state.w + i % rs.next_state.w :=
      (Nat.div_add_mod' i rs.next_state.w).symm
    have hx : i % rs.next_state.w < rs.next_state.w := Nat.mod_lt _ (by omega)
    rw [hi]
    generalize i % rs.next_state.w = x at hx
    generalize i / rs.next_state.w = y
    rw [poke_fold_apply rs.next_state.w
      (fun x y => rk4_value cell input1 input2 dt t (call_bnd bnd rs.state s) x y) cells _
      (fun c hc => by have := (hcells c.1 c.2).1 hc; omega) x y hx]
    have hc := run_cnn_step_cell s cell bnd input1 input2 dt t rs hw x y (by omega)
    simp only [cell_at, (run_cnn_step_dims s cell bnd input1 input2 dt t rs).1] at hc
    rw [hc]
    by_cases hm : (x, y) ∈ cells
    · rw [if_pos hm, if_pos ((hcells x y).1 hm)]
    · rw [if_neg hm, if_neg (fun h => hm ((hcells x y).2 h))]

/-! ## Offsets read and written: bounds and dependence -/

/-- At a cell with `1 ≤ x`, `x + 2 ≤ w`, `1 ≤ y`, `y + 2 ≤ h` the nine stencil
offsets lie below `w*h`. -/
theorem stencil3x3_lt (w h x y : Nat) (hx1 : 1 ≤ x) (hx : x + 2 ≤ w) (hy1 : 1 ≤ y)
    (hy : y + 2 ≤ h) : ∀ i ∈ stencil3x3 w x y, i < w*h := by
  have e1 : w*(y-1) + w = w*y := by
    have e : y - 1 + 1 = y := by omega
    calc w*(y-1) + w = w*(y-1+1) := by ring
      _ = w*y := by rw [e]
  have e2 : w*(y+1) = w*y + w := by ring
  have e3 : w*(y+1) + w ≤ w*h := by
    calc w*(y+1) + w = w*(y+2) := by ring
      _ ≤ w*h := Nat.mul_le_mul_left w hy
  intro i hi
  simp only [stencil3x3, List.mem_cons, List.mem_singleton, List.not_mem_nil, or_false] at hi
  rcases hi with h | h | h | h | h | h | h | h | h <;> omega

/-- The offset of a cell inside the grid lies below `w*h`, in both ways the
source writes it. -/
theorem cell_offset_lt (w h x y : Nat) (hx : x < w) (hy : y < h) :
    y*w + x < w*h ∧ w*y + x < w*h := by
  have e1 : (y+1)*w ≤ h*w := Nat.mul_le_mul_right w (by omega)
  have e2 : (y+1)*w = y*w + w := by ring
  have e3 : w*h = h*w := Nat.mul_comm w h
  have e4 : w*y = y*w := Nat.mul_comm w y
  omega

/-- The value of `linear3x3` depends on `state.data` only at the offsets of
`linear3x3_state_reads`, on `input1.data` only at the stencil offsets, and not on
`input2` or `t`. -/
theorem linear3x3_congr (x y : Nat) (state state1 input1 input11 input2 input21 : matrix)
    (t t1 : ℚ) (tmpl : template3x3) (hw : state1.w = state.w) (hw1 : input11.w = input1.w)
    (hs : ∀ i ∈ linear3x3_state_reads x y state, state1.data i = state.data i)
    (hi : ∀ i ∈ stencil3x3 input1.w x y, input11.data i = input1.data i) :
    linear3x3 x y state1 input11 input21 t1 tmpl = linear3x3 x y state input1 input2 t tmpl := by
  have a0 := hs (state.w*(y-1) + x-1) (by simp [linear3x3_state_reads, stencil3x3])
  have a1 := hs (state.w*(y-1) + x) (by simp [linear3x3_state_reads, stencil3x3])
  have a2 := hs (state.w*(y-1) + x+1) (by simp [linear3x3_state_reads, stencil3x3])
  have a3 := hs (state.w*y + x-1) (by simp [linear3x3_state_reads, stencil3x3])
  have a4 := hs (state.w*y + x) (by simp [linear3x3_state_reads, stencil3x3])
  have a5 := hs (state.w*y + x+1) (by simp [linear3x3_state_reads, stencil3x3])
  have a6 := hs (state.w*(y+1) + x-1) (by simp [linear3x3_state_reads, stencil3x3])
  have a7 := hs (state.w*(y+1) + x) (by simp [linear3x3_state_reads, stencil3x3])
  have a8 := hs (state.w*(y+1) + x+1) (by simp [linear3x3_state_reads, stencil3x3])
  have b0 := hi (input1.w*(y-1) + x-1) (by simp [stencil3x3])
  have b1 := hi (input1.w*(y-1) + x) (by simp [stencil3x3])
  have b2 := hi (input1.w*(y-1) + x+1) (by simp [stencil3x3])
  have b3 := hi (input1.w*y + x-1) (by simp [stencil3x3])
  have b4 := hi (input1.w*y + x) (by simp [stencil3x3])
  have b5 := hi (input1.w*y + x+1) (by simp [stencil3x3])
  have b6 := hi (input1.w*(y+1) + x-1) (by simp [stencil3x3])
  have b7 := hi (input1.w*(y+1) + x) (by simp [stencil3x3])
  have b8 := hi (input1.w*(y+1) + x+1) (by simp [stencil3x3])
  simp only [linear3x3, hw, hw1, a0, a1, a2, a3, a4, a5, a6, a7, a8, b0, b1, b2, b3, b4, b5, b6, b7, b8]

/-- The value of `nonlinear3x3` depends on each of the three buffers only at
the offsets of `nonlinear3x3_reads`, and not on `t`. -/
theorem nonlinear3x3_congr (x y : Nat) (state state1 input1 input11 input2 input21 : matrix)
    (t t1 : ℚ) (tmpl : template3x3) (hw : state1.w = state.w) (hw1 : input11.w = input1.w)
    (hw2 : input21.w = input2.w)
    (hs : ∀ i ∈ nonlinear3x3_reads x y state, state1.data i = state.data i)
    (hi : ∀ i ∈ nonlinear3x3_reads x y input1, input11.data i = input1.data i)
    (hj : ∀ i ∈ nonlinear3x3_reads x y input2, input21.data i = input2.data i) :
    nonlinear3x3 x y state1 input11 input21 t1 tmpl
      = nonlinear3x3 x y state input1 input2 t tmpl := by
  have a0 := hs (state.w*(y-1) + x-1) (by simp [nonlinear3x3_reads, stencil3x3])
  have a1 := hs (state.w*(y-1) + x) (by simp [nonlinear3x3_reads, stencil3x3])
  have a2 := hs (state.w*(y-1) + x+1) (by simp [nonlinear3x3_reads, stencil3x3])
  have a3 := hs (state.w*y + x-1) (by simp [nonlinear3x3_reads, stencil3x3])
  have a4 := hs (state.w*y + x) (by simp [nonlinear3x3_reads, stencil3x3])
  have a5 := hs (state.w*y + x+1) (by simp [nonlinear3x3_reads, stencil3x3])
  have a6 := hs (state.w*(y+1) + x-1) (by simp [nonlinear3x3_reads, stencil3x3])
  have a7 := hs (state.w*(y+1) + x) (by simp [nonlinear3x3_reads, stencil3x3])
  have a8 := hs (state.w*(y+1) + x+1) (by simp [nonlinear3x3_reads, stencil3x3])
  have b0 := hi (input1.w*(y-1) + x-1) (by simp [nonlinear3x3_reads, stencil3x3])
  have b1 := hi (input1.w*(y-1) + x) (by simp [nonlinear3x3_reads, stencil3x3])
  have b2 := hi (input1.w*(y-1) + x+1) (by simp [nonlinear3x3_reads, stencil3x3])
  have b3 := hi (input1.w*y + x-1) (by simp [nonlinear3x3_reads, stencil3x3])
  have b4 := hi (input1.w*y + x) (by simp [nonlinear3x3_reads, stencil3x3])
  have b5 := hi (input1.w*y + x+1) (by simp [nonlinear3x3_reads, stencil3x3])
  have b6 := hi (input1.w*(y+1) + x-1) (by simp [nonlinear3x3_reads, stencil3x3])
  have b7 := hi (input1.w*(y+1) + x) (by simp [nonlinear3x3_reads, stencil3x3])
  have b8 := hi (input1.w*(y+1) + x+1) (by simp [nonlinear3x3_reads, stencil3x3])
  have c0 := hj (input2.w*(y-1) + x-1) (by simp [nonlinear3x3_reads, stencil3x3])
  have c1 := hj (input2.w*(y-1) + x) (by simp [nonlinear3x3_reads, stencil3x3])
  have c2 := hj (input2.w*(y-1) + x+1) (by simp [nonlinear3x3_reads, stencil3x3])
  have c3 := hj (input2.w*y + x-1) (by simp [nonlinear3x3_reads, stencil3x3])
  have c4 := hj (input2.w*y + x) (by simp [nonlinear3x3_reads, stencil3x3])
  have c5 := hj (input2.w*y + x+1) (by simp [nonlinear3x3_reads, stencil3x3])
  have c6 := hj (input2.w*(y+1) + x-1) (by simp [nonlinear3x3_reads, stencil3x3])
  have c7 := hj (input2.w*(y+1) + x) (by simp [nonlinear3x3_reads, stencil3x3])
  have c8 := hj (input2.w*(y+1) + x+1) (by simp [nonlinear3x3_reads, stencil3x3])
  simp only [nonlinear3x3, nonlinear3x3_ij, nonlinear3x3_kl, hw, hw1, hw2,
    a0, a1, a2, a3, a4, a5, a6, a7, a8, b0, b1, b2, b3, b4, b5, b6, b7, b8, c0, c1, c2, c3, c4, c5, c6, c7, c8]

/-- One step of `run_cnn` leaves the new state buffer beyond offset `w*h` as
the other buffer was. -/
theorem run_cnn_step_frame (s : Nat) (cell : cell_fn) (bnd : bnd_fn) (input1 input2 : matrix)
    (dt t : ℚ) (rs : cnn_run) (hw : rs.next_state.w = rs.state.w) (hpos : 0 < rs.state.w)
    (i : Nat) (hi : rs.state.w*rs.state.h ≤ i) :
    (run_cnn_step s cell bnd input1 input2 dt t rs).state.data i = rs.next_state.data i := by
  have hc := run_cnn_step_cell s cell bnd input1 input2 dt t rs hw (i % rs.state.w)
    (i / rs.state.w) (Nat.mod_lt _ hpos)
  have hy : rs.state.h ≤ i / rs.state.w :=
    (Nat.le_div_iff_mul_le hpos).2 (by rw [Nat.mul_comm]; exact hi)
  rw [if_neg (by omega)] at hc
  simp only [cell_at, (run_cnn_step_dims s cell bnd input1 input2 dt t rs).1, hw,
    Nat.div_add_mod'] at hc
  exact hc

/-- The final pass of `run_cnn` leaves the buffer beyond offset `w*h` as it
was. -/
theorem saturate_all_frame (m : matrix) (hpos : 0 < m.w) (i : Nat) (hi : m.w*m.h ≤ i) :
    (saturate_all m).data i = m.data i := by
  have hc := saturate_all_cell m (i % m.w) (i / m.w) (Nat.mod_lt _ hpos)
  have hy : m.h ≤ i / m.w := (Nat.le_div_iff_mul_le hpos).2 (by rw [Nat.mul_comm]; exact hi)
  rw [if_neg (by omega)] at hc
  have ew : (saturate_all m).w = m.w := rfl
  simp only [cell_at, ew, Nat.div_add_mod'] at hc
  exact hc

/-! ## The claims -/

/-- C1: one step of `run_cnn` stores into the next-state buffer, for every cell
`(x, y)` of the cell loop, the value `v + k1/6 + k2/3 + k3/3 + k4/6` with no
saturation, where `v` is the value of the cell after the boundary condition and
`k1 .. k4` are the four RK4 stages of the cell function on the grid left by the
boundary condition with only the cell `(x, y)` perturbed (`rk4_value`).  The
two buffers have the same width, as they do throughout a run. -/
theorem run_cnn_step_rk4 (s : Nat) (cell : cell_fn) (bnd : bnd_fn) (input1 input2 : matrix)
    (dt t : ℚ) (rs : cnn_run) (hw : rs.next_state.w = rs.state.w) (x y : Nat)
    (hx1 : s ≤ x) (hx2 : x < rs.state.w - s) (hy1 : s ≤ y) (hy2 : y < rs.state.h - s) :
    cell_at (run_cnn_step s cell bnd input1 input2 dt t rs).state x y
      = rk4_value cell input1 input2 dt t (call_bnd bnd rs.state s) x y := by
  rw [run_cnn_step_cell s cell bnd input1 input2 dt t rs hw x y (by omega),
    if_pos ⟨hx1, hx2, hy1, hy2⟩]

/-- C1, at a concrete input: pure decay of the value 1/2 with `dt = 1` gives
`1/2 * (1 - 1 + 1/2 - 1/6 + 1/24) = 3/16`. -/
theorem run_cnn_step_rk4_witness :
    cell_at (run_cnn_step 1 decay_cell bound_constant (const3 0) (const3 0) 1 0
      (run_cnn_start (const3 (1/2)))).state 1 1 = 3/16 := by
  rw [run_cnn_step_rk4 1 decay_cell bound_constant (const3 0) (const3 0) 1 0
    (run_cnn_start (const3 (1/2))) rfl 1 1 (by decide) (by decide) (by decide) (by decide)]
  norm_num [rk4_value, decay_cell, linear3x3, centre_template, call_bnd, bound_constant,
    run_cnn_start, copy_matrix, const3, set_cell, cell_at, poke, phi]

/-- C2 (the code at the failing input): with state 1 everywhere and centre
weight `a[4] = 2`, `linear3x3` clamps the product `1 * 2` and returns `0`, while
the formula of the specification, which clamps the state first, gives `1`. -/
theorem linear3x3_clamps_product :
    linear3x3 1 1 (const3 1) (const3 0) (const3 0) 0 (centre_template 2) = 0 ∧
    linear3x3_spec 1 1 (const3 1) (const3 0) (centre_template 2) = 1 := by
  constructor
  · norm_num [linear3x3, const3, centre_template, phi]
  · norm_num [linear3x3_spec, const3, centre_template, phi, neighbor, cell_at,
      Finset.sum_range_succ]

/-- C3: for selectors `dij`, `dkl` in `{0,1,2,3}` and a cell with `1 ≤ x`,
`1 ≤ y`, `nonlinear3x3` returns `z - state[x,y]` plus the `a` sum over the
saturated state, the `b` sum over input1 and the `d` sum of the nonlinearity
applied to the selected neighbourhood value minus the selected centre value. -/
theorem nonlinear3x3_formula (x y : Nat) (state input1 input2 : matrix) (t : ℚ)
    (tmpl : template3x3) (hx : 1 ≤ x) (hy : 1 ≤ y) (hij : tmpl.dij < 4) (hkl : tmpl.dkl < 4) :
    nonlinear3x3 x y state input1 input2 t tmpl
      = tmpl.z - cell_at state x y
        + (∑ k in Finset.range 9, phi (neighbor state x y k) * tmpl.a k)
        + (∑ k in Finset.range 9, neighbor input1 x y k * tmpl.b k)
        + (∑ k in Finset.range 9,
            tmpl.phi (field_cell tmpl.dkl state input1 input2 (x - 1 + k % 3) (y - 1 + k / 3)
                      - field_cell tmpl.dij state input1 input2 x y) tmpl.phi_data
              * tmpl.d k) :=
  nonlinear3x3_expand x y state input1 input2 t tmpl hx hy hij hkl

/-- C3, at a concrete input: the centre cell of a 3x3 grid. -/
theorem nonlinear3x3_formula_witness :
    nonlinear3x3 1 1 ramp3 (const3 1) (const3 0) 0 (centre_template 2)
      = nonlinear3x3_spec 1 1 ramp3 (const3 1) (const3 0) (centre_template 2) :=
  nonlinear3x3_formula 1 1 ramp3 (const3 1) (const3 0) 0 (centre_template 2)
    (by decide) (by decide) (by decide) (by decide)

/-- C4 (the code at the failing input): with an all-zero `d`, state 1
everywhere and centre weight `a[4] = 2`, `nonlinear3x3` returns `1` but
`linear3x3` returns `0`. -/
theorem nonlinear3x3_zero_d_differs :
    (∀ k, (centre_template 2).d k = 0) ∧
    nonlinear3x3 1 1 (const3 1) (const3 0) (const3 0) 0 (centre_template 2) = 1 ∧
    linear3x3 1 1 (const3 1) (const3 0) (const3 0) 0 (centre_template 2) = 0 := by
  refine ⟨fun _ => rfl, ?_, ?_⟩
  · norm_num [nonlinear3x3, nonlinear3x3_ij, nonlinear3x3_kl, arr1, arr2, const3,
      centre_template, phi]
  · norm_num [linear3x3, const3, centre_template, phi]

/-- C5: with a positive step `run_cnn` returns, and whenever it returns, the
returned matrix has the dimensions of `init`, and each of its cells, margin
included, is `phi` of the same cell of the state buffer the time loop ended
with, hence lies in `[-1, 1]`. -/
theorem run_cnn_result_saturated (init input1_ input2_ : matrix) (s : Nat)
    (cell : cell_fn) (bnd : bnd_fn) (dt t_end : ℚ) :
    (0 < dt → ∃ fuel out, run_cnn fuel init input1_ input2_ s cell bnd dt t_end = some out) ∧
    ∀ fuel out, run_cnn fuel init input1_ input2_ s cell bnd dt t_end = some out →
      out.result.w = init.w ∧ out.result.h = init.h ∧
      ∃ last, run_cnn_loop s cell bnd (call_bnd bnd (copy_matrix input1_) s)
          (call_bnd bnd (copy_matrix input2_) s) dt t_end fuel 0 (run_cnn_start init)
          = some last ∧
        ∀ x y, x < init.w → y < init.h →
          cell_at out.result x y = phi (cell_at last.state x y) ∧
          -1 ≤ cell_at out.result x y ∧ cell_at out.result x y ≤ 1 := by
  refine ⟨run_cnn_terminates init input1_ input2_ s cell bnd dt t_end, ?_⟩
  intro fuel out h
  obtain ⟨last, hl, hr, _⟩ := run_cnn_some fuel init input1_ input2_ s cell bnd dt t_end out h
  obtain ⟨d1, d2, _, _⟩ := run_cnn_loop_dims s cell bnd _ _ dt t_end init fuel last hl
  have hw : out.result.w = init.w := by rw [hr]; exact d1
  have hh : out.result.h = init.h := by rw [hr]; exact d2
  refine ⟨hw, hh, last, hl, ?_⟩
  intro x y hx hy
  have e : cell_at out.result x y = phi (cell_at last.state x y) := by
    rw [hr, saturate_all_cell last.state x y (by rw [d1]; exact hx), if_pos (by rw [d2]; exact hy)]
  exact ⟨e, by rw [e]; exact phi_ge _, by rw [e]; exact phi_le _⟩

/-- C5, at a concrete input: a one-step run on a 3x3 grid. -/
theorem run_cnn_result_saturated_witness :
    ∃ out, run_cnn 1 (const3 (1/2)) (const3 0) (const3 0) 1 decay_cell bound_constant 1 1
        = some out ∧
      out.result.w = 3 ∧ out.result.h = 3 ∧
      -1 ≤ cell_at out.result 1 1 ∧ cell_at out.result 1 1 ≤ 1 := by
  have h := run_cnn_one_step 0 (const3 (1/2)) (const3 0) (const3 0) 1 decay_cell
    bound_constant 1 1 (by norm_num) (by norm_num)
  obtain ⟨hw, hh, _, _, hc⟩ := (run_cnn_result_saturated (const3 (1/2)) (const3 0) (const3 0) 1
    decay_cell bound_constant 1 1).2 1 _ h
  exact ⟨_, h, hw, hh, (hc 1 1 (by decide) (by decide)).2⟩

/-- C6: with `t_end = 0` the time loop performs no step (it hands back the
buffers it started with and `update` is never called), and `run_cnn` returns a
matrix of the dimensions of `init` whose every cell is `phi` of the same cell of
`init`. -/
theorem run_cnn_t_end_zero (fuel : Nat) (init input1_ input2_ : matrix) (s : Nat)
    (cell : cell_fn) (bnd : bnd_fn) (dt : ℚ) :
    run_cnn_loop s cell bnd (call_bnd bnd (copy_matrix input1_) s)
        (call_bnd bnd (copy_matrix input2_) s) dt 0 fuel 0 (run_cnn_start init)
      = some (run_cnn_start init) ∧
    ∃ out, run_cnn fuel init input1_ input2_ s cell bnd dt 0 = some out ∧
      out.observed = [] ∧ out.result.w = init.w ∧ out.result.h = init.h ∧
      ∀ x y, x < init.w → y < init.h → cell_at out.result x y = phi (cell_at init x y) := by
  refine ⟨run_cnn_loop_no_step _ _ _ _ _ _ _ _ (le_refl 0) _ _, _,
    run_cnn_no_step fuel init input1_ input2_ s cell bnd dt 0 (le_refl 0), rfl, rfl, rfl, ?_⟩
  intro x y hx hy
  exact (saturate_all_cell (copy_matrix init) x y hx).trans (if_pos hy)

/-- C6, at a concrete input: the corner cell 5 of a 3x3 grid comes back as 1. -/
theorem run_cnn_t_end_zero_witness :
    ∃ out, run_cnn 7 (const3 5) (const3 0) (const3 0) 1 decay_cell bound_zeroflux 1 0 = some out ∧
      out.observed = [] ∧ cell_at out.result 0 0 = 1 := by
  obtain ⟨_, out, h, ho, _, _, hc⟩ :=
    run_cnn_t_end_zero 7 (const3 5) (const3 0) (const3 0) 1 decay_cell bound_zeroflux 1
  refine ⟨out, h, ho, ?_⟩
  rw [hc 0 0 (by decide) (by decide)]
  norm_num [cell_at, const3, phi]

/-- C7 (counterexample): with `dt = 1 ≥ t_end = 1/2` the loop condition
`0 < t_end` holds once, so `run_cnn` completes one step: `update` is called
once and the centre cell 1/2 decays to 3/16, which is not `phi (1/2) = 1/2`. -/
theorem run_cnn_dt_ge_t_end_counter :
    (1/2 : ℚ) ≤ 1 ∧
    ∃ out, run_cnn 1 (const3 (1/2)) (const3 0) (const3 0) 1 decay_cell bound_constant 1 (1/2)
        = some out ∧
      out.observed.length = 1 ∧ cell_at out.result 1 1 = 3/16 ∧
      phi (cell_at (const3 (1/2)) 1 1) = 1/2 := by
  refine ⟨by norm_num, _, run_cnn_one_step 0 (const3 (1/2)) (const3 0) (const3 0) 1 decay_cell
    bound_constant 1 (1/2) (by norm_num) (by norm_num), rfl, ?_, ?_⟩
  · rw [saturate_all_cell _ 1 1 (by decide), if_pos (by decide),
      run_cnn_step_cell 1 decay_cell bound_constant _ _ 1 0 _ rfl 1 1 (by decide),
      if_pos (by decide)]
    norm_num [rk4_value, decay_cell, linear3x3, centre_template, call_bnd, bound_constant,
      run_cnn_start, copy_matrix, const3, set_cell, cell_at, poke, phi]
  · norm_num [cell_at, const3, phi]

/-- C7 (amended): for a run with `t_end ≤ dt` and at least one unit of fuel,
`run_cnn` returns; if `t_end ≤ 0` it completes zero steps and returns the
element-wise saturated `init`; if `0 < t_end` it completes exactly one step, the
one at `t = 0`, and every cell of the cell loop holds the saturated RK4 value. -/
theorem run_cnn_dt_ge_t_end_steps (fuel : Nat) (init input1_ input2_ : matrix) (s : Nat)
    (cell : cell_fn) (bnd : bnd_fn) (dt t_end : ℚ) (hdt : t_end ≤ dt) :
    ∃ out, run_cnn (fuel + 1) init input1_ input2_ s cell bnd dt t_end = some out ∧
      (t_end ≤ 0 → out.observed = [] ∧ out.result.w = init.w ∧ out.result.h = init.h ∧
        ∀ x y, x < init.w → y < init.h → cell_at out.result x y = phi (cell_at init x y)) ∧
      (0 < t_end → out.observed.length = 1 ∧
        ∀ x y, s ≤ x → x < init.w - s → s ≤ y → y < init.h - s →
          cell_at out.result x y = phi (rk4_value cell (call_bnd bnd (copy_matrix input1_) s)
            (call_bnd bnd (copy_matrix input2_) s) dt 0 (call_bnd bnd (copy_matrix init) s) x y)) := by
  by_cases h0 : 0 < t_end
  · refine ⟨_, run_cnn_one_step fuel init input1_ input2_ s cell bnd dt t_end h0 hdt, ?_, ?_⟩
    · intro h; exact absurd h0 (not_lt.mpr h)
    · intro _
      refine ⟨rfl, ?_⟩
      intro x y hx1 hx2 hy1 hy2
      have hd := run_cnn_step_dims s cell bnd (call_bnd bnd (copy_matrix input1_) s)
        (call_bnd bnd (copy_matrix input2_) s) dt 0 (run_cnn_start init)
      have ew : (run_cnn_start init).state.w = init.w := rfl
      have eh : (run_cnn_start init).state.h = init.h := rfl
      have ew2 : (run_cnn_start init).next_state.w = init.w := rfl
      have eh2 : (run_cnn_start init).next_state.h = init.h := rfl
      show cell_at (saturate_all _) x y = _
      rw [saturate_all_cell _ x y (by rw [hd.1, ew2]; omega), if_pos (by rw [hd.2.1, eh2]; omega),
        run_cnn_step_cell s cell bnd _ _ dt 0 _ rfl x y (by rw [ew]; omega),
        if_pos (by rw [ew, eh]; exact ⟨hx1, hx2, hy1, hy2⟩)]
      rfl
  · have hle : t_end ≤ 0 := not_lt.mp h0
    refine ⟨_, run_cnn_no_step (fuel + 1) init input1_ input2_ s cell bnd dt t_end hle, ?_, ?_⟩
    · intro _
      refine ⟨rfl, rfl, rfl, ?_⟩
      intro x y hx hy
      exact (saturate_all_cell (copy_matrix init) x y hx).trans (if_pos hy)
    · intro h; exact absurd h h0

/-- C7 (amended), at a concrete input: `t_end = -1 ≤ dt = 1` gives no step, and
the cell 5 comes back saturated to 1. -/
theorem run_cnn_dt_ge_t_end_steps_witness :
    (-1 : ℚ) ≤ 1 ∧
    ∃ out, run_cnn 1 (const3 5) (const3 0) (const3 0) 1 decay_cell bound_constant 1 (-1)
        = some out ∧ out.observed = [] ∧ cell_at out.result 1 1 = 1 := by
  obtain ⟨out, h, h1, _⟩ := run_cnn_dt_ge_t_end_steps 0 (const3 5) (const3 0) (const3 0) 1
    decay_cell bound_constant 1 (-1) (by norm_num)
  obtain ⟨ho, _, _, hc⟩ := h1 (by norm_num)
  refine ⟨by norm_num, out, h, ho, ?_⟩
  rw [hc 1 1 (by decide) (by decide)]
  norm_num [cell_at, const3, phi]

/-- C8 (counterexample): with the Constant boundary and a margin pre-filled
with 5, the corner cell of the matrix returned after one step is 1, not 5: the
final pass saturates the margin too. -/
theorem constant_margin_counter :
    ∃ out, run_cnn 1 (const3 5) (const3 0) (const3 0) 1 decay_cell bound_constant 1 1
        = some out ∧
      out.observed.length = 1 ∧ cell_at out.result 0 0 = 1 ∧ cell_at (const3 5) 0 0 = 5 := by
  refine ⟨_, run_cnn_one_step 0 (const3 5) (const3 0) (const3 0) 1 decay_cell
    bound_constant 1 1 (by norm_num) (by norm_num), rfl, ?_, ?_⟩
  · rw [saturate_all_cell _ 0 0 (by decide), if_pos (by decide),
      run_cnn_step_cell 1 decay_cell bound_constant _ _ 1 0 _ rfl 0 0 (by decide),
      if_neg (by decide)]
    norm_num [run_cnn_start, copy_matrix, const3, cell_at, phi]
  · norm_num [cell_at, const3]

/-- C8 (amended): with the Constant boundary and a positive step `run_cnn`
returns, and whenever it returns, every margin cell of the returned matrix whose
value in `init` lies in `[-1, 1]` is identical to the same margin cell of `init`. -/
theorem constant_margin_unchanged_in_range (init input1_ input2_ : matrix)
    (s : Nat) (cell : cell_fn) (dt t_end : ℚ) :
    (0 < dt → ∃ fuel out,
      run_cnn fuel init input1_ input2_ s cell bound_constant dt t_end = some out) ∧
    ∀ fuel out, run_cnn fuel init input1_ input2_ s cell bound_constant dt t_end = some out →
      ∀ x y, x < init.w → y < init.h → is_margin init.w init.h s x y →
        -1 ≤ cell_at init x y → cell_at init x y ≤ 1 →
        cell_at out.result x y = cell_at init x y := by
  refine ⟨run_cnn_terminates init input1_ input2_ s cell bound_constant dt t_end, ?_⟩
  intro fuel out h x y hx hy hm h1 h2
  obtain ⟨last, hl, hr, _⟩ :=
    run_cnn_some fuel init input1_ input2_ s cell bound_constant dt t_end out h
  obtain ⟨d1, d2, _, _⟩ := run_cnn_loop_dims s cell bound_constant _ _ dt t_end init fuel last hl
  rw [hr, saturate_all_cell last.state x y (by rw [d1]; exact hx), if_pos (by rw [d2]; exact hy),
    constant_margin_invariant s cell _ _ dt t_end init fuel last hl x y hx hm]
  exact phi_of_mem _ h1 h2

/-- C8 (amended), at a concrete input: the corner 1/2 of a 3x3 grid is returned
unchanged after one step. -/
theorem constant_margin_unchanged_in_range_witness :
    ∃ out, run_cnn 1 (const3 (1/2)) (const3 0) (const3 0) 1 decay_cell bound_constant 1 1
        = some out ∧ cell_at out.result 0 0 = 1/2 := by
  have h := run_cnn_one_step 0 (const3 (1/2)) (const3 0) (const3 0) 1 decay_cell
    bound_constant 1 1 (by norm_num) (by norm_num)
  refine ⟨_, h, ?_⟩
  rw [(constant_margin_unchanged_in_range (const3 (1/2)) (const3 0) (const3 0) 1 decay_cell
    1 1).2 1 _ h 0 0 (by decide) (by decide) (by decide)
    (by norm_num [cell_at, const3]) (by norm_num [cell_at, const3])]
  norm_num [cell_at, const3]

/-- C9: for a matrix with `w, h ≥ 3`, after `bound_zeroflux` with margin 1 row
`0` equals row `1`, row `h-1` equals row `h-2`, column `0` equals column `1`
and column `w-1` equals column `w-2`, over the whole row or column. -/
theorem bound_zeroflux_edges (m : matrix) (hw : 3 ≤ m.w) (hh : 3 ≤ m.h) :
    (∀ x, x < m.w → cell_at (bound_zeroflux m 1) x 0 = cell_at (bound_zeroflux m 1) x 1) ∧
    (∀ x, x < m.w →
      cell_at (bound_zeroflux m 1) x (m.h - 1) = cell_at (bound_zeroflux m 1) x (m.h - 2)) ∧
    (∀ y, y < m.h → cell_at (bound_zeroflux m 1) 0 y = cell_at (bound_zeroflux m 1) 1 y) ∧
    (∀ y, y < m.h →
      cell_at (bound_zeroflux m 1) (m.w - 1) y = cell_at (bound_zeroflux m 1) (m.w - 2) y) := by
  refine ⟨fun x hx => ?_, fun x hx => ?_, fun y hy => ?_, fun y hy => ?_⟩
  · rw [bound_zeroflux_cell m hw hh x 0 hx (by omega),
      bound_zeroflux_cell m hw hh x 1 hx (by omega)]
    congr 1
    split_ifs <;> omega
  · rw [bound_zeroflux_cell m hw hh x (m.h - 1) hx (by omega),
      bound_zeroflux_cell m hw hh x (m.h - 2) hx (by omega)]
    congr 1
    split_ifs <;> omega
  · rw [bound_zeroflux_cell m hw hh 0 y (by omega) hy,
      bound_zeroflux_cell m hw hh 1 y (by omega) hy]
    congr 1
    split_ifs <;> omega
  · rw [bound_zeroflux_cell m hw hh (m.w - 1) y (by omega) hy,
      bound_zeroflux_cell m hw hh (m.w - 2) y (by omega) hy]
    congr 1
    split_ifs <;> omega

/-- C9, at a concrete input: the 3x3 grid holding 0..8; afterwards every cell
holds 4, the value of the only interior cell. -/
theorem bound_zeroflux_edges_witness :
    (∀ x, x < 3 → cell_at (bound_zeroflux ramp3 1) x 0 = cell_at (bound_zeroflux ramp3 1) x 1) ∧
    cell_at (bound_zeroflux ramp3 1) 0 0 = 4 := by
  refine ⟨(bound_zeroflux_edges ramp3 (by decide) (by decide)).1, ?_⟩
  rw [bound_zeroflux_cell ramp3 (by decide) (by decide) 0 0 (by decide) (by decide)]
  norm_num [cell_at, ramp3]

/-- C10: for a matrix with `w, h ≥ 3`, after `bound_periodic` with margin 1 row
`0` equals row `h-2`, row `h-1` equals row `1`, column `0` equals column `w-2`
and column `w-1` equals column `1`, over the whole row or column. -/
theorem bound_periodic_edges (m : matrix) (hw : 3 ≤ m.w) (hh : 3 ≤ m.h) :
    (∀ x, x < m.w →
      cell_at (bound_periodic m 1) x 0 = cell_at (bound_periodic m 1) x (m.h - 2)) ∧
    (∀ x, x < m.w →
      cell_at (bound_periodic m 1) x (m.h - 1) = cell_at (bound_periodic m 1) x 1) ∧
    (∀ y, y < m.h →
      cell_at (bound_periodic m 1) 0 y = cell_at (bound_periodic m 1) (m.w - 2) y) ∧
    (∀ y, y < m.h →
      cell_at (bound_periodic m 1) (m.w - 1) y = cell_at (bound_periodic m 1) 1 y) := by
  refine ⟨fun x hx => ?_, fun x hx => ?_, fun y hy => ?_, fun y hy => ?_⟩
  · rw [bound_periodic_cell m hw hh x 0 hx (by omega),
      bound_periodic_cell m hw hh x (m.h - 2) hx (by omega)]
    congr 1
    split_ifs <;> omega
  · rw [bound_periodic_cell m hw hh x (m.h - 1) hx (by omega),
      bound_periodic_cell m hw hh x 1 hx (by omega)]
    congr 1
    split_ifs <;> first | omega | contradiction
  · rw [bound_periodic_cell m hw hh 0 y (by omega) hy,
      bound_periodic_cell m hw hh (m.w - 2) y (by omega) hy]
    congr 1
    split_ifs <;> omega
  · rw [bound_periodic_cell m hw hh (m.w - 1) y (by omega) hy,
      bound_periodic_cell m hw hh 1 y (by omega) hy]
    congr 1
    split_ifs <;> first | omega | contradiction

/-- C10, at a concrete input: the 3x3 grid holding 0..8; afterwards every cell
holds 4, the value of the only interior cell. -/
theorem bound_periodic_edges_witness :
    (∀ y, y < 3 → cell_at (bound_periodic ramp3 1) 2 y = cell_at (bound_periodic ramp3 1) 1 y) ∧
    cell_at (bound_periodic ramp3 1) 2 0 = 4 := by
  refine ⟨(bound_periodic_edges ramp3 (by decide) (by decide)).2.2.2, ?_⟩
  rw [bound_periodic_cell ramp3 (by decide) (by decide) 2 0 (by decide) (by decide)]
  norm_num [cell_at, ramp3]

/-- C11: `phi` is idempotent and its values lie in `[-1, 1]`. -/
theorem phi_idempotent_bounded (x : ℚ) : phi (phi x) = phi x ∧ -1 ≤ phi x ∧ phi x ≤ 1 :=
  ⟨phi_of_mem (phi x) (phi_ge x) (phi_le x), phi_ge x, phi_le x⟩

/-- C12: with the pure-decay template (`a`, `b` all zero, `z = 0`) the value
of `linear3x3` at every cell is minus the state of the cell; hence, for every
`dt` and `n`, after `n` iterations of the loop body of `run_cnn` every cell of
the cell loop holds its initial value times
`(1 - dt + dt^2/2 - dt^3/6 + dt^4/24)^n`, and so does the state buffer of every
run that returns, with `n` the number of completed steps (calls of `update`).
The boundary function is any one that leaves the cells of the cell loop alone. -/
theorem pure_decay (tmpl : template3x3) (ha : ∀ k, k < 9 → tmpl.a k = 0)
    (hb : ∀ k, k < 9 → tmpl.b k = 0) (hz : tmpl.z = 0)
    (s : Nat) (bnd : bnd_fn) (init input1 input2 : matrix) (dt : ℚ)
    (hbnd : ∀ m : matrix, m.w = init.w → m.h = init.h → ∀ x y, s ≤ x → x < init.w - s →
      s ≤ y → y < init.h - s → cell_at (call_bnd bnd m s) x y = cell_at m x y) :
    (∀ x y state j1 j2 t, linear3x3 x y state j1 j2 t tmpl = -cell_at state x y) ∧
    (∀ n x y, s ≤ x → x < init.w - s → s ≤ y → y < init.h - s →
      cell_at (run_cnn_steps s (fun x y st j1 j2 t => linear3x3 x y st j1 j2 t tmpl) bnd
          input1 input2 dt n (run_cnn_start init)).state x y
        = cell_at init x y * (1 - dt + dt^2/2 - dt^3/6 + dt^4/24) ^ n) ∧
    (∀ fuel t_end last,
      run_cnn_loop s (fun x y st j1 j2 t => linear3x3 x y st j1 j2 t tmpl) bnd input1 input2
        dt t_end fuel 0 (run_cnn_start init) = some last →
      ∀ x y, s ≤ x → x < init.w - s → s ≤ y → y < init.h - s →
        cell_at last.state x y
          = cell_at init x y * (1 - dt + dt^2/2 - dt^3/6 + dt^4/24) ^ last.observed.length) := by
  have hf := linear3x3_decay tmpl ha hb hz
  refine ⟨fun x y state j1 j2 t => hf x y state j1 j2 t, ?_, ?_⟩
  · intro n x y hx1 hx2 hy1 hy2
    exact run_cnn_steps_decay _ (fun x y state j1 j2 t => hf x y state j1 j2 t) s bnd init
      input1 input2 dt hbnd n x y hx1 hx2 hy1 hy2
  · intro fuel t_end last h x y hx1 hx2 hy1 hy2
    obtain ⟨n, _, hl, _, _⟩ := run_cnn_loop_returns_steps s _ bnd input1 input2 dt t_end
      (run_cnn_start init) fuel 0 last h
    have hlen : last.observed.length = n := by
      rw [hl, run_cnn_steps_observed]
      simp [run_cnn_start]
    rw [hlen, hl]
    exact run_cnn_steps_decay _ (fun x y state j1 j2 t => hf x y state j1 j2 t) s bnd init
      input1 input2 dt hbnd n x y hx1 hx2 hy1 hy2

/-- C12, at a concrete input: two steps of `dt = 1` with the ZeroFlux boundary
take the centre cell 4 of the 3x3 grid holding 0..8 to `4 * (3/8)^2 = 9/16`. -/
theorem pure_decay_witness :
    cell_at (run_cnn_steps 1 decay_cell bound_zeroflux (const3 0) (const3 0) 1 2
      (run_cnn_start ramp3)).state 1 1 = 9/16 := by
  have h := (pure_decay (centre_template 0) (fun k _ => by simp [centre_template])
    (fun _ _ => rfl) rfl 1 bound_zeroflux ramp3 (const3 0) (const3 0) 1
    (fun m hw hh x y hx1 hx2 hy1 hy2 =>
      builtin_bnd_interior ZEROFLUX m x y hx1 (by rw [hw]; exact hx2) hy1
        (by rw [hh]; exact hy2))).2.1 2 1 1 (by decide) (by decide) (by decide) (by decide)
  rw [show decay_cell = fun x y st j1 j2 t => linear3x3 x y st j1 j2 t (centre_template 0)
    from rfl, h]
  norm_num [cell_at, ramp3]

/-- C14: `py_set_template3x3` stores the template and selects `linear3x3` as
the cell function if and only if all nine entries of `d` are zero, and
`nonlinear3x3` otherwise. -/
theorem py_set_template3x3_dispatch (g : py_globals) (tm : template3x3) :
    (py_set_template3x3 g tm).tem3x3 = tm ∧
    ((py_set_template3x3 g tm).tem_func = tem_func_ptr.linear3x3 ↔ ∀ i, i < 9 → tm.d i = 0) ∧
    ((py_set_template3x3 g tm).tem_func = tem_func_ptr.nonlinear3x3 ↔
      ¬ ∀ i, i < 9 → tm.d i = 0) ∧
    ((∀ i, i < 9 → tm.d i = 0) → py_tem_cell (py_set_template3x3 g tm)
      = fun x y state input1 input2 t => linear3x3 x y state input1 input2 t tm) ∧
    ((¬ ∀ i, i < 9 → tm.d i = 0) → py_tem_cell (py_set_template3x3 g tm)
      = fun x y state input1 input2 t => nonlinear3x3 x y state input1 input2 t tm) := by
  refine ⟨rfl, ?_, ?_, ?_, ?_⟩
  · rw [← d_scan_nine]
    simp only [py_set_template3x3]
    cases h : d_scan tm.d 0 9 <;> simp
  · rw [← d_scan_nine]
    simp only [py_set_template3x3]
    cases h : d_scan tm.d 0 9 <;> simp
  · intro h
    simp [py_tem_cell, py_set_template3x3, (d_scan_nine tm.d).2 h]
  · intro h
    have hs : d_scan tm.d 0 9 = true := by
      cases hc : d_scan tm.d 0 9
      · exact absurd ((d_scan_nine tm.d).1 hc) h
      · rfl
    simp [py_tem_cell, py_set_template3x3, hs]

/-- C14, at a concrete input: a template with `d[3] = 1` selects `nonlinear3x3`. -/
theorem py_set_template3x3_dispatch_witness :
    py_tem_cell (py_set_template3x3 mismatch_globals
        { centre_template 2 with d := fun k => if k = 3 then 1 else 0 })
      = fun x y state input1 input2 t => nonlinear3x3 x y state input1 input2 t
          { centre_template 2 with d := fun k => if k = 3 then 1 else 0 } :=
  (py_set_template3x3_dispatch mismatch_globals
    { centre_template 2 with d := fun k => if k = 3 then 1 else 0 }).2.2.2.2
    (fun h => absurd (h 3 (by decide)) (by norm_num))

/-- C13 (the code at the failing input): in binary64 arithmetic ten additions
of the double `0.1` give `1 - 2^-53 < 1.0`, so the loop
`for (t = 0; t<1.0; t += 0.1)` runs eleven times; after eleven steps of that
`dt` the interior cell 1 has decayed (cell arithmetic taken exact) to less than
`0.3679 - 0.001`. -/
theorem end_to_end_eleven_steps :
    |b64_val b64_tenth - 1/10| < 1/2^57 ∧
    b64_val (b64_loop_time b64_tenth 10) = 1 - 1/2^53 ∧
    b64_time_loop b64_tenth b64_one 20 (0, 0) 0 = some 11 ∧
    cell_at (run_cnn_steps 1 decay_cell bound_constant (const_matrix 4 4 0)
        (const_matrix 4 4 0) (b64_val b64_tenth) 11 (run_cnn_start init4)).state 1 1
      < 3679/10000 - 1/1000 := by
  refine ⟨?_, ?_, by decide, ?_⟩
  · norm_num [b64_val, b64_tenth, abs_lt]
  · have h : b64_loop_time b64_tenth 10 = (9007199254740991, -53) := by decide
    rw [h]
    norm_num [b64_val]
  · rw [run_cnn_steps_decay decay_cell
      (linear3x3_decay (centre_template 0) (fun k _ => by simp [centre_template])
        (fun _ _ => rfl) rfl) 1 bound_constant init4 _ _ (b64_val b64_tenth)
      (fun m _ _ x y _ _ _ _ => rfl) 11 1 1 (by decide) (by decide) (by decide) (by decide)]
    norm_num [cell_at, init4, decay_factor, b64_val, b64_tenth]

/-- C15 (counterexample): in a one-step decay run the single call of `update`
receives a matrix whose centre cell is still the initial 1/2, while the state
completed by that step has the centre cell 3/16. -/
theorem observer_receives_old_state :
    ∃ out m, run_cnn 1 (const3 (1/2)) (const3 0) (const3 0) 1 decay_cell bound_constant 1 1
        = some out ∧
      out.observed = [m] ∧ cell_at m 1 1 = 1/2 ∧
      cell_at (run_cnn_step 1 decay_cell bound_constant (const3 0) (const3 0) 1 0
        (run_cnn_start (const3 (1/2)))).state 1 1 = 3/16 := by
  refine ⟨_, _, run_cnn_one_step 0 (const3 (1/2)) (const3 0) (const3 0) 1 decay_cell
    bound_constant 1 1 (by norm_num) (by norm_num), rfl, ?_, ?_⟩
  · norm_num [cell_at, call_bnd, bound_constant, copy_matrix, const3]
  · rw [run_cnn_step_cell 1 decay_cell bound_constant _ _ 1 0 _ rfl 1 1 (by decide),
      if_pos (by decide)]
    norm_num [rk4_value, decay_cell, linear3x3, centre_template, call_bnd, bound_constant,
      run_cnn_start, copy_matrix, const3, set_cell, cell_at, poke, phi]

/-- C15 (amended): with a positive step `run_cnn` returns, and whenever it
returns after `n` completed steps, `update` has been called exactly `n` times
and its `k`-th call (counting from 0) received the state buffer as it was before
that step computed, with the boundary condition applied: the state completed by
the previous step (the initial state for the first call), not the values the
step has just computed. -/
theorem observer_calls (init input1_ input2_ : matrix) (s : Nat) (cell : cell_fn)
    (bnd : bnd_fn) (dt t_end : ℚ) :
    (0 < dt → ∃ fuel out, run_cnn fuel init input1_ input2_ s cell bnd dt t_end = some out) ∧
    ∀ fuel out, run_cnn fuel init input1_ input2_ s cell bnd dt t_end = some out →
      ∃ n, out.observed.length = n ∧
        out.result = saturate_all (run_cnn_steps s cell bnd
          (call_bnd bnd (copy_matrix input1_) s) (call_bnd bnd (copy_matrix input2_) s) dt n
          (run_cnn_start init)).state ∧
        ∀ k, k < n → out.observed[k]? = some (call_bnd bnd (run_cnn_steps s cell bnd
          (call_bnd bnd (copy_matrix input1_) s) (call_bnd bnd (copy_matrix input2_) s) dt k
          (run_cnn_start init)).state s) := by
  refine ⟨run_cnn_terminates init input1_ input2_ s cell bnd dt t_end, ?_⟩
  intro fuel out h
  obtain ⟨last, hl, hr, ho⟩ := run_cnn_some fuel init input1_ input2_ s cell bnd dt t_end out h
  obtain ⟨n, _, hn, _, _⟩ := run_cnn_loop_returns_steps s cell bnd _ _ dt t_end
    (run_cnn_start init) fuel 0 last hl
  have hobs : out.observed = (List.range n).map (fun k => call_bnd bnd (run_cnn_steps s cell bnd
      (call_bnd bnd (copy_matrix input1_) s) (call_bnd bnd (copy_matrix input2_) s) dt k
      (run_cnn_start init)).state s) := by
    rw [ho, hn, run_cnn_steps_observed]
    simp [run_cnn_start]
  refine ⟨n, by rw [hobs]; simp, by rw [hr, hn], ?_⟩
  intro k hk
  rw [hobs]
  simp [hk]

/-- C15 (amended), at a concrete input: the one call of a one-step run receives
the initial matrix, centre cell 1/2. -/
theorem observer_calls_witness :
    ∃ out m, run_cnn 1 (const3 (1/2)) (const3 0) (const3 0) 1 decay_cell bound_constant 1 1
        = some out ∧ out.observed[0]? = some m ∧ cell_at m 1 1 = 1/2 := by
  have h := run_cnn_one_step 0 (const3 (1/2)) (const3 0) (const3 0) 1 decay_cell
    bound_constant 1 1 (by norm_num) (by norm_num)
  obtain ⟨n, hn, _, hk⟩ := (observer_calls (const3 (1/2)) (const3 0) (const3 0) 1 decay_cell
    bound_constant 1 1).2 1 _ h
  have h1 : n = 1 := hn.symm
  subst h1
  refine ⟨_, _, h, hk 0 (by decide), ?_⟩
  norm_num [cell_at, call_bnd, bound_constant, run_cnn_steps, run_cnn_start, copy_matrix, const3]

/-- C16 (the code at the failing input): for the doubles `dt = 0.1` and
`t_end = 1.0` the smallest `n` with `n * dt ≥ t_end` is 10, but in binary64
arithmetic the loop variable after ten additions is `1 - 2^-53`, still below
`t_end`, and the loop runs eleven times. -/
theorem time_loop_binary64_extra_step :
    b64_val b64_one ≤ 10 * b64_val b64_tenth ∧
    (∀ m : Nat, b64_val b64_one ≤ m * b64_val b64_tenth → 10 ≤ m) ∧
    b64_lt (b64_loop_time b64_tenth 10) b64_one = true ∧
    b64_lt (b64_loop_time b64_tenth 11) b64_one = false ∧
    b64_time_loop b64_tenth b64_one 20 (0, 0) 0 = some 11 := by
  refine ⟨by norm_num [b64_val, b64_one, b64_tenth], ?_, by decide, by decide, by decide⟩
  intro m hm
  by_contra hlt
  have h9 : (m : ℚ) ≤ 9 := by exact_mod_cast Nat.le_of_lt_succ (not_le.mp hlt)
  have hpos : (0 : ℚ) ≤ b64_val b64_tenth := by norm_num [b64_val, b64_tenth]
  have h1 : (m : ℚ) * b64_val b64_tenth ≤ 9 * b64_val b64_tenth :=
    mul_le_mul_of_nonneg_right h9 hpos
  have h2 : 9 * b64_val b64_tenth < b64_val b64_one := by
    norm_num [b64_val, b64_one, b64_tenth]
  linarith

/-- C17 (counterexample): with a 3x3 `init` and a 4x4 `input1` the call of
`py_apply_template` reports no error: it completes a step and returns a 3x3
matrix. -/
theorem py_apply_template_mismatch_runs :
    mismatch_globals.init.w = 3 ∧ mismatch_globals.init.h = 3 ∧
    mismatch_globals.input1.w = 4 ∧ mismatch_globals.input1.h = 4 ∧
    ∃ out, py_apply_template 1 mismatch_globals 1 1 = some out ∧
      out.observed.length = 1 ∧ out.result.w = 3 ∧ out.result.h = 3 := by
  have h := py_apply_template_one_step 0 mismatch_globals 1 1 (by norm_num) (by norm_num)
  have hd := run_cnn_step_dims 1 (py_tem_cell mismatch_globals)
    (py_bnd_func mismatch_globals.bnd)
    (call_bnd (py_bnd_func mismatch_globals.bnd)
      (copy_matrix (fill_bounds mismatch_globals.input1 1 mismatch_globals.bnd)) 1)
    (call_bnd (py_bnd_func mismatch_globals.bnd)
      (copy_matrix (fill_bounds mismatch_globals.input2 1 mismatch_globals.bnd)) 1)
    1 0 (run_cnn_start (fill_bounds mismatch_globals.init 1 mismatch_globals.bnd))
  exact ⟨rfl, rfl, rfl, rfl, _, h, rfl, hd.1, hd.2.1⟩

/-- C17 (amended): `py_apply_template` and `run_cnn` contain no dimension check
and have no error result: with a positive step the run proceeds and returns a
matrix of the dimensions of `init`, whatever the dimensions of `input1` and
`input2`. -/
theorem py_apply_template_no_dimension_check (g : py_globals) (dt t_end : ℚ) (hdt : 0 < dt) :
    ∃ fuel out, py_apply_template fuel g dt t_end = some out ∧
      out.result.w = g.init.w ∧ out.result.h = g.init.h := by
  obtain ⟨fuel, out, h⟩ := run_cnn_terminates (fill_bounds g.init 1 g.bnd)
    (fill_bounds g.input1 1 g.bnd) (fill_bounds g.input2 1 g.bnd) 1 (py_tem_cell g)
    (py_bnd_func g.bnd) dt t_end hdt
  obtain ⟨last, hl, hr, _⟩ := run_cnn_some fuel _ _ _ 1 _ _ dt t_end out h
  obtain ⟨d1, d2, _, _⟩ := run_cnn_loop_dims 1 _ _ _ _ dt t_end _ fuel last hl
  refine ⟨fuel, out, h, ?_, ?_⟩
  · rw [hr]; exact d1
  · rw [hr]; exact d2

/-- C17 (amended), at a concrete input: the run with the 4x4 `input1` returns a
3x3 matrix. -/
theorem py_apply_template_no_dimension_check_witness :
    ∃ fuel out, py_apply_template fuel mismatch_globals 1 1 = some out ∧
      out.result.w = 3 ∧ out.result.h = 3 :=
  py_apply_template_no_dimension_check mismatch_globals 1 1 (by norm_num)

/-- C18 (the code at the failing input): after
`py_set_template_custom(unit_cell, 2)` the global `s` is 2, but
`py_apply_template` does not depend on `s`: it runs the integrator with margin
width 1, and the cell `(1, 1)` of a 5x5 grid, which lies outside
`2 ≤ x < w-2`, is evaluated and moves from 0 to 1/2. -/
theorem py_custom_radius_ignored :
    radius2_globals.s = 2 ∧
    (∀ fuel dt t_end s2, py_apply_template fuel { radius2_globals with s := s2 } dt t_end
      = py_apply_template fuel radius2_globals dt t_end) ∧
    cell_at radius2_globals.init 1 1 = 0 ∧
    ∃ out, py_apply_template 1 radius2_globals (1/2) (1/2) = some out ∧
      cell_at out.result 1 1 = 1/2 := by
  have h := py_apply_template_one_step 0 radius2_globals (1/2) (1/2) (by norm_num)
    (by norm_num)
  refine ⟨rfl, fun _ _ _ _ => rfl, rfl, _, h, ?_⟩
  · show cell_at (saturate_all _) 1 1 = _
    have hd := run_cnn_step_dims 1 (py_tem_cell radius2_globals)
      (py_bnd_func radius2_globals.bnd)
      (call_bnd (py_bnd_func radius2_globals.bnd)
        (copy_matrix (fill_bounds radius2_globals.input1 1 radius2_globals.bnd)) 1)
      (call_bnd (py_bnd_func radius2_globals.bnd)
        (copy_matrix (fill_bounds radius2_globals.input2 1 radius2_globals.bnd)) 1)
      (1/2) 0 (run_cnn_start (fill_bounds radius2_globals.init 1 radius2_globals.bnd))
    rw [saturate_all_cell _ 1 1 (by rw [hd.1]; decide), if_pos (by rw [hd.2.1]; decide),
      run_cnn_step_cell 1 _ _ _ _ (1/2) 0 _ rfl 1 1 (by decide), if_pos (by decide)]
    have hv : cell_at (call_bnd (py_bnd_func radius2_globals.bnd)
        (run_cnn_start (fill_bounds radius2_globals.init 1 radius2_globals.bnd)).state 1) 1 1
        = 0 := by
      rw [builtin_bnd_interior _ _ 1 1 (by decide) (by decide) (by decide) (by decide)]
      exact fill_bounds_keep radius2_globals.init radius2_globals.bnd 1 1 (by decide)
        (by decide) (by decide) (by decide)
    simp only [rk4_value, hv]
    norm_num [py_tem_cell, radius2_globals, py_set_template_custom, unit_cell, phi]

/-- C19: `expand_matrix` returns a `(w+2, h+2)` matrix holding `m` in its
interior, whatever the uninitialised buffers hold, and `shrink_matrix` of it has
the dimensions and the elements of `m`. -/
theorem expand_shrink_roundtrip (m : matrix) (s s2 : Nat) (junk junk2 : Nat → ℚ) :
    (expand_matrix m s junk).w = m.w + 2 ∧ (expand_matrix m s junk).h = m.h + 2 ∧
    (∀ x y, x < m.w → y < m.h →
      cell_at (expand_matrix m s junk) (x + 1) (y + 1) = cell_at m x y) ∧
    (shrink_matrix (expand_matrix m s junk) s2 junk2).w = m.w ∧
    (shrink_matrix (expand_matrix m s junk) s2 junk2).h = m.h ∧
    (∀ x y, x < m.w → y < m.h →
      cell_at (shrink_matrix (expand_matrix m s junk) s2 junk2) x y = cell_at m x y) := by
  refine ⟨rfl, rfl, fun x y hx hy => expand_matrix_cell m s junk x y hx hy, rfl, rfl, ?_⟩
  intro x y hx hy
  rw [shrink_matrix_cell _ s2 junk2 x y (by show x < m.w + 2 - 2; omega)
    (by show y < m.h + 2 - 2; omega)]
  exact expand_matrix_cell m s junk x y hx hy

/-- C19, at a concrete input: the 3x3 grid holding 0..8 and buffers that start
out holding 7 everywhere. -/
theorem expand_shrink_roundtrip_witness :
    cell_at (expand_matrix ramp3 1 (fun _ => 7)) 3 3 = 8 ∧
    cell_at (shrink_matrix (expand_matrix ramp3 1 (fun _ => 7)) 1 (fun _ => 7)) 2 2 = 8 := by
  obtain ⟨_, _, h1, _, _, h2⟩ := expand_shrink_roundtrip ramp3 1 1 (fun _ => 7) (fun _ => 7)
  refine ⟨?_, ?_⟩
  · rw [h1 2 2 (by decide) (by decide)]
    norm_num [cell_at, ramp3]
  · rw [h2 2 2 (by decide) (by decide)]
    norm_num [cell_at, ramp3]

/-- C20 (the code at the failing input): `fill_matrix(m, 1.0)` passes the
value to `memset` as the byte `1`, so each element gets the bit pattern
`0x0101010101010101`, the double `4786178427519233 * 2^-1059` (about
`7.7e-304`), not `1`. -/
theorem fill_matrix_one_is_byte_fill :
    ∃ m1, fill_matrix (const3 0) 1 = some m1 ∧
      (∀ x y, x < 3 → y < 3 → cell_at m1 x y = 4786178427519233 * 2^(-1059 : ℤ)) ∧
      cell_at m1 0 0 ≠ 1 := by
  have hb : b64_decode (int_to_uchar (double_to_int 1) * 0x0101010101010101)
      = some (4786178427519233 * 2^(-1059 : ℤ)) := by
    norm_num [b64_decode, int_to_uchar, double_to_int]
  refine ⟨{ w := 3, h := 3, data := fun i =>
      if i < 3*3 then 4786178427519233 * 2^(-1059 : ℤ) else (const3 0).data i }, ?_, ?_, ?_⟩
  · simp only [fill_matrix, hb]
    rfl
  · intro x y hx hy
    simp only [cell_at]
    rw [if_pos (by omega)]
  · simp only [cell_at]
    norm_num

/-- C21: for a payload `p = [n, b1, l1, ..., bk, lk]` with `n = 2k+1` (so
`b_i = p[2i-1]`, `l_i = p[2i]`), `nonlin_pw_constant` returns `l_i` for the
smallest `i` with `x < b_i`, and the last level `l_k` when no breakpoint exceeds
`x`; `k` units of fuel are enough.  The bound `k ≥ 1` is not needed. -/
theorem nonlin_pw_constant_levels (k : Nat) (p : Nat → ℚ) (hp : p 0 = 2*k + 1)
    (x : ℚ) (fuel : Nat) (hf : k ≤ fuel) :
    (∀ i, 1 ≤ i → i ≤ k → (∀ i1, 1 ≤ i1 → i1 < i → ¬ x < p (2*i1 - 1)) → x < p (2*i - 1) →
      nonlin_pw_constant fuel x p = some (p (2*i))) ∧
    ((∀ i, 1 ≤ i → i ≤ k → ¬ x < p (2*i - 1)) →
      nonlin_pw_constant fuel x p = some (p (2*k))) := by
  constructor
  · intro i hi1 hik hmiss hx
    obtain ⟨j, rfl⟩ : ∃ j, i = j + 1 := ⟨i - 1, by omega⟩
    have h := pw_constant_loop_hit k p hp x j fuel 0 (by omega) (by omega)
      (fun j1 _ h2 => by
        have := hmiss (j1 + 1) (by omega) (by omega)
        rwa [show 2*(j1 + 1) - 1 = 2*j1 + 1 by omega] at this)
      (by rwa [show 2*(j + 1) - 1 = 2*(0 + j) + 1 by omega] at hx)
    rw [show 2*(0 + j) + 2 = 2*(j + 1) by omega] at h
    exact h
  · intro hmiss
    exact pw_constant_loop_miss k p hp x k fuel 0 (by omega) hf
      (fun j1 _ h2 => by
        have := hmiss (j1 + 1) (by omega) (by omega)
        rwa [show 2*(j1 + 1) - 1 = 2*j1 + 1 by omega] at this)

/-- C21, at a concrete input: breakpoints 0 and 1 with levels 10 and 20; the
value 1/2 is below the second breakpoint only. -/
theorem nonlin_pw_constant_levels_witness :
    nonlin_pw_constant 2 (1/2) (payload [5, 0, 10, 1, 20]) = some 20 := by
  have h := (nonlin_pw_constant_levels 2 (payload [5, 0, 10, 1, 20])
    (by norm_num [payload]) (1/2) 2 (Nat.le_refl 2)).1 2 (by decide) (by decide)
    (fun i1 h1 h2 => by
      have e : i1 = 1 := by omega
      subst e
      norm_num [payload])
    (by norm_num [payload])
  rw [h]
  norm_num [payload]

/-- C22: for a payload `p = [n, b1, s1, c1, ..., bk, sk, ck]` with `k ≥ 1` and
`n = 3k+1` (so `b_i = p[3i-2]`, `s_i = p[3i-1]`, `c_i = p[3i]`),
`nonlin_pw_linear` returns `s_i*x + c_i` for the smallest `i` with `x < b_i`, and
`s_k*x + c_k` when no breakpoint exceeds `x`; `k` units of fuel are enough. -/
theorem nonlin_pw_linear_segments (k : Nat) (hk : 1 ≤ k) (p : Nat → ℚ) (hp : p 0 = 3*k + 1)
    (x : ℚ) (fuel : Nat) (hf : k ≤ fuel) :
    (∀ i, 1 ≤ i → i ≤ k → (∀ i1, 1 ≤ i1 → i1 < i → ¬ x < p (3*i1 - 2)) → x < p (3*i - 2) →
      nonlin_pw_linear fuel x p = some (p (3*i - 1) * x + p (3*i))) ∧
    ((∀ i, 1 ≤ i → i ≤ k → ¬ x < p (3*i - 2)) →
      nonlin_pw_linear fuel x p = some (p (3*k - 1) * x + p (3*k))) := by
  constructor
  · intro i hi1 hik hmiss hx
    obtain ⟨j, rfl⟩ : ∃ j, i = j + 1 := ⟨i - 1, by omega⟩
    have h := pw_linear_loop_hit k hk p hp x j fuel 0 (by omega) (by omega)
      (fun j1 _ h2 => by
        have := hmiss (j1 + 1) (by omega) (by omega)
        rwa [show 3*(j1 + 1) - 2 = 3*j1 + 1 by omega] at this)
      (by rwa [show 3*(j + 1) - 2 = 3*(0 + j) + 1 by omega] at hx)
    rw [show 3*(0 + j) + 2 = 3*(j + 1) - 1 by omega,
      show 3*(0 + j) + 3 = 3*(j + 1) by omega] at h
    rw [mul_comm (p (3*(j + 1) - 1)) x]
    exact h
  · intro hmiss
    rw [mul_comm (p (3*k - 1)) x]
    exact pw_linear_loop_miss k hk p hp x k fuel 0 (by omega) hf
      (fun j1 _ h2 => by
        have := hmiss (j1 + 1) (by omega) (by omega)
        rwa [show 3*(j1 + 1) - 2 = 3*j1 + 1 by omega] at this)

/-- C22, at a concrete input: segments `x + 2` below 0 and `3x + 4` below 5; the
value 1 falls into the second one. -/
theorem nonlin_pw_linear_segments_witness :
    nonlin_pw_linear 2 1 (payload [7, 0, 1, 2, 5, 3, 4]) = some 7 := by
  have h := (nonlin_pw_linear_segments 2 (by decide) (payload [7, 0, 1, 2, 5, 3, 4])
    (by norm_num [payload]) 1 2 (Nat.le_refl 2)).1 2 (by decide) (by decide)
    (fun i1 h1 h2 => by
      have e : i1 = 1 := by omega
      subst e
      norm_num [payload])
    (by norm_num [payload])
  rw [h]
  norm_num [payload]

/-- C23 (the code at the failing input): `img_to_data` maps a gray pixel of
level `g` to the sample `1 - g/127.5`, but `data_to_img` scales by `-127`, not
`-127.5`, and truncates: white (255) comes back as 254, and every level from 1
to 255 comes back one less, while `update_animate`, which scales by `-127.5`,
gets every level back. -/
theorem pixel_roundtrip_off_by_one :
    (∀ g : Nat, img_to_data_sample (SDL_Color.mk g g g) = 1 - g/127.5) ∧
    data_to_img_gray (img_to_data_sample (SDL_Color.mk 255 255 255)) = 254 ∧
    (∀ g : Nat, 1 ≤ g → g ≤ 255 →
      data_to_img_gray (img_to_data_sample (SDL_Color.mk g g g)) = g - 1) ∧
    (∀ g : Nat, g ≤ 255 →
      update_animate_gray (img_to_data_sample (SDL_Color.mk g g g)) = g) :=
  ⟨img_to_data_sample_gray, data_to_img_gray_sample 255 (by decide) (by decide),
    data_to_img_gray_sample, update_animate_gray_sample⟩

/-- C26: with the Constant boundary and a positive step `run_cnn` returns, and
whenever it returns, each margin cell of the returned matrix is `phi` of the
same margin cell of `init`. -/
theorem constant_margin_saturated (init input1_ input2_ : matrix) (s : Nat) (cell : cell_fn)
    (dt t_end : ℚ) :
    (0 < dt → ∃ fuel out,
      run_cnn fuel init input1_ input2_ s cell bound_constant dt t_end = some out) ∧
    ∀ fuel out, run_cnn fuel init input1_ input2_ s cell bound_constant dt t_end = some out →
      ∀ x y, x < init.w → y < init.h → is_margin init.w init.h s x y →
        cell_at out.result x y = phi (cell_at init x y) := by
  refine ⟨run_cnn_terminates init input1_ input2_ s cell bound_constant dt t_end, ?_⟩
  intro fuel out h x y hx hy hm
  obtain ⟨last, hl, hr, _⟩ :=
    run_cnn_some fuel init input1_ input2_ s cell bound_constant dt t_end out h
  obtain ⟨d1, d2, _, _⟩ := run_cnn_loop_dims s cell bound_constant _ _ dt t_end init fuel last hl
  rw [hr, saturate_all_cell last.state x y (by rw [d1]; exact hx), if_pos (by rw [d2]; exact hy),
    constant_margin_invariant s cell _ _ dt t_end init fuel last hl x y hx hm]

/-- C26, at a concrete input: the corner 5 of a 3x3 grid is returned as 1 after
one step. -/
theorem constant_margin_saturated_witness :
    ∃ out, run_cnn 1 (const3 5) (const3 0) (const3 0) 1 decay_cell bound_constant 1 1
        = some out ∧ cell_at out.result 2 2 = 1 := by
  have h := run_cnn_one_step 0 (const3 5) (const3 0) (const3 0) 1 decay_cell
    bound_constant 1 1 (by norm_num) (by norm_num)
  refine ⟨_, h, ?_⟩
  rw [(constant_margin_saturated (const3 5) (const3 0) (const3 0) 1 decay_cell 1 1).2 1 _ h
    2 2 (by decide) (by decide) (by decide)]
  norm_num [cell_at, const3, phi]

/-- C27: for a matrix with `w, h ≥ 3` and margin 1, `bound_zeroflux`,
`bound_periodic` and `bound_constant` keep the dimensions and leave every
interior cell (`1 ≤ x ≤ w-2`, `1 ≤ y ≤ h-2`) unchanged. -/
theorem boundary_frame (m : matrix) (hw : 3 ≤ m.w) (hh : 3 ≤ m.h) :
    ((bound_zeroflux m 1).w = m.w ∧ (bound_zeroflux m 1).h = m.h) ∧
    ((bound_periodic m 1).w = m.w ∧ (bound_periodic m 1).h = m.h) ∧
    ((bound_constant m 1).w = m.w ∧ (bound_constant m 1).h = m.h) ∧
    ∀ x y, 1 ≤ x → x ≤ m.w - 2 → 1 ≤ y → y ≤ m.h - 2 →
      cell_at (bound_zeroflux m 1) x y = cell_at m x y ∧
      cell_at (bound_periodic m 1) x y = cell_at m x y ∧
      cell_at (bound_constant m 1) x y = cell_at m x y := by
  refine ⟨⟨rfl, rfl⟩, ⟨rfl, rfl⟩, ⟨rfl, rfl⟩, ?_⟩
  intro x y hx1 hx2 hy1 hy2
  exact ⟨bound_zeroflux_interior m x y hx1 (by omega) hy1 (by omega),
    bound_periodic_interior m x y hx1 (by omega) hy1 (by omega), rfl⟩

/-- C27, at a concrete input: the centre 4 of the 3x3 grid holding 0..8. -/
theorem boundary_frame_witness :
    cell_at (bound_zeroflux ramp3 1) 1 1 = 4 ∧ cell_at (bound_periodic ramp3 1) 1 1 = 4 := by
  obtain ⟨h1, h2, _⟩ := (boundary_frame ramp3 (by decide) (by decide)).2.2.2 1 1
    (by decide) (by decide) (by decide) (by decide)
  rw [h1, h2]
  norm_num [cell_at, ramp3]

/-- C24 (the code at the failing input): `fill_bounds(m, 1, val)` sets row
`0`, row `h-1` and column `0`, but its second loop writes column `0` twice and
never column `w-1`: on a 3x3 grid of zeros filled with 5 the margin cell
`(2, 1)` stays 0, and in general the cells of column `w-1` between the corners
keep their old value. -/
theorem fill_bounds_misses_right_column :
    cell_at (fill_bounds (const3 0) 1 5) 0 1 = 5 ∧
    cell_at (fill_bounds (const3 0) 1 5) 2 1 = 0 ∧
    (∀ (m : matrix) (val : ℚ) (y : Nat), 2 ≤ m.w → 1 ≤ y → y + 2 ≤ m.h →
      cell_at (fill_bounds m 1 val) (m.w - 1) y = cell_at m (m.w - 1) y) := by
  refine ⟨?_, ?_, ?_⟩
  · rw [fill_bounds_cell (const3 0) 5 0 1 (by decide) (by decide), if_pos (by decide)]
  · rw [fill_bounds_keep (const3 0) 5 2 1 (by decide) (by decide) (by decide) (by decide)]
    rfl
  · intro m val y hw hy1 hy2
    exact fill_bounds_keep m val (m.w - 1) y (by omega) (by omega) hy1 (by omega)

/-- C25: in sequential cell order the cell pass of one step leaves the current
state buffer exactly as the boundary condition left it; every cell of the cell
loop gets the RK4 value computed from that one snapshot and every other cell of
the new state keeps what the other buffer held; and visiting the cells of the
cell loop in any other order gives the same two buffers. -/
theorem cell_pass_snapshot (s : Nat) (cell : cell_fn) (bnd : bnd_fn) (input1 input2 : matrix)
    (dt t : ℚ) (rs : cnn_run) (hw : rs.next_state.w = rs.state.w) :
    (run_cnn_step s cell bnd input1 input2 dt t rs).next_state = call_bnd bnd rs.state s ∧
    (∀ x y, x < rs.state.w →
      cell_at (run_cnn_step s cell bnd input1 input2 dt t rs).state x y
        = if s ≤ x ∧ x < rs.state.w - s ∧ s ≤ y ∧ y < rs.state.h - s
          then rk4_value cell input1 input2 dt t (call_bnd bnd rs.state s) x y
          else cell_at rs.next_state x y) ∧
    (∀ cells : List (Nat × Nat),
      (∀ x y, (x, y) ∈ cells ↔ s ≤ x ∧ x < rs.state.w - s ∧ s ≤ y ∧ y < rs.state.h - s) →
      cell_pass_in_order cell input1 input2 dt t cells
          (call_bnd bnd rs.state s, rs.next_state)
        = ((run_cnn_step s cell bnd input1 input2 dt t rs).next_state,
           (run_cnn_step s cell bnd input1 input2 dt t rs).state)) :=
  ⟨run_cnn_step_next s cell bnd input1 input2 dt t rs,
    fun x y hx => run_cnn_step_cell s cell bnd input1 input2 dt t rs hw x y hx,
    fun cells hcells => cell_pass_any_order s cell bnd input1 input2 dt t rs hw cells hcells⟩

/-- C25, at a concrete input: the four interior cells of the 4x4 grid visited
in the reverse of the order of the loops. -/
theorem cell_pass_snapshot_witness :
    cell_pass_in_order decay_cell (const_matrix 4 4 0) (const_matrix 4 4 0) 1 0
        [(2, 2), (2, 1), (1, 2), (1, 1)]
        (call_bnd bound_zeroflux (run_cnn_start init4).state 1, (run_cnn_start init4).next_state)
      = ((run_cnn_step 1 decay_cell bound_zeroflux (const_matrix 4 4 0) (const_matrix 4 4 0)
            1 0 (run_cnn_start init4)).next_state,
         (run_cnn_step 1 decay_cell bound_zeroflux (const_matrix 4 4 0) (const_matrix 4 4 0)
            1 0 (run_cnn_start init4)).state) :=
  (cell_pass_snapshot 1 decay_cell bound_zeroflux (const_matrix 4 4 0) (const_matrix 4 4 0)
    1 0 (run_cnn_start init4) rfl).2.2 [(2, 2), (2, 1), (1, 2), (1, 1)]
    (fun x y => by
      show _ ↔ 1 ≤ x ∧ x < 4 - 1 ∧ 1 ≤ y ∧ y < 4 - 1
      simp only [List.mem_cons, Prod.mk.injEq, List.mem_singleton, List.not_mem_nil, or_false]
      omega)

/-- C28: for `state`, `input1` and `input2` of the same dimensions `w, h ≥ 3`,
selectors `dij, dkl < 4` and a cell `(x, y)` of the cell loop with margin 1,
every offset at which `linear3x3` and `nonlinear3x3` read one of the three
buffers lies below `w*h`, the selectors and the fixed second index stay inside
the local arrays `ij` and `kl`, the value of either evaluator is determined by
the buffer contents below `w*h`, the offset `y*w + x` stored to by the cell loop
and by the final pass lies below `w*h`, and one step and the final pass leave
everything from offset `w*h` on untouched. -/
theorem access_in_range (state input1 input2 : matrix) (tmpl : template3x3)
    (hw : 3 ≤ state.w) (hh : 3 ≤ state.h)
    (hw1 : input1.w = state.w) (hh1 : input1.h = state.h)
    (hw2 : input2.w = state.w) (hh2 : input2.h = state.h)
    (hij : tmpl.dij < 4) (hkl : tmpl.dkl < 4)
    (x y : Nat) (hx1 : 1 ≤ x) (hx : x ≤ state.w - 2) (hy1 : 1 ≤ y) (hy : y ≤ state.h - 2) :
    (∀ i ∈ linear3x3_state_reads x y state, i < state.w*state.h) ∧
    (∀ i ∈ stencil3x3 input1.w x y, i < input1.w*input1.h) ∧
    (∀ i ∈ nonlinear3x3_reads x y state, i < state.w*state.h) ∧
    (∀ i ∈ nonlinear3x3_reads x y input1, i < input1.w*input1.h) ∧
    (∀ i ∈ nonlinear3x3_reads x y input2, i < input2.w*input2.h) ∧
    (tmpl.dij < (nonlinear3x3_ij x y state input1 input2).length ∧
      tmpl.dkl < (nonlinear3x3_kl x y state input1 input2).length ∧
      ∀ row ∈ nonlinear3x3_kl x y state input1 input2, row.length = 9) ∧
    (∀ (state1 input11 input21 : matrix) (t : ℚ),
      state1.w = state.w → input11.w = input1.w → input21.w = input2.w →
      (∀ i, i < state.w*state.h → state1.data i = state.data i) →
      (∀ i, i < input1.w*input1.h → input11.data i = input1.data i) →
      (∀ i, i < input2.w*input2.h → input21.data i = input2.data i) →
      linear3x3 x y state1 input11 input21 t tmpl = linear3x3 x y state input1 input2 t tmpl ∧
      nonlinear3x3 x y state1 input11 input21 t tmpl
        = nonlinear3x3 x y state input1 input2 t tmpl) ∧
    y*state.w + x < state.w*state.h ∧
    (∀ (cell : cell_fn) (bnd : bnd_fn) (dt t : ℚ) (next_state : matrix) (obs : List matrix),
      next_state.w = state.w → next_state.h = state.h → ∀ i, state.w*state.h ≤ i →
      (run_cnn_step 1 cell bnd input1 input2 dt t
        { state := state, next_state := next_state, observed := obs }).state.data i
        = next_state.data i) ∧
    (∀ x1 y1, x1 < state.w → y1 < state.h → y1*state.w + x1 < state.w*state.h) ∧
    (∀ i, state.w*state.h ≤ i → (saturate_all state).data i = state.data i) := by
  have st := stencil3x3_lt state.w state.h x y hx1 (by omega) hy1 (by omega)
  have ce := (cell_offset_lt state.w state.h x y (by omega) (by omega)).2
  have rd : ∀ m : matrix, m.w = state.w → m.h = state.h →
      ∀ i ∈ nonlinear3x3_reads x y m, i < m.w*m.h := by
    intro m e1 e2 i hi
    rw [e1, e2]
    simp only [nonlinear3x3_reads, List.mem_cons, e1] at hi
    rcases hi with h | h
    · rw [h]
      exact ce
    · exact st i h
  have rl : ∀ i ∈ linear3x3_state_reads x y state, i < state.w*state.h := by
    intro i hi
    simp only [linear3x3_state_reads, List.mem_append, List.mem_singleton] at hi
    rcases hi with h | h
    · exact st i h
    · rw [h]
      exact ce
  have ri : ∀ i ∈ stencil3x3 input1.w x y, i < input1.w*input1.h := by
    rw [hw1, hh1]
    exact st
  refine ⟨rl, ri, rd state rfl rfl, rd input1 hw1 hh1, rd input2 hw2 hh2, ⟨?_, ?_, ?_⟩, ?_,
    (cell_offset_lt state.w state.h x y (by omega) (by omega)).1, ?_, ?_, ?_⟩
  · simpa [nonlinear3x3_ij] using hij
  · simpa [nonlinear3x3_kl] using hkl
  · intro row hrow
    simp only [nonlinear3x3_kl, List.mem_cons, List.mem_singleton, List.not_mem_nil,
      or_false] at hrow
    rcases hrow with h | h | h | h <;> rw [h] <;> rfl
  · intro state1 input11 input21 t e e1 e2 hs hi hj
    exact ⟨linear3x3_congr x y state state1 input1 input11 input2 input21 t t tmpl e e1
        (fun i m => hs i (rl i m)) (fun i m => hi i (ri i m)),
      nonlinear3x3_congr x y state state1 input1 input11 input2 input21 t t tmpl e e1 e2
        (fun i m => hs i (rd state rfl rfl i m)) (fun i m => hi i (rd input1 hw1 hh1 i m))
        (fun i m => hj i (rd input2 hw2 hh2 i m))⟩
  · intro cell bnd dt t next_state obs e1 _ i hi
    exact run_cnn_step_frame 1 cell bnd input1 input2 dt t
      { state := state, next_state := next_state, observed := obs } e1 (by show 0 < state.w; omega)
      i hi
  · intro x1 y1 h1 h2
    exact (cell_offset_lt state.w state.h x1 y1 h1 h2).1
  · intro i hi
    exact saturate_all_frame state (by omega) i hi

/-- C28, at a concrete input: the centre cell of the 3x3 grid holding 0..8
reads the offsets 0..8 only and is stored at offset 4. -/
theorem access_in_range_witness :
    (∀ i ∈ linear3x3_state_reads 1 1 ramp3, i < ramp3.w*ramp3.h) ∧
    (∀ i ∈ nonlinear3x3_reads 1 1 ramp3, i < ramp3.w*ramp3.h) ∧
    1*ramp3.w + 1 < ramp3.w*ramp3.h :=
  ⟨(access_in_range ramp3 ramp3 ramp3 (centre_template 0) (by decide) (by decide) rfl rfl
      rfl rfl (by decide) (by decide) 1 1 (by decide) (by decide) (by decide) (by decide)).1,
    (access_in_range ramp3 ramp3 ramp3 (centre_template 0) (by decide) (by decide) rfl rfl
      rfl rfl (by decide) (by decide) 1 1 (by decide) (by decide) (by decide)
      (by decide)).2.2.1,
    (access_in_range ramp3 ramp3 ramp3 (centre_template 0) (by decide) (by decide) rfl rfl
      rfl rfl (by decide) (by decide) 1 1 (by decide) (by decide) (by decide)
      (by decide)).2.2.2.2.2.2.2.1⟩

end PyCNN
